import Mathlib

/-!
Verification development for the rmw_connextdds common implementation
(`rmw_connextdds_common/src/common/rmw_impl.cpp`).

Two subsystems are embedded:

* the request/reply correlation protocol implemented by
  `RMW_Connext_Client` / `RMW_Connext_Service`
  (`send_request`, `take_request`, `send_response`, `take_response`,
  `requestreply_header_to_dds`, `requestreply_header_from_dds`), and
* the wait/notification coordinator `RMW_Connext_WaitSet`
  (`require_attach`, `attach`, `detach`, `is_attached`, `invalidate`,
  `process_wait`, the entry section of `wait`, and the tail of `wait`).

Machine pointers are modelled as `Nat` identifiers; pointer comparison is
identifier equality.  Payloads are abstracted to `Nat`.  The engine (DDS)
is an external collaborator: its return codes and the set of active
conditions returned by the blocking multi-wait are inputs of the model.
-/

namespace RmwConnext

/-! ## Request/reply correlation protocol -/

/-- A 16-byte DDS GUID.  The code only copies GUIDs (`memcpy` of 16 bytes)
and compares them for equality, so a byte list with structural equality is
a faithful model. -/
abbrev Gid := List Nat

/-- A DDS sample identity: writer GUID plus sequence number.  This is the
request/reply correlation key (also the shape of `rmw_request_id_t`:
`writer_guid` + `sequence_number`). -/
structure SampleIdentity where
  writer_guid : Gid
  sequence_number : Int
deriving DecidableEq, Repr

/-- The correlation handle surfaced to RMW callers (`rmw_request_id_t`). -/
abbrev RequestId := SampleIdentity

/-- Placeholder identity (`DDS_GUID_INITIALIZER` /
`DDS_SEQUENCE_NUMBER_UNKNOWN`): the identity slot that
`requestreply_header_to_dds` leaves untouched. -/
def unknownIdentity : SampleIdentity := ⟨List.replicate 16 0, -1⟩

/-- A sample on the wire as the engine presents it to a taker: the sample
identity, the related sample identity (both from `DDS_SampleInfo`), and the
user payload. -/
structure WireMsg where
  identity : SampleIdentity
  related : SampleIdentity
  payload : Nat
deriving DecidableEq, Repr

/-- `RMW_Connext_RequestReplyMessage`: request flag, gid, sequence number
and payload. -/
structure RequestReplyMessage where
  request : Bool
  gid : Gid
  sn : Int
  payload : Nat
deriving DecidableEq, Repr

/-- `RMW_Connext_Publisher::requestreply_header_to_dds` (rmw_impl.cpp
lines 1373-1399): for a request the (gid, sn) pair is written into the
sample identity, for a reply into the related sample identity; the other
slot keeps its initializer value. -/
def requestreply_header_to_dds (rr : RequestReplyMessage) :
    SampleIdentity × SampleIdentity :=
  if rr.request then (⟨rr.gid, rr.sn⟩, unknownIdentity)
  else (unknownIdentity, ⟨rr.gid, rr.sn⟩)

/-- `RMW_Connext_Subscriber::requestreply_header_from_dds` (lines
2082-2101): a taken request reads the sample identity, a taken reply reads
the related sample identity. -/
def requestreply_header_from_dds (request : Bool)
    (identity related : SampleIdentity) : SampleIdentity :=
  if request then identity else related

/-- The per-client state used by `RMW_Connext_Client::send_request`:
the GUID of its request publisher and the `next_request_id` counter. -/
structure ClientState where
  gid : Gid
  next_request_id : Int
deriving DecidableEq, Repr

/-- `RMW_Connext_Client::send_request` (lines 2988-3030), in the
`RMW_CONNEXT_EMULATE_REQUESTREPLY` configuration described by the spec:
`*sequence_id = ++this->next_request_id`, `rr_msg.sn = *sequence_id`,
`rr_msg.gid = *this->request_pub->gid()`, then the message is written.
Returns (updated client, returned sequence id, wire sample). -/
def send_request (c : ClientState) (p : Nat) : ClientState × Int × WireMsg :=
  let sn := c.next_request_id + 1
  let rr : RequestReplyMessage := ⟨true, c.gid, sn, p⟩
  let ids := requestreply_header_to_dds rr
  ({ c with next_request_id := sn }, sn, ⟨ids.1, ids.2, p⟩)

/-- Modelled from the spec: `rmw_connextdds_filter_sample` (declared in the
vendor API headers, not part of this translation unit).  Per spec §6 the
filter applied on a client's reply subscription accepts exactly the samples
whose related-request origin equals the client's own request-publisher
identity. -/
def filter_sample (request_writer_guid : Gid) (m : WireMsg) : Bool :=
  m.related.writer_guid == request_writer_guid

/-- `RMW_Connext_Subscriber::take_next` (lines 2103-2215) restricted to one
sample: the first sample accepted by the filter is taken, filtered-out
samples are dropped. -/
def take_first (acc : WireMsg → Bool) : List WireMsg → Option WireMsg
  | [] => none
  | m :: rest => if acc m then some m else take_first acc rest

/-- `RMW_Connext_Client::take_response` (lines 2932-2986): take one message
from the reply subscription (filtered by the client's request-publisher
identity); on success the returned `rmw_request_id_t` is filled from the
reply's related sample identity (`request_id.sequence_number = rr_msg.sn`,
`memcpy(request_id.writer_guid, rr_msg.gid.data, 16)`).  `none` models
`taken = false`. -/
def take_response (c : ClientState) (replies : List WireMsg) :
    Option (Nat × RequestId) :=
  (take_first (filter_sample c.gid) replies).map
    (fun m => (m.payload, requestreply_header_from_dds false m.identity m.related))

/-- `RMW_Connext_Service::take_request` (lines 3208-3260): take one message
from the request subscription (no filter: services see all requests); the
returned header is filled from the request's sample identity. -/
def take_request (requests : List WireMsg) : Option (Nat × RequestId) :=
  (take_first (fun _ => true) requests).map
    (fun m => (m.payload, requestreply_header_from_dds true m.identity m.related))

/-- `RMW_Connext_Service::send_response` (lines 3262-3286):
`rr_msg.sn = request_id->sequence_number`,
`memcpy(rr_msg.gid.data, request_id->writer_guid, 16)`, `request = false`;
the reply's related sample identity therefore carries the handle passed by
the caller. -/
def send_response (request_id : RequestId) (p : Nat) : WireMsg :=
  let rr : RequestReplyMessage :=
    ⟨false, request_id.writer_guid, request_id.sequence_number, p⟩
  let ids := requestreply_header_to_dds rr
  ⟨ids.1, ids.2, p⟩

/-- One client of the protocol trace together with the ghost list of the
sequence numbers it has returned from `send_request` (the handles this
client has issued). -/
structure TracedClient where
  st : ClientState
  issued : List Int
deriving DecidableEq, Repr

/-- Global protocol state: the clients, the requests published on the
request topic, and the replies published on the reply topic. -/
structure SysState where
  clients : List TracedClient
  requests : List WireMsg
  replies : List WireMsg
deriving DecidableEq, Repr

/-- Protocol step: either some client sends a request
(`RMW_Connext_Client::send_request`), or the service responds to a request
present on the request topic with `RMW_Connext_Service::send_response`,
using the handle that `take_request` extracts from that request (its sample
identity). -/
inductive SysStep : SysState → SysState → Prop
  | send (s : SysState) (i : Nat) (p : Nat) (tc : TracedClient)
      (hget : s.clients[i]? = some tc) :
      SysStep s
        { clients := s.clients.set i
            ⟨(send_request tc.st p).1, tc.issued ++ [(send_request tc.st p).2.1]⟩,
          requests := s.requests ++ [(send_request tc.st p).2.2],
          replies := s.replies }
  | respond (s : SysState) (m : WireMsg) (p : Nat) (hm : m ∈ s.requests) :
      SysStep s
        { s with replies := s.replies ++
            [send_response ⟨m.identity.writer_guid, m.identity.sequence_number⟩ p] }

/-- Reflexive-transitive closure of protocol steps. -/
def Reachable : SysState → SysState → Prop := Relation.ReflTransGen SysStep

/-- All clients of a state have pairwise distinct request-publisher GUIDs. -/
def DistinctGids (s : SysState) : Prop :=
  ∀ (i j : Nat) (tci tcj : TracedClient),
    s.clients[i]? = some tci → s.clients[j]? = some tcj →
    tci.st.gid = tcj.st.gid → i = j

/-- Protocol invariant: every request on the wire is stamped with the GUID
of one of the clients and with a sequence number that client has issued;
every reply's related identity is the identity of some request on the
wire. -/
def SysInv (s : SysState) : Prop :=
  (∀ m ∈ s.requests, ∃ (j : Nat) (tc : TracedClient), s.clients[j]? = some tc ∧
      m.identity.writer_guid = tc.st.gid ∧
      m.identity.sequence_number ∈ tc.issued) ∧
  (∀ r ∈ s.replies, ∃ m ∈ s.requests, r.related = m.identity)

theorem take_first_mem {acc : WireMsg → Bool} :
    ∀ {l : List WireMsg} {m : WireMsg}, take_first acc l = some m →
      m ∈ l ∧ acc m = true := by
  intro l
  induction l with
  | nil => intro m h; simp [take_first] at h
  | cons a t ih =>
    intro m h
    by_cases ha : acc a = true
    · simp [take_first, ha] at h
      subst h
      exact ⟨List.mem_cons_self a t, ha⟩
    · simp [take_first, ha] at h
      rcases ih h with ⟨hm, hacc⟩
      exact ⟨List.mem_cons_of_mem a hm, hacc⟩

theorem send_request_gid (c : ClientState) (p : Nat) :
    (send_request c p).1.gid = c.gid := rfl

theorem send_request_identity (c : ClientState) (p : Nat) :
    (send_request c p).2.2.identity = ⟨c.gid, c.next_request_id + 1⟩ := rfl

theorem sysStep_distinct {s s' : SysState} (h : SysStep s s')
    (hd : DistinctGids s) : DistinctGids s' := by
  cases h with
  | send i p tc hget =>
    have hlen : i < s.clients.length := (List.getElem?_eq_some_iff.mp hget).1
    intro a b tca tcb ha hb hgid
    simp only at ha hb
    rw [List.getElem?_set] at ha hb
    by_cases hai : i = a <;> by_cases hbi : i = b
    · omega
    · simp only [if_pos hai, if_pos hlen, if_neg hbi] at ha hb
      have htca : tca = ⟨(send_request tc.st p).1,
          tc.issued ++ [(send_request tc.st p).2.1]⟩ :=
        (Option.some_injective _ ha).symm
      subst htca
      exact hd a b tc tcb (hai ▸ hget) hb (by simpa [send_request_gid] using hgid)
    · simp only [if_pos hbi, if_pos hlen, if_neg hai] at ha hb
      have htcb : tcb = ⟨(send_request tc.st p).1,
          tc.issued ++ [(send_request tc.st p).2.1]⟩ :=
        (Option.some_injective _ hb).symm
      subst htcb
      exact hd a b tca tc ha (hbi ▸ hget) (by simpa [send_request_gid] using hgid)
    · simp only [if_neg hai, if_neg hbi] at ha hb
      exact hd a b tca tcb ha hb hgid
  | respond m p hm =>
    intro a b tca tcb ha hb hgid
    exact hd a b tca tcb ha hb hgid

theorem sysStep_inv {s s' : SysState} (h : SysStep s s')
    (hi : SysInv s) : SysInv s' := by
  cases h with
  | send i p tc hget =>
    have hlen : i < s.clients.length := (List.getElem?_eq_some_iff.mp hget).1
    constructor
    · intro m hm
      simp only at hm
      rcases List.mem_append.mp hm with hold | hnew
      · rcases hi.1 m hold with ⟨j, tcj, hj, hgid, hsn⟩
        by_cases hij : i = j
        · subst hij
          have htcj : tcj = tc := by
            rw [hget] at hj; exact (Option.some_injective _ hj).symm
          refine ⟨i, ⟨(send_request tc.st p).1,
            tc.issued ++ [(send_request tc.st p).2.1]⟩, ?_, ?_, ?_⟩
          · simp only
            exact List.getElem?_set_self hlen
          · rw [htcj] at hgid
            simpa [send_request_gid] using hgid
          · rw [htcj] at hsn
            exact List.mem_append_left _ hsn
        · refine ⟨j, tcj, ?_, hgid, hsn⟩
          simp only
          rw [List.getElem?_set_ne hij]
          exact hj
      · have hmeq : m = (send_request tc.st p).2.2 := by simpa using hnew
        subst hmeq
        refine ⟨i, ⟨(send_request tc.st p).1,
          tc.issued ++ [(send_request tc.st p).2.1]⟩, ?_, ?_, ?_⟩
        · simp only
          exact List.getElem?_set_self hlen
        · rw [send_request_identity, send_request_gid]
        · rw [send_request_identity]
          simp [send_request]
    · intro r hr
      simp only at hr
      rcases hi.2 r hr with ⟨m, hm, hrel⟩
      exact ⟨m, List.mem_append_left _ hm, hrel⟩
  | respond m p hm =>
    constructor
    · intro q hq
      exact hi.1 q hq
    · intro r hr
      simp only at hr
      rcases List.mem_append.mp hr with hold | hnew
      · exact hi.2 r hold
      · have : r = send_response ⟨m.identity.writer_guid,
            m.identity.sequence_number⟩ p := by simpa using hnew
        subst this
        exact ⟨m, hm, rfl⟩

theorem reachable_inv {s0 s : SysState} (h : Reachable s0 s)
    (hq : s0.requests = []) (hp : s0.replies = []) : SysInv s := by
  induction h with
  | refl =>
    constructor
    · intro m hm; rw [hq] at hm; simp at hm
    · intro r hr; rw [hp] at hr; simp at hr
  | tail _ hstep ih => exact sysStep_inv hstep ih

theorem reachable_distinct {s0 s : SysState} (h : Reachable s0 s)
    (hd : DistinctGids s0) : DistinctGids s := by
  induction h with
  | refl => exact hd
  | tail _ hstep ih => exact sysStep_distinct hstep ih

/-- Stream of sequence ids returned by a succession of `send_request` calls
(the client state is threaded through). -/
def issueAll (c : ClientState) : List Nat → ClientState × List Int
  | [] => (c, [])
  | p :: ps =>
    let r := send_request c p
    let rest := issueAll r.1 ps
    (rest.1, r.2.1 :: rest.2)

theorem issueAll_spec (c : ClientState) (ps : List Nat) :
    (issueAll c ps).2 =
      (List.range ps.length).map (fun (k : Nat) => c.next_request_id + 1 + (k : Int)) := by
  induction ps generalizing c with
  | nil => simp [issueAll]
  | cons p ps ih =>
    rw [List.length_cons, List.range_succ_eq_map]
    simp only [List.map_cons, List.map_map]
    show (send_request c p).2.1 :: (issueAll (send_request c p).1 ps).2 = _
    rw [ih]
    congr 1
    · simp [send_request]
    · apply List.map_congr_left
      intro a _
      simp only [Function.comp, send_request]
      push_cast
      ring

theorem issueAll_pairwise (c : ClientState) (ps : List Nat) :
    List.Pairwise (· < ·) (issueAll c ps).2 := by
  rw [issueAll_spec]
  refine List.Pairwise.map _ ?_ (List.pairwise_lt_range ps.length)
  intro a b hab
  omega

/-- C8: every `send_request` call increments the client's own
`next_request_id` counter, stamps the request header with
(origin = the client's request-publisher GUID, sequence = the incremented
counter), and returns that stamped sequence number as the correlation
handle; consequently the sequence numbers of successive requests from one
client are strictly increasing (hence never reused). -/
theorem send_request_stamps_and_is_monotonic :
    (∀ (c : ClientState) (p : Nat),
      (send_request c p).1.gid = c.gid ∧
      (send_request c p).1.next_request_id = c.next_request_id + 1 ∧
      (send_request c p).2.1 = c.next_request_id + 1 ∧
      (send_request c p).2.2.identity = ⟨c.gid, c.next_request_id + 1⟩ ∧
      (send_request c p).2.2.payload = p) ∧
    (∀ (c : ClientState) (ps : List Nat),
      (issueAll c ps).2 =
        (List.range ps.length).map
          (fun (k : Nat) => c.next_request_id + 1 + (k : Int)) ∧
      List.Pairwise (· < ·) (issueAll c ps).2) := by
  constructor
  · intro c p
    exact ⟨rfl, rfl, rfl, rfl, rfl⟩
  · intro c ps
    exact ⟨issueAll_spec c ps, issueAll_pairwise c ps⟩

/-- C1: correlation round trip and isolation.  First conjunct: a client's
`send_request P` yields handle `H = (own gid, incremented counter)`; a
service's `take_request` on that request returns `(P, H)`;
`send_response H R` stamps `H` into the reply's related fields, and the
client's `take_response` on that reply returns `(R, taken)` with the
returned handle equal to `H`.  Second conjunct: in every reachable protocol
state, whenever a client's `take_response` succeeds, the returned handle
carries that client's own GUID and a sequence number that this client has
issued — it never succeeds on a reply whose related handle differs from
every handle the client issued. -/
theorem correlation_roundtrip_and_isolation
    (c : ClientState) (P R : Nat)
    (s0 s : SysState) (i : Nat) (tc : TracedClient) (p : Nat) (h : RequestId)
    (hreach : Reachable s0 s)
    (hreq0 : s0.requests = []) (hrep0 : s0.replies = [])
    (hdist : DistinctGids s0)
    (hc : s.clients[i]? = some tc)
    (htake : take_response tc.st s.replies = some (p, h)) :
    (take_request [(send_request c P).2.2] =
        some (P, ⟨c.gid, c.next_request_id + 1⟩) ∧
      (send_request c P).2.1 = c.next_request_id + 1 ∧
      take_response (send_request c P).1
          [send_response ⟨c.gid, c.next_request_id + 1⟩ R] =
        some (R, ⟨c.gid, c.next_request_id + 1⟩)) ∧
    (h.writer_guid = tc.st.gid ∧ h.sequence_number ∈ tc.issued) := by
  constructor
  · refine ⟨?_, rfl, ?_⟩
    · simp [take_request, take_first, send_request, requestreply_header_to_dds,
        requestreply_header_from_dds]
    · simp [take_response, take_first, send_request, send_response,
        filter_sample, requestreply_header_to_dds, requestreply_header_from_dds]
  · have hinv := reachable_inv hreach hreq0 hrep0
    have hdist2 := reachable_distinct hreach hdist
    rcases Option.map_eq_some'.mp htake with ⟨m, htf, hfm⟩
    rcases take_first_mem htf with ⟨hmem, hacc⟩
    rcases hinv.2 m hmem with ⟨q, hq, hrel⟩
    rcases hinv.1 q hq with ⟨j, tcj, hj, hqgid, hqsn⟩
    have hh : h = m.related := by
      have := congrArg Prod.snd hfm
      simpa [requestreply_header_from_dds] using this.symm
    have hgidm : m.related.writer_guid = tc.st.gid := by
      simpa [filter_sample] using hacc
    have hgids : tcj.st.gid = tc.st.gid := by
      rw [← hqgid, ← hrel]
      exact hgidm
    have hij : j = i := hdist2 j i tcj tc hj hc hgids
    subst hij
    have htcj : tcj = tc := by
      rw [hc] at hj; exact (Option.some_injective _ hj).symm
    subst htcj
    constructor
    · rw [hh]; exact hgidm
    · rw [hh, hrel]
      exact hqsn

/-- Witness for C1: a concrete two-step trace (one client with GUID [1]
sends request 7; the service responds 9 using the handle taken from that
request), on which the client's `take_response` returns the reply carrying
the issued handle ([1], 1). -/
theorem correlation_roundtrip_and_isolation_witness :
    ((take_request [(send_request ⟨[1], 0⟩ 7).2.2] =
        some (7, ⟨[1], 1⟩) ∧
      (send_request ⟨[1], 0⟩ 7).2.1 = 1 ∧
      take_response (send_request ⟨[1], 0⟩ 7).1
          [send_response ⟨[1], 1⟩ 9] = some (9, ⟨[1], 1⟩)) ∧
    ((⟨[1], 1⟩ : RequestId).writer_guid = [1] ∧
      (⟨[1], 1⟩ : RequestId).sequence_number ∈ [(1 : Int)])) := by
  have step1 : SysStep (⟨[⟨⟨[1], 0⟩, []⟩], [], []⟩ : SysState)
      (⟨[⟨⟨[1], 1⟩, [1]⟩], [⟨⟨[1], 1⟩, unknownIdentity, 7⟩], []⟩ : SysState) :=
    SysStep.send ⟨[⟨⟨[1], 0⟩, []⟩], [], []⟩ 0 7 ⟨⟨[1], 0⟩, []⟩ rfl
  have step2 : SysStep
      (⟨[⟨⟨[1], 1⟩, [1]⟩], [⟨⟨[1], 1⟩, unknownIdentity, 7⟩], []⟩ : SysState)
      (⟨[⟨⟨[1], 1⟩, [1]⟩], [⟨⟨[1], 1⟩, unknownIdentity, 7⟩],
        [⟨unknownIdentity, ⟨[1], 1⟩, 9⟩]⟩ : SysState) :=
    SysStep.respond ⟨[⟨⟨[1], 1⟩, [1]⟩], [⟨⟨[1], 1⟩, unknownIdentity, 7⟩], []⟩
      ⟨⟨[1], 1⟩, unknownIdentity, 7⟩ 9 (List.mem_singleton.mpr rfl)
  have hreach : Reachable (⟨[⟨⟨[1], 0⟩, []⟩], [], []⟩ : SysState)
      (⟨[⟨⟨[1], 1⟩, [1]⟩], [⟨⟨[1], 1⟩, unknownIdentity, 7⟩],
        [⟨unknownIdentity, ⟨[1], 1⟩, 9⟩]⟩ : SysState) :=
    Relation.ReflTransGen.tail
      (Relation.ReflTransGen.tail Relation.ReflTransGen.refl step1) step2
  have hdist : DistinctGids (⟨[⟨⟨[1], 0⟩, []⟩], [], []⟩ : SysState) := by
    intro a b tci tcj hi hj _
    match a, b with
    | 0, 0 => rfl
    | 0, Nat.succ n => simp at hj
    | Nat.succ n, _ => simp at hi
  exact correlation_roundtrip_and_isolation ⟨[1], 0⟩ 7 9
    ⟨[⟨⟨[1], 0⟩, []⟩], [], []⟩
    ⟨[⟨⟨[1], 1⟩, [1]⟩], [⟨⟨[1], 1⟩, unknownIdentity, 7⟩],
      [⟨unknownIdentity, ⟨[1], 1⟩, 9⟩]⟩
    0 ⟨⟨[1], 1⟩, [1]⟩ 9 ⟨[1], 1⟩ hreach rfl rfl hdist rfl rfl

/-! ## Client / Service construction and teardown (C9)

`RMW_Connext_Client::create` (lines 2692-2904) and
`RMW_Connext_Service::create` (lines 3056-3190) each build two endpoints in
sequence.  The model abstracts each endpoint creation to a success flag and
records the teardown operations performed on the failure path.

The classes' destructors are declared in the header (outside this
translation unit) and are modelled as releasing only the impl object
itself, not the endpoint objects: `RMW_Connext_Client::create`'s scope
guard calls `finalize()` (which deletes the endpoints) immediately before
`delete client_impl`, which would double-delete the endpoints if the
destructor also finalized them. -/

/-- A teardown operation observable on a failed create. -/
inductive TeardownAction
  | finalizeRequestPub
  | deleteRequestPub
  | finalizeReplySub
  | deleteReplySub
  | finalizeReplyPub
  | deleteReplyPub
  | finalizeRequestSub
  | deleteRequestSub
  | deleteImpl
deriving DecidableEq, Repr

/-- `RMW_Connext_Client::finalize` (lines 3032-3053): finalizes and deletes
each endpoint that is non-null, request publisher first, then reply
subscriber. -/
def client_finalize (has_request_pub has_reply_sub : Bool) :
    List TeardownAction :=
  (if has_request_pub then
    [TeardownAction.finalizeRequestPub, TeardownAction.deleteRequestPub]
  else []) ++
  (if has_reply_sub then
    [TeardownAction.finalizeReplySub, TeardownAction.deleteReplySub]
  else [])

/-- `RMW_Connext_Client::create` (lines 2692-2904): the scope guard
(`scope_exit_client_impl_delete`, lines 2711-2718) runs
`client_impl->finalize()` and then `delete client_impl` on every failure
return; it is cancelled just before the successful return.  `pub_ok` /
`sub_ok` model whether the request publisher / reply subscriber creation
succeeds.  Returns (client created?, teardown actions performed). -/
def client_create (pub_ok sub_ok : Bool) : Bool × List TeardownAction :=
  if ¬ pub_ok then
    (false, client_finalize false false ++ [TeardownAction.deleteImpl])
  else if ¬ sub_ok then
    (false, client_finalize true false ++ [TeardownAction.deleteImpl])
  else (true, [])

/-- `RMW_Connext_Service::create` (lines 3056-3190): the scope guard
(`scope_exit_svc_impl_delete`, lines 3074-3078) runs only
`delete svc_impl` on every failure return — it does not call
`svc_impl->finalize()`.  The reply publisher is created first, then the
request subscriber. -/
def service_create (pub_ok sub_ok : Bool) : Bool × List TeardownAction :=
  if ¬ pub_ok then (false, [TeardownAction.deleteImpl])
  else if ¬ sub_ok then (false, [TeardownAction.deleteImpl])
  else (true, [])

/-- C9 evidence: on the partial-failure path where the first endpoint is
created and the second fails, `RMW_Connext_Client::create` finalizes and
deletes the created request publisher before returning null, but
`RMW_Connext_Service::create` only deletes the impl object: the created
reply publisher is neither finalized nor deallocated. -/
theorem create_partial_failure_teardown :
    client_create true false =
      (false, [TeardownAction.finalizeRequestPub, TeardownAction.deleteRequestPub,
        TeardownAction.deleteImpl]) ∧
    service_create true false = (false, [TeardownAction.deleteImpl]) ∧
    TeardownAction.finalizeReplyPub ∉ (service_create true false).2 ∧
    TeardownAction.deleteReplyPub ∉ (service_create true false).2 := by
  refine ⟨rfl, rfl, ?_, ?_⟩ <;> decide

/-! ## Wait coordinator (RMW_Connext_WaitSet) and conditions

Pointers are `Nat` identifiers.  A `World` maps source-object identifiers
(subscribers, clients, services, events, guard conditions) and condition
identifiers to their state, and waitset identifiers to waitset state.
A guard condition is itself a condition: its source identifier doubles as
its condition identifier.  The engine-level operations
(`DDS_WaitSet_attach_condition` and friends) are recorded in an action
log. -/

/-- RMW-level return code (subset used here). -/
inductive RetCode
  | ok
  | error
  | timeout
deriving DecidableEq, Repr

/-- Engine return code of `DDS_WaitSet_wait`. -/
inductive DdsRet
  | ok
  | timeout
  | error
deriving DecidableEq, Repr

/-- Waitset state machine values (`RMW_CONNEXT_WAITSET_*`). -/
inductive WaitSetStateKind
  | free
  | acquiring
  | blocked
  | releasing
  | invalidating
deriving DecidableEq, Repr, Inhabited, Fintype

/-- `DDS_DATA_AVAILABLE_STATUS` (the value is opaque to this model). -/
def DDS_DATA_AVAILABLE_STATUS : Nat := 1

/-- State of one condition (`RMW_Connext_Condition` and its status-condition
subclasses): deletion flag, non-owning back-reference to at most one
waitset, the currently enabled status mask, and whether `reset_trigger`
would succeed (guard conditions only; an engine-level outcome). -/
structure CondState where
  deleted : Bool
  attached_waitset : Option Nat
  enabled_statuses : Nat
  reset_ok : Bool
deriving DecidableEq, Repr, Inhabited

/-- Immutable per-source data: the identifier of the source's condition
(`sub->condition()`, `client->subscriber()->condition()`, ...,
`RMW_Connext_Event::condition(event)`), the source's demultiplex readiness
(`has_data()` for data sources, `RMW_Connext_Event::active` for events; an
engine-level observation), and for events the status mask
`ros_event_to_dds(event->event_type)`. -/
structure SrcInfo where
  cond : Nat
  ready : Bool
  statusMask : Nat
deriving DecidableEq, Repr, Inhabited

/-- The mutable per-waitset state: the state-machine value and the five
lists of attached sources plus the event snapshot cache
(`attached_events_cache`, keyed by event identifier). -/
structure WaitSet where
  state : WaitSetStateKind
  attached_subscribers : List Nat
  attached_conditions : List Nat
  attached_clients : List Nat
  attached_services : List Nat
  attached_events : List Nat
  attached_events_cache : List (Nat × Nat)
deriving DecidableEq, Repr, Inhabited

/-- The world: association lists from identifiers to source, condition and
waitset state. -/
structure World where
  srcs : List (Nat × SrcInfo)
  conds : List (Nat × CondState)
  waitsets : List (Nat × WaitSet)
deriving DecidableEq, Repr

/-- Update every entry of an association list with the given key. -/
def alUpdate {α : Type} (l : List (Nat × α)) (k : Nat) (f : α → α) :
    List (Nat × α) :=
  l.map (fun p => if p.1 = k then (p.1, f p.2) else p)

def srcInfo (w : World) (s : Nat) : SrcInfo := (w.srcs.lookup s).getD default

/-- The condition associated with a data/event source
(`sub->condition()` etc.). -/
def condOf (w : World) (s : Nat) : Nat := (srcInfo w s).cond

def lookupCond (w : World) (c : Nat) : CondState :=
  (w.conds.lookup c).getD default

def setCond (w : World) (c : Nat) (f : CondState → CondState) : World :=
  { w with conds := alUpdate w.conds c f }

def getWS (w : World) (i : Nat) : WaitSet := (w.waitsets.lookup i).getD default

def setWS (w : World) (i : Nat) (ws : WaitSet) : World :=
  { w with waitsets := alUpdate w.waitsets i (fun _ => ws) }

/-- Engine/condition operations recorded by the model. -/
inductive Action
  | detachCond (c : Nat)
  | attachCond (c : Nat) (ws : Nat)
  | resetCond (c : Nat)
  | enableCond (c : Nat) (mask : Nat)
  | attachData (c : Nat)
deriving DecidableEq, Repr

/-- `RMW_Connext_WaitSet::is_attached` (lines 3832-3867): scan the five
attached lists comparing each element's condition pointer with `cond`
(guard conditions are compared directly; events go through the snapshot
cache; a cache miss — impossible for an attached event — compares unequal,
as the default-constructed cache entry's condition would). -/
def is_attached (w : World) (ws : WaitSet) (c : Nat) : Bool :=
  ws.attached_subscribers.any (fun s => condOf w s == c) ||
  ws.attached_conditions.any (fun g => g == c) ||
  ws.attached_clients.any (fun s => condOf w s == c) ||
  ws.attached_services.any (fun s => condOf w s == c) ||
  ws.attached_events.any (fun e =>
    match ws.attached_events_cache.lookup e with
    | some cc => cc == c
    | none => false)

/-- Modelled from the spec: `RMW_Connext_Condition::detach` (declared in
the header, outside this translation unit) clears the back-reference
(spec section 4.1). -/
def condDetach (cs : CondState) : CondState :=
  { cs with attached_waitset := none }

/-- Modelled from the spec: `RMW_Connext_Condition::attach(coordinator)`
(declared in the header) fails if the condition is already attached to a
different coordinator and is idempotent when re-attaching to the same one
(spec section 4.1). -/
def condAttach (cs : CondState) (i : Nat) : Option CondState :=
  match cs.attached_waitset with
  | none => some { cs with attached_waitset := some i }
  | some o => if o = i then some cs else none

/-- Detach a list of conditions one by one (`cond->detach()` under each
condition's lock), accumulating the log. -/
def detachConds (w : World) : List Nat → World × List Action
  | [] => (w, [])
  | c :: cs =>
    let r := detachConds (setCond w c condDetach) cs
    (r.1, Action.detachCond c :: r.2)

/-- The conditions derived from a waitset's five attached lists, in the
order `RMW_Connext_WaitSet::detach` iterates them (subscribers, guard
conditions, clients, services, events via the snapshot cache). -/
def wsAttachedConds (w : World) (ws : WaitSet) : List Nat :=
  ws.attached_subscribers.map (condOf w) ++
  ws.attached_conditions ++
  ws.attached_clients.map (condOf w) ++
  ws.attached_services.map (condOf w) ++
  ws.attached_events.filterMap (fun e => ws.attached_events_cache.lookup e)

/-- `RMW_Connext_WaitSet::detach` (lines 3464-3536): detaches every
attached source's condition and clears the five lists and the event cache.
Engine-level detach failures are out of scope, so the accumulated `failed`
flag stays false and the function returns ok. -/
def wsDetach (w : World) (i : Nat) : RetCode × World × List Action :=
  let ws := getWS w i
  let r := detachConds w (wsAttachedConds w ws)
  (RetCode.ok,
    setWS r.1 i
      { ws with
        attached_subscribers := [],
        attached_conditions := [],
        attached_clients := [],
        attached_services := [],
        attached_events := [],
        attached_events_cache := [] },
    r.2)

/-- `RMW_Connext_WaitSet::invalidate` (lines 4111-4160).  If the condition
is not attached there is nothing to do.  If the waitset is FREE it
transitions to INVALIDATING, detaches everything, and returns to FREE.
The ACQUIRING branch blocks on the state condition variable waiting for
the concurrent `wait()` to transition; in this sequential embedding it is
represented, like the BLOCKED/RELEASING branches, as an error return with
no state change. -/
def invalidate (w : World) (i : Nat) (c : Nat) : RetCode × World × List Action :=
  let ws := getWS w i
  if ¬ is_attached w ws c then (RetCode.ok, w, [])
  else if ws.state = WaitSetStateKind.free then
    let w1 := setWS w i { ws with state := WaitSetStateKind.invalidating }
    let r := wsDetach w1 i
    let ws2 := getWS r.2.1 i
    (r.1, setWS r.2.1 i { ws2 with state := WaitSetStateKind.free }, r.2.2)
  else (RetCode.error, w, [])

/-- `RMW_Connext_WaitSet::require_attach` (template, lines 3442-3462):
`attached_els` is the currently attached vector, `new_els` the caller's
array (`none` models a null array pointer).  Equal-length pointer arrays
are compared bytewise (`memcmp`), i.e. positionally. -/
def require_attach (attached_els : List Nat) (new_els : Option (List Nat)) :
    Bool :=
  match new_els with
  | none => decide (attached_els.length > 0)
  | some l =>
    if l.length = 0 then decide (attached_els.length > 0)
    else if l.length ≠ attached_els.length then true
    else decide (¬ (l = attached_els))

/-- State threaded through the attach loops: the world and the action
log (the waitset object itself lives in the world, as in the C++ where the
loops mutate `this` in place). -/
abbrev AttachSt := World × List Action

/-- The `otherws` check shared by the attach loops (e.g. lines 3601-3606):
read the condition's back-reference; if it names a different waitset,
invalidate that waitset (the return code is discarded, as in the source)
and remember that we detached.  Returns (world, log, detached flag). -/
def invalidateOther (w : World) (thisId c : Nat) :
    World × List Action × Bool :=
  match (lookupCond w c).attached_waitset with
  | some o =>
    if o ≠ thisId then
      let r := invalidate w o c
      (r.2.1, r.2.2, true)
    else (w, [], false)
  | none => (w, [], false)

/-- The conditional back-reference clear `if (detached)
cond->attached_waitset = nullptr` shared by the attach loops. -/
def clearIfDetached (w : World) (detached : Bool) (c : Nat) : World :=
  if detached then
    setCond w c (fun cs => { cs with attached_waitset := none })
  else w

/-- Perform `cond->attach(this)`: on success the condition's state is
replaced by the attached state, on failure the world is unchanged. -/
def applyCondAttach (w : World) (c thisId : Nat) : World × Bool :=
  match condAttach (lookupCond w c) thisId with
  | none => (w, false)
  | some cs => (setCond w c (fun _ => cs), true)

/-- One iteration of the event pre-loop of `RMW_Connext_WaitSet::attach`
(lines 3595-3622): look up the event's condition, invalidate the waitset it
is currently attached to (if a different one), fail if the condition is
deleted, clear the back-reference if we detached it, and reset its enabled
statuses.  Returns the new state and a continue flag (false = the `attach`
call returns with an error). -/
def eventResetStep (thisId : Nat) (e : Nat) (st : AttachSt) : AttachSt × Bool :=
  let w := st.1
  let c := condOf w e
  let inv := invalidateOther w thisId c
  let log1 := st.2 ++ inv.2.1
  if (lookupCond inv.1 c).deleted then ((inv.1, log1), false)
  else
    let w2 := clearIfDetached inv.1 inv.2.2 c
    ((setCond w2 c (fun cs => { cs with enabled_statuses := 0 }),
      log1 ++ [Action.resetCond c]), true)

/-- One iteration of the subscriber/client/service loops of
`RMW_Connext_WaitSet::attach` (lines 3624-3666, 3668-3710, 3712-3754),
parameterized by which attached list the source is pushed onto:
invalidate the other waitset, fail on a deleted condition, clear the
back-reference if detached, `reset_statuses`, `enable_statuses
(DDS_DATA_AVAILABLE_STATUS)`, `cond->attach(this)`, `attach_data`, and
append the source to the list. -/
def attachDataStep (thisId : Nat) (push : WaitSet → Nat → WaitSet)
    (s : Nat) (st : AttachSt) : AttachSt × Bool :=
  let w := st.1
  let c := condOf w s
  let inv := invalidateOther w thisId c
  let log1 := st.2 ++ inv.2.1
  if (lookupCond inv.1 c).deleted then ((inv.1, log1), false)
  else
    let w2 := clearIfDetached inv.1 inv.2.2 c
    let w3 := setCond w2 c (fun cs => { cs with enabled_statuses := 0 })
    let w4 := setCond w3 c
      (fun cs => { cs with enabled_statuses := DDS_DATA_AVAILABLE_STATUS })
    let log2 := log1 ++
      [Action.resetCond c, Action.enableCond c DDS_DATA_AVAILABLE_STATUS]
    let a := applyCondAttach w4 c thisId
    if a.2 then
      ((setWS a.1 thisId (push (getWS a.1 thisId) s),
        log2 ++ [Action.attachCond c thisId, Action.attachData c]), true)
    else ((a.1, log2), false)

/-- One iteration of the event attach loop (lines 3756-3785): fail on a
deleted condition, enable the event's status mask, `cond->attach(this)`,
append the event, and cache its snapshot (`attached_events_cache.emplace`;
a duplicate key keeps the first entry, as `emplace` does). -/
def attachEventStep (thisId : Nat) (e : Nat) (st : AttachSt) :
    AttachSt × Bool :=
  let w := st.1
  let c := condOf w e
  if (lookupCond w c).deleted then ((w, st.2), false)
  else
    let mask := (srcInfo w e).statusMask
    let w2 := setCond w c (fun cs => { cs with enabled_statuses := mask })
    let a := applyCondAttach w2 c thisId
    if a.2 then
      ((setWS a.1 thisId
        { getWS a.1 thisId with
          attached_events := (getWS a.1 thisId).attached_events ++ [e],
          attached_events_cache :=
            (getWS a.1 thisId).attached_events_cache ++ [(e, c)] },
        st.2 ++ [Action.enableCond c mask, Action.attachCond c thisId]),
        true)
    else ((a.1, st.2 ++ [Action.enableCond c mask]), false)

/-- One iteration of the guard-condition loop (lines 3787-3813): the guard
condition is its own condition; invalidate the other waitset, fail on
deleted, clear the back-reference if detached, `attach(this)`, append. -/
def attachGcStep (thisId : Nat) (g : Nat) (st : AttachSt) : AttachSt × Bool :=
  let w := st.1
  let inv := invalidateOther w thisId g
  let log1 := st.2 ++ inv.2.1
  if (lookupCond inv.1 g).deleted then ((inv.1, log1), false)
  else
    let w2 := clearIfDetached inv.1 inv.2.2 g
    let a := applyCondAttach w2 g thisId
    if a.2 then
      ((setWS a.1 thisId
        { getWS a.1 thisId with attached_conditions :=
            (getWS a.1 thisId).attached_conditions ++ [g] },
        log1 ++ [Action.attachCond g thisId]), true)
    else ((a.1, log1), false)

/-- Run a loop body over a list, stopping at the first iteration whose
continue flag is false (an early `return` from `attach`). -/
def runLoop (step : Nat → AttachSt → AttachSt × Bool) :
    List Nat → AttachSt → AttachSt × Bool
  | [], st => (st, true)
  | x :: xs, st =>
    let r := step x st
    if r.2 then runLoop step xs r.1 else r

def pushSub (ws : WaitSet) (s : Nat) : WaitSet :=
  { ws with attached_subscribers := ws.attached_subscribers ++ [s] }

def pushClient (ws : WaitSet) (s : Nat) : WaitSet :=
  { ws with attached_clients := ws.attached_clients ++ [s] }

def pushService (ws : WaitSet) (s : Nat) : WaitSet :=
  { ws with attached_services := ws.attached_services ++ [s] }

/-- `RMW_Connext_WaitSet::attach` (lines 3539-3815).  The five caller
arrays are Option lists (`none` = null pointer).  First the five
`require_attach` checks (a null or empty array requires a refresh exactly
when the corresponding attached list is non-empty); if nothing changed the
function returns immediately having done nothing.  Otherwise: full
`detach()`, the event reset pre-loop, then the subscriber, client, service,
event and guard-condition attach loops, any of which can return early with
an error. -/
def attachSources (w : World) (thisId : Nat)
    (subs gcs srvs cls evs : Option (List Nat)) :
    RetCode × World × List Action :=
  let ws := getWS w thisId
  let refresh :=
    require_attach ws.attached_subscribers subs ||
    require_attach ws.attached_conditions gcs ||
    require_attach ws.attached_events evs ||
    require_attach ws.attached_services srvs ||
    require_attach ws.attached_clients cls
  if ¬ refresh then (RetCode.ok, w, [])
  else
    let d := wsDetach w thisId
    let r1 := runLoop (eventResetStep thisId) (evs.getD []) (d.2.1, d.2.2)
    if ¬ r1.2 then (RetCode.error, r1.1.1, r1.1.2)
    else
      let r2 := runLoop (attachDataStep thisId pushSub) (subs.getD []) r1.1
      if ¬ r2.2 then (RetCode.error, r2.1.1, r2.1.2)
      else
        let r3 := runLoop (attachDataStep thisId pushClient) (cls.getD []) r2.1
        if ¬ r3.2 then (RetCode.error, r3.1.1, r3.1.2)
        else
          let r4 := runLoop (attachDataStep thisId pushService) (srvs.getD [])
            r3.1
          if ¬ r4.2 then (RetCode.error, r4.1.1, r4.1.2)
          else
            let r5 := runLoop (attachEventStep thisId) (evs.getD []) r4.1
            if ¬ r5.2 then (RetCode.error, r5.1.1, r5.1.2)
            else
              let r6 := runLoop (attachGcStep thisId) (gcs.getD []) r5.1
              if ¬ r6.2 then (RetCode.error, r6.1.1, r6.1.2)
              else (RetCode.ok, r6.1.1, r6.1.2)

/-! ### Demultiplexing (`process_wait`) and the tail of `wait` -/

/-- The five caller-supplied source arrays mutated in place by `wait`
(each entry `some p` is the original source pointer, `none` a nulled
entry). -/
structure WaitArrays where
  subs : List (Option Nat)
  gcs : List (Option Nat)
  srvs : List (Option Nat)
  cls : List (Option Nat)
  evs : List (Option Nat)
deriving DecidableEq, Repr

/-- The subscriber/client loops of `process_wait` (lines 3887-3899,
3923-3932): null the caller entry of each source without buffered data,
count the ready ones, and accumulate `valid` from each condition's
`deleted` flag.  The i-th caller entry corresponds positionally to the
i-th attached source. -/
def processData (w : World) :
    List Nat → List (Option Nat) → List (Option Nat) × Nat × Bool
  | [], arr => (arr, 0, true)
  | s :: ss, [] =>
    let r := processData w ss []
    ([], (if (srcInfo w s).ready then r.2.1 + 1 else r.2.1),
      r.2.2 && !(lookupCond w (condOf w s)).deleted)
  | s :: ss, a :: arr =>
    let r := processData w ss arr
    ((if (srcInfo w s).ready then a else none) :: r.1,
      (if (srcInfo w s).ready then r.2.1 + 1 else r.2.1),
      r.2.2 && !(lookupCond w (condOf w s)).deleted)

/-- The guard-condition loop of `process_wait` (lines 3901-3921): a guard
is ready iff the engine's active-condition list contains it
(`active_condition`); a ready guard's trigger is reset (`reset_trigger`,
whose failure sets the `failed` flag); `valid` accumulates the `deleted`
flags.  Returns (caller array, count, valid, failed). -/
def processGuards (w : World) (active : List Nat) :
    List Nat → List (Option Nat) → List (Option Nat) × Nat × Bool × Bool
  | [], arr => (arr, 0, true, false)
  | g :: gs, [] =>
    let r := processGuards w active gs []
    ([], (if active.contains g then r.2.1 + 1 else r.2.1),
      r.2.2.1 && !(lookupCond w g).deleted,
      r.2.2.2 || (active.contains g && !(lookupCond w g).reset_ok))
  | g :: gs, a :: arr =>
    let r := processGuards w active gs arr
    ((if active.contains g then a else none) :: r.1,
      (if active.contains g then r.2.1 + 1 else r.2.1),
      r.2.2.1 && !(lookupCond w g).deleted,
      r.2.2.2 || (active.contains g && !(lookupCond w g).reset_ok))

/-- The service loop of `process_wait` (lines 3934-3942): like the data
loops but, as in the source, without a `valid` accumulation. -/
def processServices (w : World) :
    List Nat → List (Option Nat) → List (Option Nat) × Nat
  | [], arr => (arr, 0)
  | s :: ss, [] =>
    let r := processServices w ss []
    ([], if (srcInfo w s).ready then r.2 + 1 else r.2)
  | s :: ss, a :: arr =>
    let r := processServices w ss arr
    ((if (srcInfo w s).ready then a else none) :: r.1,
      if (srcInfo w s).ready then r.2 + 1 else r.2)

/-- The event loop of `process_wait` (lines 3944-3955): readiness is the
re-checked status on the cached snapshot (`RMW_Connext_Event::active`);
`valid` accumulates the cached condition's `deleted` flag. -/
def processEvents (w : World) (cache : List (Nat × Nat)) :
    List Nat → List (Option Nat) → List (Option Nat) × Nat × Bool
  | [], arr => (arr, 0, true)
  | e :: es, [] =>
    let r := processEvents w cache es []
    ([], (if (srcInfo w e).ready then r.2.1 + 1 else r.2.1),
      r.2.2 && !(((cache.lookup e).map
        (fun c => (lookupCond w c).deleted)).getD false))
  | e :: es, a :: arr =>
    let r := processEvents w cache es arr
    ((if (srcInfo w e).ready then a else none) :: r.1,
      (if (srcInfo w e).ready then r.2.1 + 1 else r.2.1),
      r.2.2 && !(((cache.lookup e).map
        (fun c => (lookupCond w c).deleted)).getD false))

/-- `RMW_Connext_WaitSet::process_wait` (lines 3869-3962): run the five
loops, then return ok iff no `reset_trigger` failed and every checked
condition was still valid.  Returns (rc, updated caller arrays, number of
active sources found). -/
def process_wait (w : World) (ws : WaitSet) (active : List Nat)
    (arrs : WaitArrays) : RetCode × WaitArrays × Nat :=
  let rSub := processData w ws.attached_subscribers arrs.subs
  let rGc := processGuards w active ws.attached_conditions arrs.gcs
  let rCl := processData w ws.attached_clients arrs.cls
  let rSrv := processServices w ws.attached_services arrs.srvs
  let rEv := processEvents w ws.attached_events_cache ws.attached_events
    arrs.evs
  let failed := rGc.2.2.2
  let valid := rSub.2.2 && rGc.2.2.1 && rCl.2.2 && rEv.2.2
  ((if !failed && valid then RetCode.ok else RetCode.error),
    ⟨rSub.1, rGc.1, rSrv.1, rCl.1, rEv.1⟩,
    rSub.2.1 + rGc.2.1 + rCl.2.1 + rSrv.2 + rEv.2.1)

/-- The predicate of the `RMW_CONNEXT_ASSERT` at line 4099:
`active_conditions > 0 || DDS_RETCODE_TIMEOUT == wait_rc`. -/
def waitAssertPred (active_conditions : Nat) (wait_rc : DdsRet) : Bool :=
  decide (0 < active_conditions) || decide (wait_rc = DdsRet.timeout)

/-- The tail of `RMW_Connext_WaitSet::wait` (lines 4074-4107): any engine
return code other than ok/timeout is an error; then `process_wait`
demultiplexes, its failure is propagated, and otherwise an engine timeout
yields `RMW_RET_TIMEOUT` and ok yields `RMW_RET_OK`.  Returns the RMW
return code and the caller arrays. -/
def wait_tail (w : World) (ws : WaitSet) (active : List Nat)
    (arrs : WaitArrays) (wait_rc : DdsRet) : RetCode × WaitArrays :=
  if wait_rc = DdsRet.ok ∨ wait_rc = DdsRet.timeout then
    let r := process_wait w ws active arrs
    if r.1 ≠ RetCode.ok then (r.1, r.2.1)
    else if wait_rc = DdsRet.timeout then (RetCode.timeout, r.2.1)
    else (RetCode.ok, r.2.1)
  else (RetCode.error, arrs)

/-- The error message set by the entry section of `wait` (lines
3998-3999). -/
def waitTakenMsg : String := "multiple concurrent wait()s not supported"

/-- The entry section of `RMW_Connext_WaitSet::wait` (lines 3973-4005),
executed under the waitset mutex: FREE proceeds (transitioning to
ACQUIRING); INVALIDATING blocks on the state condition variable — `wake`
is the state observed after wake-up, and the waitset counts as taken
exactly when that state is not FREE; every other state fails immediately.
Returns (proceed?, resulting state value, error message). -/
def wait_entry (s : WaitSetStateKind) (wake : WaitSetStateKind) :
    Bool × WaitSetStateKind × Option String :=
  match s with
  | WaitSetStateKind.free => (true, WaitSetStateKind.acquiring, none)
  | WaitSetStateKind.invalidating =>
    if wake ≠ WaitSetStateKind.free then (false, wake, some waitTakenMsg)
    else (true, WaitSetStateKind.acquiring, none)
  | s => (false, s, some waitTakenMsg)

/-- `RMW_Connext_WaitSet::wait` up to and including the attach phase: on
entry failure the function returns `RMW_RET_ERROR` before creating the
detach scope guards or touching any condition (the world is unchanged and
no action is performed); otherwise the state moves to ACQUIRING and
`attach` runs. -/
def wait_begin (w : World) (thisId : Nat) (wake : WaitSetStateKind)
    (subs gcs srvs cls evs : Option (List Nat)) :
    RetCode × Option String × World × List Action :=
  let ws := getWS w thisId
  let e := wait_entry ws.state wake
  if ¬ e.1 then (RetCode.error, e.2.2, w, [])
  else
    let w1 := setWS w thisId { ws with state := WaitSetStateKind.acquiring }
    let r := attachSources w1 thisId subs gcs srvs cls evs
    (r.1, none, r.2.1, r.2.2)

/-! ### Claim theorems for the wait coordinator -/

/-- C10: `RMW_Connext_WaitSet::invalidate` on a condition that is not in
any of the waitset's five attached lists returns OK and leaves the waitset
(and the whole world) completely unchanged: the state value, the five
attached lists and the event snapshot cache are untouched and no condition
is detached (empty action log). -/
theorem invalidate_unattached_frame (w : World) (i c : Nat)
    (h : is_attached w (getWS w i) c = false) :
    invalidate w i c = (RetCode.ok, w, []) := by
  simp [invalidate, h]

/-- Witness for C10: a concrete world with one FREE waitset holding one
attached guard condition (5); invalidating the unattached condition 7 is a
no-op. -/
theorem invalidate_unattached_frame_witness :
    invalidate
      ⟨[], [(5, ⟨false, some 1, 0, true⟩), (7, ⟨false, none, 0, true⟩)],
        [(1, ⟨WaitSetStateKind.free, [], [5], [], [], [], []⟩)]⟩ 1 7 =
    (RetCode.ok,
      ⟨[], [(5, ⟨false, some 1, 0, true⟩), (7, ⟨false, none, 0, true⟩)],
        [(1, ⟨WaitSetStateKind.free, [], [5], [], [], [], []⟩)]⟩, []) :=
  invalidate_unattached_frame _ 1 7 (by decide)

/-- C7 counterexample: a thread that entered `wait()` while the coordinator
was INVALIDATING and is then woken with the state back at FREE does not
report failure — it proceeds and acquires the coordinator (the code sets
`already_taken = (RMW_CONNEXT_WAITSET_FREE != this->state)` after the wait,
line 3987), contradicting the claim that such a thread always treats the
coordinator as taken and returns ERROR. -/
theorem wait_entry_invalidating_free_proceeds :
    wait_entry WaitSetStateKind.invalidating WaitSetStateKind.free =
      (true, WaitSetStateKind.acquiring, none) := rfl

/-- C7 (amended): a thread entering `wait()` while the coordinator is
INVALIDATING blocks on the state-change notification; once unblocked it
reports failure (ERROR, with the "multiple concurrent wait()s" message) if
and only if the state it then observes is not FREE; if the coordinator has
returned to FREE the thread proceeds and acquires it
(FREE → ACQUIRING). -/
theorem wait_entry_invalidating (wake : WaitSetStateKind) :
    (wake ≠ WaitSetStateKind.free →
      wait_entry WaitSetStateKind.invalidating wake =
        (false, wake, some waitTakenMsg)) ∧
    wait_entry WaitSetStateKind.invalidating WaitSetStateKind.free =
      (true, WaitSetStateKind.acquiring, none) := by
  constructor
  · intro hw
    simp [wait_entry, hw]
  · rfl

/-- Witness for C7 (amended), at wake-up state BLOCKED. -/
theorem wait_entry_invalidating_witness :
    wait_entry WaitSetStateKind.invalidating WaitSetStateKind.blocked =
      (false, WaitSetStateKind.blocked, some waitTakenMsg) ∧
    wait_entry WaitSetStateKind.invalidating WaitSetStateKind.free =
      (true, WaitSetStateKind.acquiring, none) :=
  ⟨(wait_entry_invalidating WaitSetStateKind.blocked).1 (by decide),
    (wait_entry_invalidating WaitSetStateKind.blocked).2⟩

/-- C2 counterexample: the error message the entry section sets (lines
3998-3999) is the literal "multiple concurrent wait()s not supported", not
the claim's "multiple concurrent waits unsupported": at a coordinator in
state BLOCKED the entry fails with the former message. -/
theorem wait_entry_message_counterexample :
    (wait_begin
        ⟨[], [], [(1, ⟨WaitSetStateKind.blocked, [], [], [], [], [], []⟩)]⟩
        1 WaitSetStateKind.free none none none none none).2.1 =
      some "multiple concurrent wait()s not supported" ∧
    some "multiple concurrent wait()s not supported" ≠
      some "multiple concurrent waits unsupported" := by
  constructor
  · rfl
  · simp

/-- C2 (amended): if `wait()` is entered while the coordinator's state is
neither FREE nor INVALIDATING, the call fails immediately with ERROR and
the message "multiple concurrent wait()s not supported", leaving the world
unchanged and performing no attach/detach action; and the entry section is
atomic under the waitset mutex, so after any entry that proceeds
(transitioning FREE → ACQUIRING) a second entry before release cannot
proceed: at most one thread at a time acquires the coordinator. -/
theorem wait_concurrent_entry_fails (w : World) (thisId : Nat)
    (wake : WaitSetStateKind) (subs gcs srvs cls evs : Option (List Nat))
    (h1 : (getWS w thisId).state ≠ WaitSetStateKind.free)
    (h2 : (getWS w thisId).state ≠ WaitSetStateKind.invalidating) :
    wait_begin w thisId wake subs gcs srvs cls evs =
      (RetCode.error, some waitTakenMsg, w, []) ∧
    (∀ s wk1 wk2, (wait_entry s wk1).1 = true →
      (wait_entry (wait_entry s wk1).2.1 wk2).1 = false) := by
  constructor
  · cases hstate : (getWS w thisId).state with
    | free => exact absurd hstate h1
    | invalidating => exact absurd hstate h2
    | acquiring => simp [wait_begin, wait_entry, hstate]
    | blocked => simp [wait_begin, wait_entry, hstate]
    | releasing => simp [wait_begin, wait_entry, hstate]
  · decide

/-- Witness for C2 (amended): a concrete BLOCKED coordinator; the second
conjunct is instantiated at a FREE entry followed by a second entry. -/
theorem wait_concurrent_entry_fails_witness :
    wait_begin
        ⟨[], [], [(1, ⟨WaitSetStateKind.blocked, [], [], [], [], [], []⟩)]⟩
        1 WaitSetStateKind.free none none none none none =
      (RetCode.error, some waitTakenMsg,
        ⟨[], [], [(1, ⟨WaitSetStateKind.blocked, [], [], [], [], [], []⟩)]⟩,
        []) ∧
    (wait_entry
        (wait_entry WaitSetStateKind.free WaitSetStateKind.free).2.1
        WaitSetStateKind.free).1 = false :=
  ⟨(wait_concurrent_entry_fails
      ⟨[], [], [(1, ⟨WaitSetStateKind.blocked, [], [], [], [], [], []⟩)]⟩
      1 WaitSetStateKind.free none none none none none
      (by decide) (by decide)).1,
    (wait_concurrent_entry_fails
      ⟨[], [], [(1, ⟨WaitSetStateKind.blocked, [], [], [], [], [], []⟩)]⟩
      1 WaitSetStateKind.free none none none none none
      (by decide) (by decide)).2
      WaitSetStateKind.free WaitSetStateKind.free WaitSetStateKind.free rfl⟩

/-- No attached source is demultiplex-ready: data sources and events have
no data / no active status, and no guard condition appears in the engine's
active-condition list. -/
def noReady (w : World) (ws : WaitSet) (active : List Nat) : Bool :=
  ws.attached_subscribers.all (fun s => !(srcInfo w s).ready) &&
  ws.attached_conditions.all (fun g => !(active.contains g)) &&
  ws.attached_clients.all (fun s => !(srcInfo w s).ready) &&
  ws.attached_services.all (fun s => !(srcInfo w s).ready) &&
  ws.attached_events.all (fun e => !(srcInfo w e).ready)

/-- No condition checked during demultiplexing is deleted. -/
def noneDeleted (w : World) (ws : WaitSet) : Bool :=
  ws.attached_subscribers.all (fun s => !(lookupCond w (condOf w s)).deleted) &&
  ws.attached_conditions.all (fun g => !(lookupCond w g).deleted) &&
  ws.attached_clients.all (fun s => !(lookupCond w (condOf w s)).deleted) &&
  ws.attached_events.all (fun e =>
    !(((ws.attached_events_cache.lookup e).map
      (fun c => (lookupCond w c).deleted)).getD false))

/-- Some attached source is demultiplex-ready. -/
def readyExists (w : World) (ws : WaitSet) (active : List Nat) : Bool :=
  ws.attached_subscribers.any (fun s => (srcInfo w s).ready) ||
  ws.attached_conditions.any (fun g => active.contains g) ||
  ws.attached_clients.any (fun s => (srcInfo w s).ready) ||
  ws.attached_services.any (fun s => (srcInfo w s).ready) ||
  ws.attached_events.any (fun e => (srcInfo w e).ready)

theorem processData_inplace (w : World) (l : List Nat)
    (arr : List (Option Nat)) (i : Nat) :
    (processData w l arr).1.get? i = some none ∨
    (processData w l arr).1.get? i = arr.get? i := by
  induction l generalizing arr i with
  | nil => right; rfl
  | cons s ss ih =>
    cases arr with
    | nil =>
      right
      simp [processData]
    | cons a t =>
      cases i with
      | zero =>
        by_cases hr : (srcInfo w s).ready
        · right; simp [processData, hr]
        · left; simp [processData, hr]
      | succ n =>
        have := ih t n
        simpa [processData] using this

theorem processData_notReady (w : World) (l : List Nat)
    (arr : List (Option Nat))
    (h : l.all (fun s => !(srcInfo w s).ready) = true) :
    (processData w l arr).2.1 = 0 ∧
    (∀ x ∈ (processData w l arr).1, arr.length = l.length → x = none) := by
  induction l generalizing arr with
  | nil =>
    refine ⟨rfl, ?_⟩
    intro x hx hlen
    cases arr with
    | nil => simp [processData] at hx
    | cons a t => simp at hlen
  | cons s ss ih =>
    rw [List.all_cons] at h
    have hs : (srcInfo w s).ready = false := by
      cases hr : (srcInfo w s).ready <;> simp [hr] at h ⊢
    have hss : ss.all (fun s => !(srcInfo w s).ready) = true := by
      cases hall : ss.all (fun s => !(srcInfo w s).ready) <;> simp [hall] at h ⊢
    cases arr with
    | nil =>
      refine ⟨?_, ?_⟩
      · simp [processData, hs, (ih [] hss).1]
      · intro x hx hlen
        simp [processData] at hx
    | cons a t =>
      refine ⟨?_, ?_⟩
      · simp [processData, hs, (ih t hss).1]
      · intro x hx hlen
        simp only [processData, hs, if_neg (by simp : ¬ (false = true))] at hx
        rcases List.mem_cons.mp hx with rfl | hxt
        · rfl
        · exact (ih t hss).2 x hxt (by simpa using hlen)

theorem processData_validOf (w : World) (l : List Nat)
    (arr : List (Option Nat))
    (h : l.all (fun s => !(lookupCond w (condOf w s)).deleted) = true) :
    (processData w l arr).2.2 = true := by
  induction l generalizing arr with
  | nil => rfl
  | cons s ss ih =>
    rw [List.all_cons] at h
    have hs : (lookupCond w (condOf w s)).deleted = false := by
      cases hr : (lookupCond w (condOf w s)).deleted <;> simp [hr] at h ⊢
    have hss : ss.all (fun s => !(lookupCond w (condOf w s)).deleted) = true := by
      cases hall : ss.all (fun s => !(lookupCond w (condOf w s)).deleted) <;>
        simp [hall] at h ⊢
    cases arr with
    | nil => simp [processData, hs, ih [] hss]
    | cons a t => simp [processData, hs, ih t hss]

theorem processData_countPos (w : World) (l : List Nat)
    (arr : List (Option Nat))
    (h : l.any (fun s => (srcInfo w s).ready) = true) :
    0 < (processData w l arr).2.1 := by
  induction l generalizing arr with
  | nil => simp at h
  | cons s ss ih =>
    rw [List.any_cons] at h
    by_cases hs : (srcInfo w s).ready = true
    · cases arr with
      | nil => simp [processData, hs]
      | cons a t => simp [processData, hs]
    · have hss : ss.any (fun s => (srcInfo w s).ready) = true := by
        cases hall : ss.any (fun s => (srcInfo w s).ready) <;>
          simp [hall, hs] at h ⊢
      cases arr with
      | nil =>
        have := ih [] hss
        simp [processData, hs]
        omega
      | cons a t =>
        have := ih t hss
        simp [processData, hs]
        omega

theorem processGuards_inplace (w : World) (active : List Nat)
    (l : List Nat) (arr : List (Option Nat)) (i : Nat) :
    (processGuards w active l arr).1.get? i = some none ∨
    (processGuards w active l arr).1.get? i = arr.get? i := by
  induction l generalizing arr i with
  | nil => right; rfl
  | cons g gs ih =>
    cases arr with
    | nil =>
      right
      simp [processGuards]
    | cons a t =>
      cases i with
      | zero =>
        cases hr : active.contains g
        · left; simp only [processGuards, hr]; rfl
        · right; simp only [processGuards, hr]; rfl
      | succ n =>
        have := ih t n
        simpa [processGuards] using this

theorem processGuards_notReady (w : World) (active : List Nat)
    (l : List Nat) (arr : List (Option Nat))
    (h : l.all (fun g => !(active.contains g)) = true) :
    (processGuards w active l arr).2.1 = 0 ∧
    (∀ x ∈ (processGuards w active l arr).1, arr.length = l.length →
      x = none) ∧
    (processGuards w active l arr).2.2.2 = false := by
  induction l generalizing arr with
  | nil =>
    refine ⟨rfl, ?_, rfl⟩
    intro x hx hlen
    cases arr with
    | nil => simp [processGuards] at hx
    | cons a t => simp at hlen
  | cons g gs ih =>
    rw [List.all_cons, Bool.and_eq_true, Bool.not_eq_true'] at h
    have hg : active.contains g = false := h.1
    have hgs : gs.all (fun g => !(active.contains g)) = true := h.2
    cases arr with
    | nil =>
      refine ⟨?_, ?_, ?_⟩
      · simp only [processGuards, hg]
        simp [(ih [] hgs).1]
      · intro x hx hlen
        simp [processGuards] at hx
      · simp only [processGuards, hg]
        simp [(ih [] hgs).2.2]
    | cons a t =>
      refine ⟨?_, ?_, ?_⟩
      · simp only [processGuards, hg]
        simp [(ih t hgs).1]
      · intro x hx hlen
        simp only [processGuards, hg,
          if_neg (by simp : ¬ (false = true))] at hx
        rcases List.mem_cons.mp hx with rfl | hxt
        · rfl
        · exact (ih t hgs).2.1 x hxt (by simpa using hlen)
      · simp only [processGuards, hg]
        simp [(ih t hgs).2.2]

theorem processGuards_validOf (w : World) (active : List Nat)
    (l : List Nat) (arr : List (Option Nat))
    (h : l.all (fun g => !(lookupCond w g).deleted) = true) :
    (processGuards w active l arr).2.2.1 = true := by
  induction l generalizing arr with
  | nil => rfl
  | cons g gs ih =>
    rw [List.all_cons, Bool.and_eq_true, Bool.not_eq_true'] at h
    have hg : (lookupCond w g).deleted = false := h.1
    have hgs : gs.all (fun g => !(lookupCond w g).deleted) = true := h.2
    cases arr with
    | nil =>
      simp only [processGuards, hg]
      simp [ih [] hgs]
    | cons a t =>
      simp only [processGuards, hg]
      simp [ih t hgs]

theorem processGuards_countPos (w : World) (active : List Nat)
    (l : List Nat) (arr : List (Option Nat))
    (h : l.any (fun g => active.contains g) = true) :
    0 < (processGuards w active l arr).2.1 := by
  induction l generalizing arr with
  | nil => simp at h
  | cons g gs ih =>
    rw [List.any_cons, Bool.or_eq_true] at h
    cases hg : active.contains g
    · have hgs : gs.any (fun g => active.contains g) = true := by
        rcases h with h | h
        · rw [hg] at h; exact absurd h (by simp)
        · exact h
      cases arr with
      | nil =>
        have := ih [] hgs
        simp only [processGuards, hg, if_neg (by decide : ¬ (false = true))]
        omega
      | cons a t =>
        have := ih t hgs
        simp only [processGuards, hg, if_neg (by decide : ¬ (false = true))]
        omega
    · cases arr with
      | nil =>
        simp only [processGuards, hg, if_true]
        omega
      | cons a t =>
        simp only [processGuards, hg, if_true]
        omega

theorem processServices_inplace (w : World) (l : List Nat)
    (arr : List (Option Nat)) (i : Nat) :
    (processServices w l arr).1.get? i = some none ∨
    (processServices w l arr).1.get? i = arr.get? i := by
  induction l generalizing arr i with
  | nil => right; rfl
  | cons s ss ih =>
    cases arr with
    | nil =>
      right
      simp [processServices]
    | cons a t =>
      cases i with
      | zero =>
        by_cases hr : (srcInfo w s).ready
        · right; simp [processServices, hr]
        · left; simp [processServices, hr]
      | succ n =>
        have := ih t n
        simpa [processServices] using this

theorem processServices_notReady (w : World) (l : List Nat)
    (arr : List (Option Nat))
    (h : l.all (fun s => !(srcInfo w s).ready) = true) :
    (processServices w l arr).2 = 0 ∧
    (∀ x ∈ (processServices w l arr).1, arr.length = l.length → x = none) := by
  induction l generalizing arr with
  | nil =>
    refine ⟨rfl, ?_⟩
    intro x hx hlen
    cases arr with
    | nil => simp [processServices] at hx
    | cons a t => simp at hlen
  | cons s ss ih =>
    rw [List.all_cons] at h
    have hs : (srcInfo w s).ready = false := by
      cases hr : (srcInfo w s).ready <;> simp [hr] at h ⊢
    have hss : ss.all (fun s => !(srcInfo w s).ready) = true := by
      cases hall : ss.all (fun s => !(srcInfo w s).ready) <;> simp [hall] at h ⊢
    cases arr with
    | nil =>
      refine ⟨?_, ?_⟩
      · simp [processServices, hs, (ih [] hss).1]
      · intro x hx hlen
        simp [processServices] at hx
    | cons a t =>
      refine ⟨?_, ?_⟩
      · simp [processServices, hs, (ih t hss).1]
      · intro x hx hlen
        simp only [processServices, hs,
          if_neg (by simp : ¬ (false = true))] at hx
        rcases List.mem_cons.mp hx with rfl | hxt
        · rfl
        · exact (ih t hss).2 x hxt (by simpa using hlen)

theorem processServices_countPos (w : World) (l : List Nat)
    (arr : List (Option Nat))
    (h : l.any (fun s => (srcInfo w s).ready) = true) :
    0 < (processServices w l arr).2 := by
  induction l generalizing arr with
  | nil => simp at h
  | cons s ss ih =>
    rw [List.any_cons] at h
    by_cases hs : (srcInfo w s).ready = true
    · cases arr with
      | nil => simp [processServices, hs]
      | cons a t => simp [processServices, hs]
    · have hss : ss.any (fun s => (srcInfo w s).ready) = true := by
        cases hall : ss.any (fun s => (srcInfo w s).ready) <;>
          simp [hall, hs] at h ⊢
      cases arr with
      | nil =>
        have := ih [] hss
        simp [processServices, hs]
        omega
      | cons a t =>
        have := ih t hss
        simp [processServices, hs]
        omega

theorem processEvents_inplace (w : World) (cache : List (Nat × Nat))
    (l : List Nat) (arr : List (Option Nat)) (i : Nat) :
    (processEvents w cache l arr).1.get? i = some none ∨
    (processEvents w cache l arr).1.get? i = arr.get? i := by
  induction l generalizing arr i with
  | nil => right; rfl
  | cons e es ih =>
    cases arr with
    | nil =>
      right
      simp [processEvents]
    | cons a t =>
      cases i with
      | zero =>
        by_cases hr : (srcInfo w e).ready
        · right; simp [processEvents, hr]
        · left; simp [processEvents, hr]
      | succ n =>
        have := ih t n
        simpa [processEvents] using this

theorem processEvents_notReady (w : World) (cache : List (Nat × Nat))
    (l : List Nat) (arr : List (Option Nat))
    (h : l.all (fun e => !(srcInfo w e).ready) = true) :
    (processEvents w cache l arr).2.1 = 0 ∧
    (∀ x ∈ (processEvents w cache l arr).1, arr.length = l.length →
      x = none) := by
  induction l generalizing arr with
  | nil =>
    refine ⟨rfl, ?_⟩
    intro x hx hlen
    cases arr with
    | nil => simp [processEvents] at hx
    | cons a t => simp at hlen
  | cons e es ih =>
    rw [List.all_cons] at h
    have hs : (srcInfo w e).ready = false := by
      cases hr : (srcInfo w e).ready <;> simp [hr] at h ⊢
    have hss : es.all (fun e => !(srcInfo w e).ready) = true := by
      cases hall : es.all (fun e => !(srcInfo w e).ready) <;> simp [hall] at h ⊢
    cases arr with
    | nil =>
      refine ⟨?_, ?_⟩
      · simp [processEvents, hs, (ih [] hss).1]
      · intro x hx hlen
        simp [processEvents] at hx
    | cons a t =>
      refine ⟨?_, ?_⟩
      · simp [processEvents, hs, (ih t hss).1]
      · intro x hx hlen
        simp only [processEvents, hs,
          if_neg (by simp : ¬ (false = true))] at hx
        rcases List.mem_cons.mp hx with rfl | hxt
        · rfl
        · exact (ih t hss).2 x hxt (by simpa using hlen)

theorem processEvents_validOf (w : World) (cache : List (Nat × Nat))
    (l : List Nat) (arr : List (Option Nat))
    (h : l.all (fun e =>
      !(((cache.lookup e).map (fun c => (lookupCond w c).deleted)).getD
        false)) = true) :
    (processEvents w cache l arr).2.2 = true := by
  induction l generalizing arr with
  | nil => rfl
  | cons e es ih =>
    rw [List.all_cons] at h
    have hs : (((cache.lookup e).map
        (fun c => (lookupCond w c).deleted)).getD false) = false := by
      cases hr : (((cache.lookup e).map
          (fun c => (lookupCond w c).deleted)).getD false) <;>
        simp [hr] at h ⊢
    have hss : es.all (fun e =>
        !(((cache.lookup e).map (fun c => (lookupCond w c).deleted)).getD
          false)) = true := by
      cases hall : es.all (fun e =>
          !(((cache.lookup e).map (fun c => (lookupCond w c).deleted)).getD
            false)) <;> simp [hall] at h ⊢
    cases arr with
    | nil => simp [processEvents, hs, ih [] hss]
    | cons a t => simp [processEvents, hs, ih t hss]

theorem processEvents_countPos (w : World) (cache : List (Nat × Nat))
    (l : List Nat) (arr : List (Option Nat))
    (h : l.any (fun e => (srcInfo w e).ready) = true) :
    0 < (processEvents w cache l arr).2.1 := by
  induction l generalizing arr with
  | nil => simp at h
  | cons e es ih =>
    rw [List.any_cons] at h
    by_cases hs : (srcInfo w e).ready = true
    · cases arr with
      | nil => simp [processEvents, hs]
      | cons a t => simp [processEvents, hs]
    · have hss : es.any (fun e => (srcInfo w e).ready) = true := by
        cases hall : es.any (fun e => (srcInfo w e).ready) <;>
          simp [hall, hs] at h ⊢
      cases arr with
      | nil =>
        have := ih [] hss
        simp [processEvents, hs]
        omega
      | cons a t =>
        have := ih t hss
        simp [processEvents, hs]
        omega

/-- C5: on an engine timeout with no attached source demultiplex-ready and
no attached condition deleted, `wait` returns TIMEOUT (not ERROR) and every
entry of each of the five caller-supplied arrays has been nulled in place,
so no non-null entries remain; moreover (second conjunct, for every engine
return code) each output array entry is positionally either nulled or the
caller's original entry — the arrays are never permuted. -/
theorem wait_timeout_nulls_all (w : World) (ws : WaitSet)
    (active : List Nat) (arrs : WaitArrays)
    (hready : noReady w ws active = true)
    (hdel : noneDeleted w ws = true)
    (hl1 : arrs.subs.length = ws.attached_subscribers.length)
    (hl2 : arrs.gcs.length = ws.attached_conditions.length)
    (hl3 : arrs.srvs.length = ws.attached_services.length)
    (hl4 : arrs.cls.length = ws.attached_clients.length)
    (hl5 : arrs.evs.length = ws.attached_events.length) :
    ((wait_tail w ws active arrs DdsRet.timeout).1 = RetCode.timeout ∧
      (∀ x ∈ (wait_tail w ws active arrs DdsRet.timeout).2.subs, x = none) ∧
      (∀ x ∈ (wait_tail w ws active arrs DdsRet.timeout).2.gcs, x = none) ∧
      (∀ x ∈ (wait_tail w ws active arrs DdsRet.timeout).2.srvs, x = none) ∧
      (∀ x ∈ (wait_tail w ws active arrs DdsRet.timeout).2.cls, x = none) ∧
      (∀ x ∈ (wait_tail w ws active arrs DdsRet.timeout).2.evs, x = none)) ∧
    (∀ (wrc : DdsRet) (i : Nat),
      ((wait_tail w ws active arrs wrc).2.subs.get? i = some none ∨
        (wait_tail w ws active arrs wrc).2.subs.get? i = arrs.subs.get? i) ∧
      ((wait_tail w ws active arrs wrc).2.gcs.get? i = some none ∨
        (wait_tail w ws active arrs wrc).2.gcs.get? i = arrs.gcs.get? i) ∧
      ((wait_tail w ws active arrs wrc).2.srvs.get? i = some none ∨
        (wait_tail w ws active arrs wrc).2.srvs.get? i = arrs.srvs.get? i) ∧
      ((wait_tail w ws active arrs wrc).2.cls.get? i = some none ∨
        (wait_tail w ws active arrs wrc).2.cls.get? i = arrs.cls.get? i) ∧
      ((wait_tail w ws active arrs wrc).2.evs.get? i = some none ∨
        (wait_tail w ws active arrs wrc).2.evs.get? i = arrs.evs.get? i)) := by
  simp only [noReady, Bool.and_eq_true] at hready
  obtain ⟨⟨⟨⟨hr1, hr2⟩, hr3⟩, hr4⟩, hr5⟩ := hready
  simp only [noneDeleted, Bool.and_eq_true] at hdel
  obtain ⟨⟨⟨hd1, hd2⟩, hd3⟩, hd4⟩ := hdel
  have hsub := processData_notReady w ws.attached_subscribers arrs.subs hr1
  have hgc := processGuards_notReady w active ws.attached_conditions
    arrs.gcs hr2
  have hcl := processData_notReady w ws.attached_clients arrs.cls hr3
  have hsrv := processServices_notReady w ws.attached_services arrs.srvs hr4
  have hev := processEvents_notReady w ws.attached_events_cache
    ws.attached_events arrs.evs hr5
  have hv1 := processData_validOf w ws.attached_subscribers arrs.subs hd1
  have hv2 := processGuards_validOf w active ws.attached_conditions
    arrs.gcs hd2
  have hv3 := processData_validOf w ws.attached_clients arrs.cls hd3
  have hv4 := processEvents_validOf w ws.attached_events_cache
    ws.attached_events arrs.evs hd4
  have hrc : (process_wait w ws active arrs).1 = RetCode.ok := by
    simp [process_wait, hgc.2.2, hv1, hv2, hv3, hv4]
  have harr2 : ∀ wrc, (wrc = DdsRet.ok ∨ wrc = DdsRet.timeout) →
      (wait_tail w ws active arrs wrc).2 =
        (process_wait w ws active arrs).2.1 := by
    intro wrc hw
    simp only [wait_tail, if_pos hw]
    split
    · rfl
    · split <;> rfl
  have hsubs_eq : (process_wait w ws active arrs).2.1.subs =
      (processData w ws.attached_subscribers arrs.subs).1 := rfl
  have hgcs_eq : (process_wait w ws active arrs).2.1.gcs =
      (processGuards w active ws.attached_conditions arrs.gcs).1 := rfl
  have hsrvs_eq : (process_wait w ws active arrs).2.1.srvs =
      (processServices w ws.attached_services arrs.srvs).1 := rfl
  have hcls_eq : (process_wait w ws active arrs).2.1.cls =
      (processData w ws.attached_clients arrs.cls).1 := rfl
  have hevs_eq : (process_wait w ws active arrs).2.1.evs =
      (processEvents w ws.attached_events_cache ws.attached_events
        arrs.evs).1 := rfl
  have htimeout : (wait_tail w ws active arrs DdsRet.timeout).2 =
      (process_wait w ws active arrs).2.1 := harr2 _ (Or.inr rfl)
  constructor
  · refine ⟨?_, ?_, ?_, ?_, ?_, ?_⟩
    · simp [wait_tail, hrc]
    · intro x hx
      rw [htimeout, hsubs_eq] at hx
      exact hsub.2 x hx hl1
    · intro x hx
      rw [htimeout, hgcs_eq] at hx
      exact hgc.2.1 x hx hl2
    · intro x hx
      rw [htimeout, hsrvs_eq] at hx
      exact hsrv.2 x hx hl3
    · intro x hx
      rw [htimeout, hcls_eq] at hx
      exact hcl.2 x hx hl4
    · intro x hx
      rw [htimeout, hevs_eq] at hx
      exact hev.2 x hx hl5
  · intro wrc i
    by_cases hw : wrc = DdsRet.ok ∨ wrc = DdsRet.timeout
    · rw [harr2 wrc hw, hsubs_eq, hgcs_eq, hsrvs_eq, hcls_eq, hevs_eq]
      exact ⟨processData_inplace w _ arrs.subs i,
        processGuards_inplace w active _ arrs.gcs i,
        processServices_inplace w _ arrs.srvs i,
        processData_inplace w _ arrs.cls i,
        processEvents_inplace w ws.attached_events_cache _ arrs.evs i⟩
    · have : (wait_tail w ws active arrs wrc).2 = arrs := by
        simp [wait_tail, hw]
      rw [this]
      exact ⟨Or.inr rfl, Or.inr rfl, Or.inr rfl, Or.inr rfl, Or.inr rfl⟩

/-- Witness for C5: one attached subscriber (source 10, condition 20)
without data; the caller array entry is nulled and TIMEOUT is returned. -/
theorem wait_timeout_nulls_all_witness :
    (wait_tail
        ⟨[(10, ⟨20, false, 0⟩)], [(20, ⟨false, some 1, 0, true⟩)],
          [(1, ⟨WaitSetStateKind.releasing, [10], [], [], [], [], []⟩)]⟩
        ⟨WaitSetStateKind.releasing, [10], [], [], [], [], []⟩ []
        ⟨[some 10], [], [], [], []⟩ DdsRet.timeout).1 = RetCode.timeout ∧
    ((wait_tail
        ⟨[(10, ⟨20, false, 0⟩)], [(20, ⟨false, some 1, 0, true⟩)],
          [(1, ⟨WaitSetStateKind.releasing, [10], [], [], [], [], []⟩)]⟩
        ⟨WaitSetStateKind.releasing, [10], [], [], [], [], []⟩ []
        ⟨[some 10], [], [], [], []⟩ DdsRet.timeout).2.subs.get? 0 =
        some none ∨
      (wait_tail
        ⟨[(10, ⟨20, false, 0⟩)], [(20, ⟨false, some 1, 0, true⟩)],
          [(1, ⟨WaitSetStateKind.releasing, [10], [], [], [], [], []⟩)]⟩
        ⟨WaitSetStateKind.releasing, [10], [], [], [], [], []⟩ []
        ⟨[some 10], [], [], [], []⟩ DdsRet.timeout).2.subs.get? 0 =
        (⟨[some 10], [], [], [], []⟩ : WaitArrays).subs.get? 0) :=
  ⟨(wait_timeout_nulls_all
      ⟨[(10, ⟨20, false, 0⟩)], [(20, ⟨false, some 1, 0, true⟩)],
        [(1, ⟨WaitSetStateKind.releasing, [10], [], [], [], [], []⟩)]⟩
      ⟨WaitSetStateKind.releasing, [10], [], [], [], [], []⟩ []
      ⟨[some 10], [], [], [], []⟩ (by decide) (by decide)
      rfl rfl rfl rfl rfl).1.1,
    ((wait_timeout_nulls_all
      ⟨[(10, ⟨20, false, 0⟩)], [(20, ⟨false, some 1, 0, true⟩)],
        [(1, ⟨WaitSetStateKind.releasing, [10], [], [], [], [], []⟩)]⟩
      ⟨WaitSetStateKind.releasing, [10], [], [], [], [], []⟩ []
      ⟨[some 10], [], [], [], []⟩ (by decide) (by decide)
      rfl rfl rfl rfl rfl).2 DdsRet.timeout 0).1⟩

/-- C6: the predicate asserted by `RMW_CONNEXT_ASSERT` at the end of
`wait` (line 4099) — `active_conditions > 0 || wait_rc == TIMEOUT` — holds
for every run that reaches it: the engine call did not fail (otherwise
`wait` returned before the assert), and under the engine contract an ok
return means at least one attached source is demultiplex-ready, in which
case `process_wait` counts at least one active source. -/
theorem wait_assert_invariant (w : World) (ws : WaitSet)
    (active : List Nat) (arrs : WaitArrays) (wrc : DdsRet)
    (hwrc : wrc ≠ DdsRet.error)
    (hcoh : wrc = DdsRet.ok → readyExists w ws active = true) :
    waitAssertPred (process_wait w ws active arrs).2.2 wrc = true := by
  cases wrc with
  | timeout => simp [waitAssertPred]
  | error => exact absurd rfl hwrc
  | ok =>
    have hre := hcoh rfl
    simp only [readyExists, Bool.or_eq_true] at hre
    have hsum : (process_wait w ws active arrs).2.2 =
        (processData w ws.attached_subscribers arrs.subs).2.1 +
        (processGuards w active ws.attached_conditions arrs.gcs).2.1 +
        (processData w ws.attached_clients arrs.cls).2.1 +
        (processServices w ws.attached_services arrs.srvs).2 +
        (processEvents w ws.attached_events_cache ws.attached_events
          arrs.evs).2.1 := rfl
    have hcnt : 0 < (process_wait w ws active arrs).2.2 := by
      rw [hsum]
      rcases hre with ((((h | h) | h) | h) | h)
      · have := processData_countPos w _ arrs.subs h
        omega
      · have := processGuards_countPos w active _ arrs.gcs h
        omega
      · have := processData_countPos w _ arrs.cls h
        omega
      · have := processServices_countPos w _ arrs.srvs h
        omega
      · have := processEvents_countPos w ws.attached_events_cache _
          arrs.evs h
        omega
    simp [waitAssertPred, hcnt]

/-- Witness for C6: one attached subscriber with data, engine returned ok;
the asserted predicate evaluates to true. -/
theorem wait_assert_invariant_witness :
    waitAssertPred
      (process_wait
        ⟨[(10, ⟨20, true, 0⟩)], [(20, ⟨false, some 1, 0, true⟩)],
          [(1, ⟨WaitSetStateKind.releasing, [10], [], [], [], [], []⟩)]⟩
        ⟨WaitSetStateKind.releasing, [10], [], [], [], [], []⟩ [20]
        ⟨[some 10], [], [], [], []⟩).2.2 DdsRet.ok = true :=
  wait_assert_invariant
    ⟨[(10, ⟨20, true, 0⟩)], [(20, ⟨false, some 1, 0, true⟩)],
      [(1, ⟨WaitSetStateKind.releasing, [10], [], [], [], [], []⟩)]⟩
    ⟨WaitSetStateKind.releasing, [10], [], [], [], [], []⟩ [20]
    ⟨[some 10], [], [], [], []⟩ DdsRet.ok (by decide) (fun _ => by decide)

/-! ### Association-list and frame lemmas -/

theorem lookup_alUpdate {α : Type} (l : List (Nat × α)) (k : Nat)
    (f : α → α) (j : Nat) :
    (alUpdate l k f).lookup j =
      if j = k then (l.lookup j).map f else l.lookup j := by
  induction l with
  | nil => simp [alUpdate]
  | cons p t ih =>
    obtain ⟨a, b⟩ := p
    have step : alUpdate ((a, b) :: t) k f =
        (if a = k then (a, f b) else (a, b)) :: alUpdate t k f := rfl
    rw [step]
    by_cases hak : a = k
    · rw [if_pos hak]
      subst hak
      by_cases hja : j = a
      · subst hja
        rw [List.lookup_cons, List.lookup_cons]
        simp
      · rw [List.lookup_cons, List.lookup_cons]
        have hbeq : (j == a) = false := by simpa using hja
        simp only [hbeq]
        rw [ih, if_neg hja]
    · rw [if_neg hak]
      by_cases hja : j = a
      · subst hja
        rw [List.lookup_cons, List.lookup_cons]
        have hjk : ¬ j = k := hak
        simp [hjk]
      · rw [List.lookup_cons, List.lookup_cons]
        have hbeq : (j == a) = false := by simpa using hja
        simp only [hbeq]
        exact ih

theorem alUpdate_keys {α : Type} (l : List (Nat × α)) (k : Nat)
    (f : α → α) : (alUpdate l k f).map Prod.fst = l.map Prod.fst := by
  induction l with
  | nil => rfl
  | cons p t ih =>
    by_cases h : p.1 = k <;> simp [alUpdate, h] at ih ⊢ <;> exact ih

theorem setCond_srcs (w : World) (c : Nat) (f : CondState → CondState) :
    (setCond w c f).srcs = w.srcs := rfl

theorem setCond_waitsets (w : World) (c : Nat) (f : CondState → CondState) :
    (setCond w c f).waitsets = w.waitsets := rfl

theorem setWS_srcs (w : World) (i : Nat) (ws : WaitSet) :
    (setWS w i ws).srcs = w.srcs := rfl

theorem setWS_conds (w : World) (i : Nat) (ws : WaitSet) :
    (setWS w i ws).conds = w.conds := rfl

theorem condOf_srcs_eq {w w2 : World} (h : w.srcs = w2.srcs) (s : Nat) :
    condOf w s = condOf w2 s := by
  simp [condOf, srcInfo, h]

theorem lookupCond_setCond (w : World) (c : Nat) (f : CondState → CondState)
    (j : Nat) :
    (setCond w c f).conds.lookup j =
      if j = c then (w.conds.lookup j).map f else w.conds.lookup j := by
  simp [setCond, lookup_alUpdate]

theorem getWS_setWS (w : World) (i : Nat) (ws : WaitSet) (j : Nat) :
    (setWS w i ws).waitsets.lookup j =
      if j = i then (w.waitsets.lookup j).map (fun _ => ws)
      else w.waitsets.lookup j := by
  simp [setWS, lookup_alUpdate]

theorem getWS_setWS_ne (w : World) (i : Nat) (ws : WaitSet) (j : Nat)
    (h : j ≠ i) : getWS (setWS w i ws) j = getWS w j := by
  simp [getWS, getWS_setWS, h]

theorem getWS_setWS_self (w : World) (i : Nat) (ws : WaitSet)
    (h : (w.waitsets.lookup i).isSome = true) :
    getWS (setWS w i ws) i = ws := by
  rcases Option.isSome_iff_exists.mp h with ⟨x, hx⟩
  simp [getWS, getWS_setWS, hx]

theorem getWS_setCond (w : World) (c : Nat) (f : CondState → CondState)
    (j : Nat) : getWS (setCond w c f) j = getWS w j := rfl

theorem detachConds_srcs (w : World) (l : List Nat) :
    (detachConds w l).1.srcs = w.srcs := by
  induction l generalizing w with
  | nil => rfl
  | cons c cs ih => simpa [detachConds] using ih (setCond w c condDetach)

theorem detachConds_waitsets (w : World) (l : List Nat) :
    (detachConds w l).1.waitsets = w.waitsets := by
  induction l generalizing w with
  | nil => rfl
  | cons c cs ih => simpa [detachConds] using ih (setCond w c condDetach)

theorem detachConds_log (w : World) (l : List Nat) :
    (detachConds w l).2 = l.map Action.detachCond := by
  induction l generalizing w with
  | nil => rfl
  | cons c cs ih => simp [detachConds, ih]

theorem condDetach_idem (cs : CondState) :
    condDetach (condDetach cs) = condDetach cs := rfl

theorem detachConds_lookup (w : World) (l : List Nat) (c : Nat) :
    (detachConds w l).1.conds.lookup c =
      if c ∈ l then (w.conds.lookup c).map condDetach
      else w.conds.lookup c := by
  induction l generalizing w with
  | nil => simp [detachConds]
  | cons a t ih =>
    simp only [detachConds]
    rw [ih (setCond w a condDetach)]
    by_cases hct : c ∈ t
    · by_cases hca : c = a
      · subst hca
        simp [hct, lookupCond_setCond, Option.map_map]
        cases w.conds.lookup c <;> simp [condDetach]
      · simp [hct, lookupCond_setCond, hca, List.mem_cons]
    · by_cases hca : c = a
      · subst hca
        simp [hct, lookupCond_setCond]
      · simp [hct, lookupCond_setCond, hca, List.mem_cons]

theorem detachConds_keys (w : World) (l : List Nat) :
    (detachConds w l).1.conds.map Prod.fst = w.conds.map Prod.fst := by
  induction l generalizing w with
  | nil => rfl
  | cons c cs ih =>
    simp only [detachConds]
    rw [ih (setCond w c condDetach)]
    simp [setCond, alUpdate_keys]

theorem invalidate_srcs (w : World) (o c : Nat) :
    (invalidate w o c).2.1.srcs = w.srcs := by
  by_cases h1 : is_attached w (getWS w o) c = true
  · by_cases h2 : (getWS w o).state = WaitSetStateKind.free
    · simp [invalidate, h1, h2, wsDetach, setWS_srcs, detachConds_srcs]
    · simp [invalidate, h1, h2]
  · simp [invalidate, h1]

theorem invalidate_getWS_ne (w : World) (o c j : Nat) (h : j ≠ o) :
    getWS (invalidate w o c).2.1 j = getWS w j := by
  by_cases h1 : is_attached w (getWS w o) c = true
  · by_cases h2 : (getWS w o).state = WaitSetStateKind.free
    · simp only [invalidate]
      rw [if_neg (by simp [h1]), if_pos h2]
      rw [getWS_setWS_ne _ _ _ _ h]
      simp only [wsDetach]
      rw [getWS_setWS_ne _ _ _ _ h]
      simp only [getWS, detachConds_waitsets]
      simp [setWS, lookup_alUpdate, h]
    · simp [invalidate, h1, h2]
  · simp [invalidate, h1]

theorem invalidate_ws_keys (w : World) (o c : Nat) :
    (invalidate w o c).2.1.waitsets.map Prod.fst =
      w.waitsets.map Prod.fst := by
  by_cases h1 : is_attached w (getWS w o) c = true
  · by_cases h2 : (getWS w o).state = WaitSetStateKind.free
    · simp [invalidate, h1, h2, wsDetach, setWS, detachConds_waitsets,
        alUpdate_keys]
    · simp [invalidate, h1, h2]
  · simp [invalidate, h1]

theorem invalidate_cond_keys (w : World) (o c : Nat) :
    (invalidate w o c).2.1.conds.map Prod.fst = w.conds.map Prod.fst := by
  by_cases h1 : is_attached w (getWS w o) c = true
  · by_cases h2 : (getWS w o).state = WaitSetStateKind.free
    · simp [invalidate, h1, h2, setWS_conds, wsDetach, detachConds_keys]
    · simp [invalidate, h1, h2]
  · simp [invalidate, h1]

theorem invalidateOther_srcs (w : World) (thisId c : Nat) :
    (invalidateOther w thisId c).1.srcs = w.srcs := by
  unfold invalidateOther
  split
  · split
    · simp [invalidate_srcs]
    · rfl
  · rfl

theorem invalidateOther_getWS_this (w : World) (thisId c : Nat) :
    getWS (invalidateOther w thisId c).1 thisId = getWS w thisId := by
  unfold invalidateOther
  split
  · rename_i o heq
    split
    · rename_i hne
      exact invalidate_getWS_ne w o c thisId (Ne.symm hne)
    · rfl
  · rfl

theorem invalidateOther_ws_keys (w : World) (thisId c : Nat) :
    (invalidateOther w thisId c).1.waitsets.map Prod.fst =
      w.waitsets.map Prod.fst := by
  unfold invalidateOther
  split
  · split
    · simp [invalidate_ws_keys]
    · rfl
  · rfl

theorem invalidateOther_cond_keys (w : World) (thisId c : Nat) :
    (invalidateOther w thisId c).1.conds.map Prod.fst =
      w.conds.map Prod.fst := by
  unfold invalidateOther
  split
  · split
    · simp [invalidate_cond_keys]
    · rfl
  · rfl

theorem lookup_isSome_iff_mem_keys {α : Type} (l : List (Nat × α))
    (k : Nat) : (l.lookup k).isSome = true ↔ k ∈ l.map Prod.fst := by
  induction l with
  | nil => simp [List.lookup]
  | cons p t ih =>
    obtain ⟨a, b⟩ := p
    rw [List.lookup_cons]
    by_cases h : k = a
    · subst h; simp
    · have hb : (k == a) = false := by simpa using h
      simp [hb, h, ih]

/-- The waitset identifier is present in the world's waitset map. -/
def hasWS (w : World) (i : Nat) : Prop :=
  (w.waitsets.lookup i).isSome = true

theorem hasWS_of_keys {w w2 : World} (i : Nat)
    (h : w2.waitsets.map Prod.fst = w.waitsets.map Prod.fst)
    (hw : hasWS w i) : hasWS w2 i := by
  unfold hasWS at hw ⊢
  rw [lookup_isSome_iff_mem_keys] at hw ⊢
  rw [h]
  exact hw

theorem clearIfDetached_srcs (w : World) (d : Bool) (c : Nat) :
    (clearIfDetached w d c).srcs = w.srcs := by
  unfold clearIfDetached
  split <;> rfl

theorem clearIfDetached_waitsets (w : World) (d : Bool) (c : Nat) :
    (clearIfDetached w d c).waitsets = w.waitsets := by
  unfold clearIfDetached
  split <;> rfl

theorem clearIfDetached_cond_keys (w : World) (d : Bool) (c : Nat) :
    (clearIfDetached w d c).conds.map Prod.fst = w.conds.map Prod.fst := by
  unfold clearIfDetached
  split
  · simp [setCond, alUpdate_keys]
  · rfl

theorem applyCondAttach_srcs (w : World) (c thisId : Nat) :
    (applyCondAttach w c thisId).1.srcs = w.srcs := by
  unfold applyCondAttach
  split <;> rfl

theorem applyCondAttach_waitsets (w : World) (c thisId : Nat) :
    (applyCondAttach w c thisId).1.waitsets = w.waitsets := by
  unfold applyCondAttach
  split <;> rfl

theorem applyCondAttach_cond_keys (w : World) (c thisId : Nat) :
    (applyCondAttach w c thisId).1.conds.map Prod.fst =
      w.conds.map Prod.fst := by
  unfold applyCondAttach
  split
  · rfl
  · simp [setCond, alUpdate_keys]

theorem getWS_eq_of_waitsets {w w2 : World} (h : w2.waitsets = w.waitsets)
    (j : Nat) : getWS w2 j = getWS w j := by
  simp [getWS, h]

theorem eventResetStep_srcs (thisId e : Nat) (st : AttachSt) :
    (eventResetStep thisId e st).1.1.srcs = st.1.srcs := by
  simp only [eventResetStep]
  split
  · exact invalidateOther_srcs _ _ _
  · simp only [setCond_srcs, clearIfDetached_srcs]
    exact invalidateOther_srcs _ _ _

theorem eventResetStep_ws_keys (thisId e : Nat) (st : AttachSt) :
    (eventResetStep thisId e st).1.1.waitsets.map Prod.fst =
      st.1.waitsets.map Prod.fst := by
  simp only [eventResetStep]
  split
  · exact invalidateOther_ws_keys _ _ _
  · simp only [setCond_waitsets, clearIfDetached_waitsets]
    exact invalidateOther_ws_keys _ _ _

theorem eventResetStep_getWS (thisId e : Nat) (st : AttachSt) :
    getWS (eventResetStep thisId e st).1.1 thisId =
      getWS st.1 thisId := by
  simp only [eventResetStep]
  split
  · exact invalidateOther_getWS_this _ _ _
  · rw [getWS_setCond,
      getWS_eq_of_waitsets (clearIfDetached_waitsets _ _ _)]
    exact invalidateOther_getWS_this _ _ _

theorem eventResetStep_log (thisId e : Nat) (st : AttachSt) :
    ∃ ext, (eventResetStep thisId e st).1.2 = st.2 ++ ext := by
  simp only [eventResetStep]
  split
  · exact ⟨_, rfl⟩
  · refine ⟨(invalidateOther st.1 thisId (condOf st.1 e)).2.1 ++
      [Action.resetCond (condOf st.1 e)], ?_⟩
    simp

theorem attachDataStep_srcs (thisId : Nat) (push : WaitSet → Nat → WaitSet)
    (x : Nat) (st : AttachSt) :
    (attachDataStep thisId push x st).1.1.srcs = st.1.srcs := by
  simp only [attachDataStep]
  split
  · exact invalidateOther_srcs _ _ _
  · split
    · simp only [setWS_srcs, applyCondAttach_srcs, setCond_srcs,
        clearIfDetached_srcs]
      exact invalidateOther_srcs _ _ _
    · simp only [applyCondAttach_srcs, setCond_srcs, clearIfDetached_srcs]
      exact invalidateOther_srcs _ _ _

theorem attachDataStep_ws_keys (thisId : Nat)
    (push : WaitSet → Nat → WaitSet) (x : Nat) (st : AttachSt) :
    (attachDataStep thisId push x st).1.1.waitsets.map Prod.fst =
      st.1.waitsets.map Prod.fst := by
  simp only [attachDataStep]
  split
  · exact invalidateOther_ws_keys _ _ _
  · split
    · simp only [setWS, alUpdate_keys, applyCondAttach_waitsets,
        setCond_waitsets, clearIfDetached_waitsets]
      exact invalidateOther_ws_keys _ _ _
    · simp only [applyCondAttach_waitsets, setCond_waitsets,
        clearIfDetached_waitsets]
      exact invalidateOther_ws_keys _ _ _

theorem attachDataStep_getWS (thisId : Nat)
    (push : WaitSet → Nat → WaitSet) (x : Nat) (st : AttachSt)
    (hws : hasWS st.1 thisId)
    (hok : (attachDataStep thisId push x st).2 = true) :
    getWS (attachDataStep thisId push x st).1.1 thisId =
      push (getWS st.1 thisId) x := by
  simp only [attachDataStep] at hok ⊢
  split at hok
  · simp at hok
  · rename_i hdel
    rw [if_neg hdel]
    split at hok
    · rename_i hatt
      rw [if_pos hatt]
      refine Eq.trans (getWS_setWS_self _ _ _ ?_) ?_
      · refine hasWS_of_keys thisId ?_ hws
        rw [applyCondAttach_waitsets, setCond_waitsets, setCond_waitsets,
          clearIfDetached_waitsets]
        exact invalidateOther_ws_keys _ _ _
      · congr 1
        rw [getWS_eq_of_waitsets (applyCondAttach_waitsets _ _ _),
          getWS_setCond, getWS_setCond,
          getWS_eq_of_waitsets (clearIfDetached_waitsets _ _ _)]
        exact invalidateOther_getWS_this _ _ _
    · simp at hok

theorem attachDataStep_log (thisId : Nat) (push : WaitSet → Nat → WaitSet)
    (x : Nat) (st : AttachSt) :
    ∃ ext, (attachDataStep thisId push x st).1.2 = st.2 ++ ext := by
  simp only [attachDataStep]
  split
  · exact ⟨_, rfl⟩
  · split
    · refine ⟨(invalidateOther st.1 thisId (condOf st.1 x)).2.1 ++
        [Action.resetCond (condOf st.1 x),
          Action.enableCond (condOf st.1 x) DDS_DATA_AVAILABLE_STATUS,
          Action.attachCond (condOf st.1 x) thisId,
          Action.attachData (condOf st.1 x)], ?_⟩
      simp
    · refine ⟨(invalidateOther st.1 thisId (condOf st.1 x)).2.1 ++
        [Action.resetCond (condOf st.1 x),
          Action.enableCond (condOf st.1 x) DDS_DATA_AVAILABLE_STATUS], ?_⟩
      simp

theorem attachEventStep_srcs (thisId e : Nat) (st : AttachSt) :
    (attachEventStep thisId e st).1.1.srcs = st.1.srcs := by
  simp only [attachEventStep]
  split
  · rfl
  · split
    · simp only [setWS_srcs, applyCondAttach_srcs, setCond_srcs]
    · simp only [applyCondAttach_srcs, setCond_srcs]

theorem attachEventStep_ws_keys (thisId e : Nat) (st : AttachSt) :
    (attachEventStep thisId e st).1.1.waitsets.map Prod.fst =
      st.1.waitsets.map Prod.fst := by
  simp only [attachEventStep]
  split
  · rfl
  · split
    · simp only [setWS, alUpdate_keys, applyCondAttach_waitsets,
        setCond_waitsets]
    · simp only [applyCondAttach_waitsets, setCond_waitsets]

theorem attachEventStep_getWS (thisId e : Nat) (st : AttachSt)
    (hws : hasWS st.1 thisId)
    (hok : (attachEventStep thisId e st).2 = true) :
    getWS (attachEventStep thisId e st).1.1 thisId =
      { getWS st.1 thisId with
        attached_events := (getWS st.1 thisId).attached_events ++ [e],
        attached_events_cache :=
          (getWS st.1 thisId).attached_events_cache ++
            [(e, condOf st.1 e)] } := by
  simp only [attachEventStep] at hok ⊢
  split at hok
  · simp at hok
  · rename_i hdel
    rw [if_neg hdel]
    split at hok
    · rename_i hatt
      rw [if_pos hatt]
      refine Eq.trans (getWS_setWS_self _ _ _ ?_) ?_
      · refine hasWS_of_keys thisId ?_ hws
        rw [applyCondAttach_waitsets, setCond_waitsets]
      · have hmid : getWS (applyCondAttach (setCond st.1 (condOf st.1 e)
            (fun cs => { cs with enabled_statuses :=
              (srcInfo st.1 e).statusMask })) (condOf st.1 e) thisId).1
            thisId = getWS st.1 thisId := by
          rw [getWS_eq_of_waitsets (applyCondAttach_waitsets _ _ _),
            getWS_setCond]
        rw [hmid]
    · simp at hok

theorem attachEventStep_log (thisId e : Nat) (st : AttachSt) :
    ∃ ext, (attachEventStep thisId e st).1.2 = st.2 ++ ext := by
  simp only [attachEventStep]
  split
  · exact ⟨[], by simp⟩
  · split
    · exact ⟨[Action.enableCond (condOf st.1 e) (srcInfo st.1 e).statusMask,
        Action.attachCond (condOf st.1 e) thisId], rfl⟩
    · exact ⟨[Action.enableCond (condOf st.1 e) (srcInfo st.1 e).statusMask],
        rfl⟩

theorem attachGcStep_srcs (thisId g : Nat) (st : AttachSt) :
    (attachGcStep thisId g st).1.1.srcs = st.1.srcs := by
  simp only [attachGcStep]
  split
  · exact invalidateOther_srcs _ _ _
  · split
    · simp only [setWS_srcs, applyCondAttach_srcs, clearIfDetached_srcs]
      exact invalidateOther_srcs _ _ _
    · simp only [applyCondAttach_srcs, clearIfDetached_srcs]
      exact invalidateOther_srcs _ _ _

theorem attachGcStep_ws_keys (thisId g : Nat) (st : AttachSt) :
    (attachGcStep thisId g st).1.1.waitsets.map Prod.fst =
      st.1.waitsets.map Prod.fst := by
  simp only [attachGcStep]
  split
  · exact invalidateOther_ws_keys _ _ _
  · split
    · simp only [setWS, alUpdate_keys, applyCondAttach_waitsets,
        clearIfDetached_waitsets]
      exact invalidateOther_ws_keys _ _ _
    · simp only [applyCondAttach_waitsets, clearIfDetached_waitsets]
      exact invalidateOther_ws_keys _ _ _

theorem attachGcStep_getWS (thisId g : Nat) (st : AttachSt)
    (hws : hasWS st.1 thisId)
    (hok : (attachGcStep thisId g st).2 = true) :
    getWS (attachGcStep thisId g st).1.1 thisId =
      { getWS st.1 thisId with attached_conditions :=
          (getWS st.1 thisId).attached_conditions ++ [g] } := by
  simp only [attachGcStep] at hok ⊢
  split at hok
  · simp at hok
  · rename_i hdel
    rw [if_neg hdel]
    split at hok
    · rename_i hatt
      rw [if_pos hatt]
      refine Eq.trans (getWS_setWS_self _ _ _ ?_) ?_
      · refine hasWS_of_keys thisId ?_ hws
        rw [applyCondAttach_waitsets, clearIfDetached_waitsets]
        exact invalidateOther_ws_keys _ _ _
      · have hmid : getWS (applyCondAttach (clearIfDetached
            (invalidateOther st.1 thisId g).1
            (invalidateOther st.1 thisId g).2.2 g) g thisId).1 thisId =
            getWS st.1 thisId := by
          rw [getWS_eq_of_waitsets (applyCondAttach_waitsets _ _ _),
            getWS_eq_of_waitsets (clearIfDetached_waitsets _ _ _)]
          exact invalidateOther_getWS_this _ _ _
        rw [hmid]
    · simp at hok

theorem attachGcStep_log (thisId g : Nat) (st : AttachSt) :
    ∃ ext, (attachGcStep thisId g st).1.2 = st.2 ++ ext := by
  simp only [attachGcStep]
  split
  · exact ⟨_, rfl⟩
  · split
    · refine ⟨(invalidateOther st.1 thisId g).2.1 ++
        [Action.attachCond g thisId], ?_⟩
      simp
    · refine ⟨(invalidateOther st.1 thisId g).2.1, ?_⟩
      rfl

theorem runLoop_frame (step : Nat → AttachSt → AttachSt × Bool)
    (hsrcs : ∀ x st, (step x st).1.1.srcs = st.1.srcs)
    (hkeys : ∀ x st, (step x st).1.1.waitsets.map Prod.fst =
      st.1.waitsets.map Prod.fst) :
    ∀ (l : List Nat) (st : AttachSt),
      (runLoop step l st).1.1.srcs = st.1.srcs ∧
      (runLoop step l st).1.1.waitsets.map Prod.fst =
        st.1.waitsets.map Prod.fst := by
  intro l
  induction l with
  | nil => intro st; exact ⟨rfl, rfl⟩
  | cons x xs ih =>
    intro st
    simp only [runLoop]
    by_cases hfl : (step x st).2 = true
    · rw [if_pos hfl]
      rcases ih (step x st).1 with ⟨h1, h2⟩
      exact ⟨h1.trans (hsrcs x st), h2.trans (hkeys x st)⟩
    · rw [if_neg hfl]
      exact ⟨hsrcs x st, hkeys x st⟩

theorem runLoop_log (step : Nat → AttachSt → AttachSt × Bool)
    (hlog : ∀ x st, ∃ ext, (step x st).1.2 = st.2 ++ ext) :
    ∀ (l : List Nat) (st : AttachSt),
      ∃ ext, (runLoop step l st).1.2 = st.2 ++ ext := by
  intro l
  induction l with
  | nil => intro st; exact ⟨[], by simp [runLoop]⟩
  | cons x xs ih =>
    intro st
    simp only [runLoop]
    by_cases hfl : (step x st).2 = true
    · rw [if_pos hfl]
      rcases ih (step x st).1 with ⟨e2, he2⟩
      rcases hlog x st with ⟨e1, he1⟩
      exact ⟨e1 ++ e2, by rw [he2, he1, List.append_assoc]⟩
    · rw [if_neg hfl]
      exact hlog x st

theorem foldl_congr_ws {f g : WaitSet → Nat → WaitSet}
    (h : ∀ ws x, f ws x = g ws x) :
    ∀ (l : List Nat) (z : WaitSet), List.foldl f z l = List.foldl g z l := by
  intro l
  induction l with
  | nil => intro z; rfl
  | cons x xs ih =>
    intro z
    simp only [List.foldl_cons]
    rw [h z x, ih]

theorem runLoop_getWS (thisId : Nat) (step : Nat → AttachSt → AttachSt × Bool)
    (f : World → WaitSet → Nat → WaitSet)
    (hsrcs : ∀ x st, (step x st).1.1.srcs = st.1.srcs)
    (hkeys : ∀ x st, (step x st).1.1.waitsets.map Prod.fst =
      st.1.waitsets.map Prod.fst)
    (hstep : ∀ x st, hasWS st.1 thisId → (step x st).2 = true →
      getWS (step x st).1.1 thisId = f st.1 (getWS st.1 thisId) x)
    (hf : ∀ (w w2 : World) (ws : WaitSet) (x : Nat), w.srcs = w2.srcs →
      f w ws x = f w2 ws x) :
    ∀ (l : List Nat) (st : AttachSt), hasWS st.1 thisId →
      (runLoop step l st).2 = true →
      getWS (runLoop step l st).1.1 thisId =
        List.foldl (f st.1) (getWS st.1 thisId) l := by
  intro l
  induction l with
  | nil => intro st _ _; rfl
  | cons x xs ih =>
    intro st hws hok
    simp only [runLoop] at hok ⊢
    by_cases hfl : (step x st).2 = true
    · rw [if_pos hfl] at hok ⊢
      have hws2 : hasWS (step x st).1.1 thisId :=
        hasWS_of_keys thisId (hkeys x st) hws
      rw [ih (step x st).1 hws2 hok, hstep x st hws hfl,
        List.foldl_cons]
      exact foldl_congr_ws
        (fun ws y => hf (step x st).1.1 st.1 ws y (hsrcs x st)) xs _
    · rw [if_neg hfl] at hok
      exact absurd hok hfl

theorem foldl_pushSub (l : List Nat) (ws : WaitSet) :
    List.foldl pushSub ws l =
      { ws with attached_subscribers := ws.attached_subscribers ++ l } := by
  induction l generalizing ws with
  | nil => simp
  | cons x xs ih =>
    simp only [List.foldl_cons, ih, pushSub]
    simp

theorem foldl_pushClient (l : List Nat) (ws : WaitSet) :
    List.foldl pushClient ws l =
      { ws with attached_clients := ws.attached_clients ++ l } := by
  induction l generalizing ws with
  | nil => simp
  | cons x xs ih =>
    simp only [List.foldl_cons, ih, pushClient]
    simp

theorem foldl_pushService (l : List Nat) (ws : WaitSet) :
    List.foldl pushService ws l =
      { ws with attached_services := ws.attached_services ++ l } := by
  induction l generalizing ws with
  | nil => simp
  | cons x xs ih =>
    simp only [List.foldl_cons, ih, pushService]
    simp

/-- The per-element effect of the guard-condition loop on the waitset. -/
def pushGc (ws : WaitSet) (g : Nat) : WaitSet :=
  { ws with attached_conditions := ws.attached_conditions ++ [g] }

theorem foldl_pushGc (l : List Nat) (ws : WaitSet) :
    List.foldl pushGc ws l =
      { ws with attached_conditions := ws.attached_conditions ++ l } := by
  induction l generalizing ws with
  | nil => simp
  | cons x xs ih =>
    simp only [List.foldl_cons, ih, pushGc]
    simp

/-- The per-element effect of the event attach loop on the waitset. -/
def pushEvent (w : World) (ws : WaitSet) (e : Nat) : WaitSet :=
  { ws with
    attached_events := ws.attached_events ++ [e],
    attached_events_cache := ws.attached_events_cache ++ [(e, condOf w e)] }

theorem foldl_pushEvent (w : World) (l : List Nat) (ws : WaitSet) :
    List.foldl (pushEvent w) ws l =
      { ws with
        attached_events := ws.attached_events ++ l,
        attached_events_cache := ws.attached_events_cache ++
          l.map (fun e => (e, condOf w e)) } := by
  induction l generalizing ws with
  | nil => simp
  | cons x xs ih =>
    simp only [List.foldl_cons, ih, pushEvent]
    simp

theorem wsDetach_srcs (w : World) (i : Nat) :
    (wsDetach w i).2.1.srcs = w.srcs := by
  simp [wsDetach, setWS_srcs, detachConds_srcs]

theorem wsDetach_ws_keys (w : World) (i : Nat) :
    (wsDetach w i).2.1.waitsets.map Prod.fst = w.waitsets.map Prod.fst := by
  simp [wsDetach, setWS, alUpdate_keys, detachConds_waitsets]

theorem wsDetach_log (w : World) (i : Nat) :
    (wsDetach w i).2.2 =
      (wsAttachedConds w (getWS w i)).map Action.detachCond := by
  simp [wsDetach, detachConds_log]

theorem wsDetach_getWS (w : World) (i : Nat) (hws : hasWS w i) :
    getWS (wsDetach w i).2.1 i =
      { getWS w i with
        attached_subscribers := [],
        attached_conditions := [],
        attached_clients := [],
        attached_services := [],
        attached_events := [],
        attached_events_cache := [] } := by
  simp only [wsDetach]
  refine getWS_setWS_self _ _ _ ?_
  have : (detachConds w (wsAttachedConds w (getWS w i))).1.waitsets =
      w.waitsets := detachConds_waitsets _ _
  rw [this]
  exact hws

/-- A log that begins with the given base actions. -/
def LogExt (base l : List Action) : Prop := ∃ rest, l = base ++ rest

theorem LogExt_refl (base : List Action) : LogExt base base :=
  ⟨[], by simp⟩

theorem LogExt_step {base l l2 : List Action} (h : LogExt base l)
    (h2 : ∃ ext, l2 = l ++ ext) : LogExt base l2 := by
  rcases h with ⟨r1, hr1⟩
  rcases h2 with ⟨r2, hr2⟩
  exact ⟨r1 ++ r2, by rw [hr2, hr1, List.append_assoc]⟩

theorem require_attach_iff (a : List Nat) (n : Option (List Nat)) :
    require_attach a n = false ↔ n.getD [] = a := by
  cases n with
  | none =>
    simp only [require_attach, Option.getD]
    constructor
    · intro h
      have hlen : a.length = 0 := by simpa using h
      exact (List.eq_nil_of_length_eq_zero hlen).symm
    · intro h
      rw [← h]
      simp
  | some l =>
    simp only [require_attach, Option.getD]
    by_cases h0 : l.length = 0
    · rw [if_pos h0]
      have hl : l = [] := List.eq_nil_of_length_eq_zero h0
      subst hl
      constructor
      · intro h
        have hlen : a.length = 0 := by simpa using h
        exact (List.eq_nil_of_length_eq_zero hlen).symm
      · intro h
        rw [← h]
        simp
    · rw [if_neg h0]
      by_cases hlen : l.length ≠ a.length
      · rw [if_pos hlen]
        constructor
        · intro h
          simp at h
        · intro h
          subst h
          exact absurd rfl hlen
      · rw [if_neg hlen]
        simp

theorem runLoop_getWS_const (thisId : Nat)
    (step : Nat → AttachSt → AttachSt × Bool)
    (hstep : ∀ x st, getWS (step x st).1.1 thisId = getWS st.1 thisId) :
    ∀ (l : List Nat) (st : AttachSt),
      getWS (runLoop step l st).1.1 thisId = getWS st.1 thisId := by
  intro l
  induction l with
  | nil => intro st; rfl
  | cons x xs ih =>
    intro st
    simp only [runLoop]
    by_cases hfl : (step x st).2 = true
    · rw [if_pos hfl]
      exact (ih (step x st).1).trans (hstep x st)
    · rw [if_neg hfl]
      exact hstep x st

/-- C4: `require_attach` returns false exactly when the caller array is
positionally identical to the attached list (first conjunct); when all five
checks report no change, `attach` does nothing at all — no detach, no
re-attach, no status reconfiguration, world unchanged, empty action log
(second conjunct); when any check reports a change, the full previously
attached set is detached (the action log begins with a detach of every
attached condition) and, if the call succeeds, the five attached lists are
rebuilt to exactly the caller's arrays (third conjunct). -/
theorem attach_skip_iff_identical (w : World) (thisId : Nat)
    (subs gcs srvs cls evs : Option (List Nat)) (hws : hasWS w thisId) :
    (∀ (a : List Nat) (n : Option (List Nat)),
      require_attach a n = false ↔ n.getD [] = a) ∧
    (require_attach (getWS w thisId).attached_subscribers subs = false →
      require_attach (getWS w thisId).attached_conditions gcs = false →
      require_attach (getWS w thisId).attached_events evs = false →
      require_attach (getWS w thisId).attached_services srvs = false →
      require_attach (getWS w thisId).attached_clients cls = false →
      attachSources w thisId subs gcs srvs cls evs = (RetCode.ok, w, [])) ∧
    ((require_attach (getWS w thisId).attached_subscribers subs ||
        require_attach (getWS w thisId).attached_conditions gcs ||
        require_attach (getWS w thisId).attached_events evs ||
        require_attach (getWS w thisId).attached_services srvs ||
        require_attach (getWS w thisId).attached_clients cls) = true →
      LogExt ((wsAttachedConds w (getWS w thisId)).map Action.detachCond)
        (attachSources w thisId subs gcs srvs cls evs).2.2 ∧
      ((attachSources w thisId subs gcs srvs cls evs).1 = RetCode.ok →
        getWS (attachSources w thisId subs gcs srvs cls evs).2.1 thisId =
          { state := (getWS w thisId).state,
            attached_subscribers := subs.getD [],
            attached_conditions := gcs.getD [],
            attached_clients := cls.getD [],
            attached_services := srvs.getD [],
            attached_events := evs.getD [],
            attached_events_cache :=
              (evs.getD []).map (fun e => (e, condOf w e)) })) := by
  refine ⟨require_attach_iff, ?_, ?_⟩
  · intro h1 h2 h3 h4 h5
    simp [attachSources, h1, h2, h3, h4, h5]
  · intro hrf
    have hbase : LogExt
        ((wsAttachedConds w (getWS w thisId)).map Action.detachCond)
        (wsDetach w thisId).2.2 := by
      rw [wsDetach_log]
      exact LogExt_refl _
    simp only [attachSources]
    rw [if_neg (by simp [hrf])]
    set d := wsDetach w thisId with hd
    set st0 : AttachSt := (d.2.1, d.2.2) with hst0
    set r1 := runLoop (eventResetStep thisId) (evs.getD []) st0 with hr1
    set r2 := runLoop (attachDataStep thisId pushSub) (subs.getD []) r1.1
      with hr2
    set r3 := runLoop (attachDataStep thisId pushClient) (cls.getD []) r2.1
      with hr3
    set r4 := runLoop (attachDataStep thisId pushService) (srvs.getD [])
      r3.1 with hr4
    set r5 := runLoop (attachEventStep thisId) (evs.getD []) r4.1 with hr5
    set r6 := runLoop (attachGcStep thisId) (gcs.getD []) r5.1 with hr6
    have E1 : LogExt
        ((wsAttachedConds w (getWS w thisId)).map Action.detachCond)
        r1.1.2 := by
      refine LogExt_step hbase ?_
      rw [hr1]
      exact runLoop_log _ (eventResetStep_log thisId) _ st0
    have E2 : LogExt
        ((wsAttachedConds w (getWS w thisId)).map Action.detachCond)
        r2.1.2 := by
      refine LogExt_step E1 ?_
      rw [hr2]
      exact runLoop_log _ (attachDataStep_log thisId pushSub) _ r1.1
    have E3 : LogExt
        ((wsAttachedConds w (getWS w thisId)).map Action.detachCond)
        r3.1.2 := by
      refine LogExt_step E2 ?_
      rw [hr3]
      exact runLoop_log _ (attachDataStep_log thisId pushClient) _ r2.1
    have E4 : LogExt
        ((wsAttachedConds w (getWS w thisId)).map Action.detachCond)
        r4.1.2 := by
      refine LogExt_step E3 ?_
      rw [hr4]
      exact runLoop_log _ (attachDataStep_log thisId pushService) _ r3.1
    have E5 : LogExt
        ((wsAttachedConds w (getWS w thisId)).map Action.detachCond)
        r5.1.2 := by
      refine LogExt_step E4 ?_
      rw [hr5]
      exact runLoop_log _ (attachEventStep_log thisId) _ r4.1
    have E6 : LogExt
        ((wsAttachedConds w (getWS w thisId)).map Action.detachCond)
        r6.1.2 := by
      refine LogExt_step E5 ?_
      rw [hr6]
      exact runLoop_log _ (attachGcStep_log thisId) _ r5.1
    by_cases h1 : r1.2 = true
    case neg =>
      rw [if_pos (by simpa using h1)]
      exact ⟨E1, fun hok => by simp at hok⟩
    rw [if_neg (by simpa using h1)]
    by_cases h2 : r2.2 = true
    case neg =>
      rw [if_pos (by simpa using h2)]
      exact ⟨E2, fun hok => by simp at hok⟩
    rw [if_neg (by simpa using h2)]
    by_cases h3 : r3.2 = true
    case neg =>
      rw [if_pos (by simpa using h3)]
      exact ⟨E3, fun hok => by simp at hok⟩
    rw [if_neg (by simpa using h3)]
    by_cases h4 : r4.2 = true
    case neg =>
      rw [if_pos (by simpa using h4)]
      exact ⟨E4, fun hok => by simp at hok⟩
    rw [if_neg (by simpa using h4)]
    by_cases h5 : r5.2 = true
    case neg =>
      rw [if_pos (by simpa using h5)]
      exact ⟨E5, fun hok => by simp at hok⟩
    rw [if_neg (by simpa using h5)]
    by_cases h6 : r6.2 = true
    case neg =>
      rw [if_pos (by simpa using h6)]
      exact ⟨E6, fun hok => by simp at hok⟩
    rw [if_neg (by simpa using h6)]
    refine ⟨E6, fun _ => ?_⟩
    have hws0 : hasWS d.2.1 thisId :=
      hasWS_of_keys thisId (by rw [hd]; exact wsDetach_ws_keys w thisId) hws
    have g0 : getWS d.2.1 thisId =
        { getWS w thisId with
          attached_subscribers := [],
          attached_conditions := [],
          attached_clients := [],
          attached_services := [],
          attached_events := [],
          attached_events_cache := [] } := by
      rw [hd]
      exact wsDetach_getWS w thisId hws
    have hfr1 := runLoop_frame (eventResetStep thisId)
      (eventResetStep_srcs thisId) (eventResetStep_ws_keys thisId)
      (evs.getD []) st0
    have hfr2 := runLoop_frame (attachDataStep thisId pushSub)
      (attachDataStep_srcs thisId pushSub)
      (attachDataStep_ws_keys thisId pushSub) (subs.getD []) r1.1
    have hfr3 := runLoop_frame (attachDataStep thisId pushClient)
      (attachDataStep_srcs thisId pushClient)
      (attachDataStep_ws_keys thisId pushClient) (cls.getD []) r2.1
    have hfr4 := runLoop_frame (attachDataStep thisId pushService)
      (attachDataStep_srcs thisId pushService)
      (attachDataStep_ws_keys thisId pushService) (srvs.getD []) r3.1
    have hfr5 := runLoop_frame (attachEventStep thisId)
      (attachEventStep_srcs thisId) (attachEventStep_ws_keys thisId)
      (evs.getD []) r4.1
    have hws1 : hasWS r1.1.1 thisId := by
      refine hasWS_of_keys thisId ?_ hws0
      rw [hr1]
      exact hfr1.2
    have hws2 : hasWS r2.1.1 thisId := by
      refine hasWS_of_keys thisId ?_ hws1
      rw [hr2]
      exact hfr2.2
    have hws3 : hasWS r3.1.1 thisId := by
      refine hasWS_of_keys thisId ?_ hws2
      rw [hr3]
      exact hfr3.2
    have hws4 : hasWS r4.1.1 thisId := by
      refine hasWS_of_keys thisId ?_ hws3
      rw [hr4]
      exact hfr4.2
    have hws5 : hasWS r5.1.1 thisId := by
      refine hasWS_of_keys thisId ?_ hws4
      rw [hr5]
      exact hfr5.2
    have hs1 : r1.1.1.srcs = w.srcs := by
      rw [hr1]
      refine hfr1.1.trans ?_
      rw [hst0, hd]
      exact wsDetach_srcs w thisId
    have hs2 : r2.1.1.srcs = w.srcs := by
      rw [hr2]
      exact hfr2.1.trans hs1
    have hs3 : r3.1.1.srcs = w.srcs := by
      rw [hr3]
      exact hfr3.1.trans hs2
    have hs4 : r4.1.1.srcs = w.srcs := by
      rw [hr4]
      exact hfr4.1.trans hs3
    have g1 : getWS r1.1.1 thisId = getWS d.2.1 thisId := by
      rw [hr1]
      exact runLoop_getWS_const thisId (eventResetStep thisId)
        (eventResetStep_getWS thisId) (evs.getD []) st0
    have g2 : getWS r2.1.1 thisId =
        List.foldl pushSub (getWS r1.1.1 thisId) (subs.getD []) := by
      rw [hr2]
      exact runLoop_getWS thisId (attachDataStep thisId pushSub)
        (fun _ ws x => pushSub ws x) (attachDataStep_srcs thisId pushSub)
        (attachDataStep_ws_keys thisId pushSub)
        (fun x st a b => attachDataStep_getWS thisId pushSub x st a b)
        (fun _ _ _ _ _ => rfl) (subs.getD []) r1.1 hws1 h2
    have g3 : getWS r3.1.1 thisId =
        List.foldl pushClient (getWS r2.1.1 thisId) (cls.getD []) := by
      rw [hr3]
      exact runLoop_getWS thisId (attachDataStep thisId pushClient)
        (fun _ ws x => pushClient ws x)
        (attachDataStep_srcs thisId pushClient)
        (attachDataStep_ws_keys thisId pushClient)
        (fun x st a b => attachDataStep_getWS thisId pushClient x st a b)
        (fun _ _ _ _ _ => rfl) (cls.getD []) r2.1 hws2 h3
    have g4 : getWS r4.1.1 thisId =
        List.foldl pushService (getWS r3.1.1 thisId) (srvs.getD []) := by
      rw [hr4]
      exact runLoop_getWS thisId (attachDataStep thisId pushService)
        (fun _ ws x => pushService ws x)
        (attachDataStep_srcs thisId pushService)
        (attachDataStep_ws_keys thisId pushService)
        (fun x st a b => attachDataStep_getWS thisId pushService x st a b)
        (fun _ _ _ _ _ => rfl) (srvs.getD []) r3.1 hws3 h4
    have g5 : getWS r5.1.1 thisId =
        List.foldl (pushEvent r4.1.1) (getWS r4.1.1 thisId)
          (evs.getD []) := by
      rw [hr5]
      exact runLoop_getWS thisId (attachEventStep thisId) pushEvent
        (attachEventStep_srcs thisId) (attachEventStep_ws_keys thisId)
        (fun x st a b => attachEventStep_getWS thisId x st a b)
        (fun wa wb ws x hsrcs => by
          unfold pushEvent
          rw [condOf_srcs_eq hsrcs])
        (evs.getD []) r4.1 hws4 h5
    have g6 : getWS r6.1.1 thisId =
        List.foldl pushGc (getWS r5.1.1 thisId) (gcs.getD []) := by
      rw [hr6]
      exact runLoop_getWS thisId (attachGcStep thisId)
        (fun _ ws x => pushGc ws x) (attachGcStep_srcs thisId)
        (attachGcStep_ws_keys thisId)
        (fun x st a b => attachGcStep_getWS thisId x st a b)
        (fun _ _ _ _ _ => rfl) (gcs.getD []) r5.1 hws5 h6
    rw [g6, foldl_pushGc, g5, foldl_pushEvent, g4, foldl_pushService,
      g3, foldl_pushClient, g2, foldl_pushSub, g1, g0]
    have hcond : ∀ e, condOf r4.1.1 e = condOf w e :=
      fun e => condOf_srcs_eq hs4 e
    simp [hcond]

/-- Witness for C4: a waitset with one attached subscriber (source 10);
re-requesting the identical array is a complete no-op, while requesting a
different source (11) begins with a full detach of the attached set. -/
theorem attach_skip_iff_identical_witness :
    (require_attach [10] (some [10]) = false ↔
      (some [10] : Option (List Nat)).getD [] = [10]) ∧
    attachSources
      ⟨[(10, ⟨20, false, 0⟩)], [(20, ⟨false, some 1, 0, true⟩)],
        [(1, ⟨WaitSetStateKind.free, [10], [], [], [], [], []⟩)]⟩
      1 (some [10]) none none none none =
      (RetCode.ok,
        ⟨[(10, ⟨20, false, 0⟩)], [(20, ⟨false, some 1, 0, true⟩)],
          [(1, ⟨WaitSetStateKind.free, [10], [], [], [], [], []⟩)]⟩, []) ∧
    LogExt
      ((wsAttachedConds
          ⟨[(10, ⟨20, false, 0⟩)], [(20, ⟨false, some 1, 0, true⟩)],
            [(1, ⟨WaitSetStateKind.free, [10], [], [], [], [], []⟩)]⟩
          (getWS
            ⟨[(10, ⟨20, false, 0⟩)], [(20, ⟨false, some 1, 0, true⟩)],
              [(1, ⟨WaitSetStateKind.free, [10], [], [], [], [], []⟩)]⟩
            1)).map Action.detachCond)
      (attachSources
        ⟨[(10, ⟨20, false, 0⟩)], [(20, ⟨false, some 1, 0, true⟩)],
          [(1, ⟨WaitSetStateKind.free, [10], [], [], [], [], []⟩)]⟩
        1 (some [11]) none none none none).2.2 :=
  ⟨(attach_skip_iff_identical
      ⟨[(10, ⟨20, false, 0⟩)], [(20, ⟨false, some 1, 0, true⟩)],
        [(1, ⟨WaitSetStateKind.free, [10], [], [], [], [], []⟩)]⟩
      1 (some [10]) none none none none rfl).1 [10] (some [10]),
    (attach_skip_iff_identical
      ⟨[(10, ⟨20, false, 0⟩)], [(20, ⟨false, some 1, 0, true⟩)],
        [(1, ⟨WaitSetStateKind.free, [10], [], [], [], [], []⟩)]⟩
      1 (some [10]) none none none none rfl).2.1
      rfl rfl rfl rfl rfl,
    ((attach_skip_iff_identical
      ⟨[(10, ⟨20, false, 0⟩)], [(20, ⟨false, some 1, 0, true⟩)],
        [(1, ⟨WaitSetStateKind.free, [10], [], [], [], [], []⟩)]⟩
      1 (some [11]) none none none none rfl).2.2 rfl).1⟩

/-! ### The attachment agreement invariant (C3) -/

/-- Decidable form of the agreement invariant: for every waitset entry and
every condition entry, the condition is found by `is_attached` in that
waitset exactly when its back-reference names that waitset. -/
def agreeInv (w : World) : Bool :=
  w.waitsets.all (fun iws =>
    w.conds.all (fun ccs =>
      is_attached w iws.2 ccs.1 ==
        decide (ccs.2.attached_waitset = some iws.1)))

/-- Propositional form of `agreeInv`. -/
def AgreeP (w : World) : Prop :=
  ∀ (i : Nat) (ws : WaitSet) (c : Nat) (cs : CondState),
    (i, ws) ∈ w.waitsets → (c, cs) ∈ w.conds →
    (is_attached w ws c = true ↔ cs.attached_waitset = some i)

theorem agreeInv_iff (w : World) : agreeInv w = true ↔ AgreeP w := by
  unfold agreeInv AgreeP
  rw [List.all_eq_true]
  constructor
  · intro h i ws c cs hw hc
    have := h (i, ws) hw
    rw [List.all_eq_true] at this
    have h2 := this (c, cs) hc
    simp only [beq_iff_eq] at h2
    rw [h2]
    simp
  · intro h p hp
    rw [List.all_eq_true]
    intro q hq
    have hiff := h p.1 p.2 q.1 q.2 hp hq
    simp only [beq_iff_eq]
    rcases Bool.eq_false_or_eq_true (is_attached w p.2 q.1) with hb | hb
    · rw [hb]
      symm
      rw [decide_eq_true_eq]
      exact hiff.mp hb
    · rw [hb]
      symm
      rw [decide_eq_false_iff_not]
      intro hcon
      have hx := hiff.mpr hcon
      rw [hb] at hx
      exact Bool.false_ne_true hx

/-- Every waitset other than the given one is FREE (single in-flight
wait). -/
def othersFree (w : World) (thisId : Nat) : Bool :=
  w.waitsets.all
    (fun p => p.1 == thisId || p.2.state == WaitSetStateKind.free)

theorem mem_alUpdate {α : Type} {l : List (Nat × α)} {k : Nat} {f : α → α}
    {p : Nat × α} :
    p ∈ alUpdate l k f ↔
      ∃ q ∈ l, p = (if q.1 = k then (q.1, f q.2) else q) := by
  unfold alUpdate
  rw [List.mem_map]
  constructor
  · rintro ⟨q, hq, rfl⟩
    exact ⟨q, hq, rfl⟩
  · rintro ⟨q, hq, rfl⟩
    exact ⟨q, hq, rfl⟩

theorem mem_of_lookup {α : Type} {l : List (Nat × α)} {k : Nat} {v : α}
    (h : l.lookup k = some v) : (k, v) ∈ l := by
  induction l with
  | nil => simp [List.lookup] at h
  | cons p t ih =>
    obtain ⟨a, b⟩ := p
    rw [List.lookup_cons] at h
    by_cases hk : k = a
    · subst hk
      simp only [beq_self_eq_true] at h
      cases h
      exact List.mem_cons_self _ _
    · have hb : (k == a) = false := by simpa using hk
      rw [hb] at h
      exact List.mem_cons_of_mem _ (ih h)

theorem detachConds_conds (w : World) (l : List Nat) :
    (detachConds w l).1.conds =
      w.conds.map (fun p => if p.1 ∈ l then (p.1, condDetach p.2) else p) := by
  induction l generalizing w with
  | nil =>
    simp [detachConds]
  | cons a t ih =>
    simp only [detachConds]
    rw [ih (setCond w a condDetach)]
    simp only [setCond, alUpdate, List.map_map]
    apply List.map_congr_left
    intro p _
    simp only [Function.comp]
    by_cases hpa : p.1 = a
    · simp only [if_pos hpa]
      by_cases hpt : p.1 ∈ t
      · simp [hpt, hpa, List.mem_cons, condDetach_idem]
      · simp [hpt, hpa, List.mem_cons, condDetach_idem]
    · simp only [if_neg hpa]
      by_cases hpt : p.1 ∈ t
      · simp [hpt, hpa, List.mem_cons]
      · simp [hpt, hpa, List.mem_cons]

theorem is_attached_congr {w w2 : World} (h : w.srcs = w2.srcs)
    (ws : WaitSet) (c : Nat) :
    is_attached w ws c = is_attached w2 ws c := by
  unfold is_attached
  rw [show (fun s => condOf w s == c) = (fun s => condOf w2 s == c) from
    funext (fun s => by rw [condOf_srcs_eq h])]

theorem is_attached_state (w : World) (ws : WaitSet)
    (st : WaitSetStateKind) (c : Nat) :
    is_attached w
      { ws with state := st } c = is_attached w ws c := rfl

theorem is_attached_iff_mem_derived (w : World) (ws : WaitSet) (c : Nat) :
    is_attached w ws c = true ↔ c ∈ wsAttachedConds w ws := by
  unfold is_attached wsAttachedConds
  simp only [Bool.or_eq_true, List.any_eq_true, List.mem_append,
    List.mem_map, List.mem_filterMap, beq_iff_eq]
  constructor
  · rintro ((((⟨s, hs, rfl⟩ | ⟨g, hg, rfl⟩) | ⟨s, hs, rfl⟩) | ⟨s, hs, rfl⟩) |
      ⟨e, he, hm⟩)
    · exact Or.inl (Or.inl (Or.inl (Or.inl ⟨s, hs, rfl⟩)))
    · exact Or.inl (Or.inl (Or.inl (Or.inr hg)))
    · exact Or.inl (Or.inl (Or.inr ⟨s, hs, rfl⟩))
    · exact Or.inl (Or.inr ⟨s, hs, rfl⟩)
    · refine Or.inr ⟨e, he, ?_⟩
      revert hm
      cases hl : ws.attached_events_cache.lookup e with
      | none => intro hm; simp at hm
      | some cc =>
        intro hm
        simp only [beq_iff_eq] at hm
        rw [hm]
  · rintro ((((⟨s, hs, rfl⟩ | hg) | ⟨s, hs, rfl⟩) | ⟨s, hs, rfl⟩) |
      ⟨e, he, hl⟩)
    · exact Or.inl (Or.inl (Or.inl (Or.inl ⟨s, hs, rfl⟩)))
    · exact Or.inl (Or.inl (Or.inl (Or.inr ⟨c, hg, rfl⟩)))
    · exact Or.inl (Or.inl (Or.inr ⟨s, hs, rfl⟩))
    · exact Or.inl (Or.inr ⟨s, hs, rfl⟩)
    · refine Or.inr ⟨e, he, ?_⟩
      rw [hl]
      simp

theorem is_attached_default (w : World) (c : Nat) :
    is_attached w (default : WaitSet) c = false := rfl

theorem hasWS_of_attached {w : World} {o c : Nat}
    (h : is_attached w (getWS w o) c = true) : hasWS w o := by
  by_cases hl : (w.waitsets.lookup o).isSome = true
  · exact hl
  · exfalso
    have : w.waitsets.lookup o = none := by
      cases hx : w.waitsets.lookup o
      · rfl
      · rw [hx] at hl; simp at hl
    rw [getWS, this] at h
    simp only [Option.getD_none] at h
    rw [is_attached_default] at h
    exact Bool.false_ne_true h

theorem bool_eq_of_iff {a b : Bool} (h : a = true ↔ b = true) : a = b := by
  cases a <;> cases b <;> simp_all

theorem lookup_of_mem_nodup {α : Type} {l : List (Nat × α)} {k : Nat} {v : α}
    (hnd : (l.map Prod.fst).Nodup) (h : (k, v) ∈ l) : l.lookup k = some v := by
  induction l with
  | nil => cases h
  | cons p t ih =>
    obtain ⟨a, b⟩ := p
    rw [List.map_cons, List.nodup_cons] at hnd
    rw [List.lookup_cons]
    rcases List.mem_cons.mp h with heq | hmem
    · injection heq with h1 h2
      subst h1
      subst h2
      simp
    · by_cases hk : k = a
      · subst hk
        exact absurd (List.mem_map.mpr ⟨(k, v), hmem, rfl⟩) hnd.1
      · have hb : (k == a) = false := by simpa using hk
        rw [hb]
        exact ih hnd.2 hmem

theorem lookup_append {α : Type} (l1 l2 : List (Nat × α)) (k : Nat) :
    (l1 ++ l2).lookup k =
      match l1.lookup k with
      | some v => some v
      | none => l2.lookup k := by
  induction l1 with
  | nil => simp [List.lookup]
  | cons p t ih =>
    obtain ⟨a, b⟩ := p
    rw [List.cons_append, List.lookup_cons, List.lookup_cons]
    by_cases hk : k = a
    · subst hk
      simp
    · have hb : (k == a) = false := by simpa using hk
      simp only [hb, if_false]
      exact ih

theorem getWS_mem {w : World} {i : Nat} (h : hasWS w i) :
    (i, getWS w i) ∈ w.waitsets := by
  rcases Option.isSome_iff_exists.mp h with ⟨v, hv⟩
  have hg : getWS w i = v := by simp [getWS, hv]
  rw [hg]
  exact mem_of_lookup hv

/-- Propositional form of `othersFree`. -/
def OthersFreeP (w : World) (t : Nat) : Prop :=
  ∀ p ∈ w.waitsets, p.1 = t ∨ p.2.state = WaitSetStateKind.free

theorem othersFree_iff (w : World) (t : Nat) :
    othersFree w t = true ↔ OthersFreeP w t := by
  unfold othersFree OthersFreeP
  rw [List.all_eq_true]
  constructor
  · intro h p hp
    have := h p hp
    simpa using this
  · intro h p hp
    rcases h p hp with h1 | h1
    · simp [h1]
    · simp [h1]

/-- Each cached event snapshot records the event's own condition: the entry
for event `e` holds `condOf w e` (the value `attach` stored there). -/
def cacheOK (w : World) : Bool :=
  w.waitsets.all (fun p =>
    p.2.attached_events_cache.all (fun q => q.2 == condOf w q.1))

/-- Propositional form of `cacheOK`. -/
def CacheOKP (w : World) : Prop :=
  ∀ (i : Nat) (ws : WaitSet), (i, ws) ∈ w.waitsets →
    ∀ p ∈ ws.attached_events_cache, p.2 = condOf w p.1

theorem cacheOK_iff (w : World) : cacheOK w = true ↔ CacheOKP w := by
  unfold cacheOK CacheOKP
  rw [List.all_eq_true]
  constructor
  · intro h i ws hm p hp
    have := h (i, ws) hm
    rw [List.all_eq_true] at this
    have := this p hp
    simpa using this
  · intro h p hp
    rw [List.all_eq_true]
    intro q hq
    have := h p.1 p.2 hp q hq
    simpa using this

theorem cacheOKP_getWS {w : World} (h : CacheOKP w) (i : Nat) :
    ∀ p ∈ (getWS w i).attached_events_cache, p.2 = condOf w p.1 := by
  intro p hp
  cases hx : w.waitsets.lookup i with
  | none =>
    rw [getWS, hx] at hp
    simp only [Option.getD_none] at hp
    cases hp
  | some ws =>
    have hg : getWS w i = ws := by simp [getWS, hx]
    rw [hg] at hp
    exact h i ws (mem_of_lookup hx) p hp

theorem is_attached_of_empty (w : World) (ws : WaitSet) (c : Nat)
    (h1 : ws.attached_subscribers = []) (h2 : ws.attached_conditions = [])
    (h3 : ws.attached_clients = []) (h4 : ws.attached_services = [])
    (h5 : ws.attached_events = []) :
    is_attached w ws c = false := by
  simp [is_attached, h1, h2, h3, h4, h5]

theorem is_attached_pushSub (w : World) (ws : WaitSet) (s c : Nat) :
    is_attached w (pushSub ws s) c =
      (is_attached w ws c || (condOf w s == c)) := by
  cases h : (condOf w s == c) <;>
    simp [is_attached, pushSub, List.any_append, h]

theorem is_attached_pushClient (w : World) (ws : WaitSet) (s c : Nat) :
    is_attached w (pushClient ws s) c =
      (is_attached w ws c || (condOf w s == c)) := by
  cases h : (condOf w s == c) <;>
    simp [is_attached, pushClient, List.any_append, h]

theorem is_attached_pushService (w : World) (ws : WaitSet) (s c : Nat) :
    is_attached w (pushService ws s) c =
      (is_attached w ws c || (condOf w s == c)) := by
  cases h : (condOf w s == c) <;>
    simp [is_attached, pushService, List.any_append, h]

theorem is_attached_pushGcList (w : World) (ws : WaitSet) (g c : Nat) :
    is_attached w
      { ws with attached_conditions := ws.attached_conditions ++ [g] } c =
      (is_attached w ws c || (g == c)) := by
  cases h : (g == c) <;>
    simp [is_attached, List.any_append, h]

theorem any_or_frame {l : List Nat} {f g : Nat → Bool} {b : Bool}
    (hmono : ∀ x ∈ l, f x = true → g x = true)
    (hnew : ∀ x ∈ l, g x = true → (f x = true ∨ b = true)) :
    (l.any g || b) = (l.any f || b) := by
  apply bool_eq_of_iff
  simp only [Bool.or_eq_true, List.any_eq_true]
  constructor
  · rintro (⟨x, hx, hg⟩ | hb)
    · rcases hnew x hx hg with h | h
      · exact Or.inl ⟨x, hx, h⟩
      · exact Or.inr h
    · exact Or.inr hb
  · rintro (⟨x, hx, hf⟩ | hb)
    · exact Or.inl ⟨x, hx, hmono x hx hf⟩
    · exact Or.inr hb

theorem is_attached_pushEvent (w : World) (ws : WaitSet) (e c2 : Nat)
    (hco : ∀ p ∈ ws.attached_events_cache, p.2 = condOf w p.1) :
    is_attached w
      { ws with
        attached_events := ws.attached_events ++ [e],
        attached_events_cache :=
          ws.attached_events_cache ++ [(e, condOf w e)] } c2 =
      (is_attached w ws c2 || (condOf w e == c2)) := by
  have hfe :
      (match (ws.attached_events_cache ++ [(e, condOf w e)]).lookup e with
       | some cc => cc == c2
       | none => false) = (condOf w e == c2) := by
    rw [lookup_append]
    cases hx : ws.attached_events_cache.lookup e with
    | none => simp [List.lookup_cons]
    | some cc =>
      have hcc : cc = condOf w e := hco (e, cc) (mem_of_lookup hx)
      simp [hcc]
  have hkey :
      (ws.attached_events.any (fun e0 =>
          match (ws.attached_events_cache ++ [(e, condOf w e)]).lookup e0 with
          | some cc => cc == c2
          | none => false) || (condOf w e == c2)) =
      (ws.attached_events.any (fun e0 =>
          match ws.attached_events_cache.lookup e0 with
          | some cc => cc == c2
          | none => false) || (condOf w e == c2)) := by
    apply any_or_frame
    · intro x _ hf
      rw [lookup_append]
      cases hx : ws.attached_events_cache.lookup x with
      | none => rw [hx] at hf; simp at hf
      | some cc => rw [hx] at hf; simpa using hf
    · intro x _ hg
      rw [lookup_append] at hg
      cases hx : ws.attached_events_cache.lookup x with
      | some cc =>
        rw [hx] at hg
        exact Or.inl (by simpa using hg)
      | none =>
        rw [hx] at hg
        right
        by_cases hxe : (x == e) = true
        · simp [List.lookup_cons, hxe] at hg
          simpa using hg
        · simp [List.lookup_cons, hxe, List.lookup] at hg
  simp only [is_attached, List.any_append, List.any_cons, List.any_nil,
    Bool.or_false, Bool.or_assoc]
  rw [hfe, hkey]

theorem wsAttachedConds_srcs {w w2 : World} (h : w.srcs = w2.srcs)
    (ws : WaitSet) : wsAttachedConds w ws = wsAttachedConds w2 ws := by
  unfold wsAttachedConds
  rw [show condOf w = condOf w2 from funext (condOf_srcs_eq h)]

theorem wsAttachedConds_state (w : World) (ws : WaitSet)
    (st : WaitSetStateKind) :
    wsAttachedConds w { ws with state := st } = wsAttachedConds w ws := rfl

theorem agreeP_setCond (w : World) (c : Nat) (f : CondState → CondState)
    (hf : ∀ cs, (f cs).attached_waitset = cs.attached_waitset)
    (hA : AgreeP w) : AgreeP (setCond w c f) := by
  intro i ws c2 cs2 hw hc
  rw [is_attached_congr (setCond_srcs w c f)]
  have hw' : (i, ws) ∈ w.waitsets := by rw [← setCond_waitsets w c f]; exact hw
  rcases mem_alUpdate.mp hc with ⟨⟨pc, pcs⟩, hp, heq⟩
  by_cases hpc : pc = c
  · rw [if_pos hpc] at heq
    have hc2 : c2 = pc := congrArg Prod.fst heq
    have hcs : cs2 = f pcs := congrArg Prod.snd heq
    rw [hcs, hf pcs, hc2]
    exact hA i ws pc pcs hw' hp
  · rw [if_neg hpc] at heq
    have hc2 : c2 = pc := congrArg Prod.fst heq
    have hcs : cs2 = pcs := congrArg Prod.snd heq
    rw [hcs, hc2]
    exact hA i ws pc pcs hw' hp

theorem agreeP_setCond_none (w : World) (c : Nat) (hA : AgreeP w)
    (hna : ∀ j ws, (j, ws) ∈ w.waitsets → is_attached w ws c = false) :
    AgreeP (setCond w c (fun cs => { cs with attached_waitset := none })) := by
  intro j ws c2 cs2 hw hc
  rw [is_attached_congr (setCond_srcs w c _)]
  have hw' : (j, ws) ∈ w.waitsets := by
    rw [← setCond_waitsets w c (fun cs => { cs with attached_waitset := none })]
    exact hw
  have hcm : (c2, cs2) ∈
      alUpdate w.conds c (fun cs => { cs with attached_waitset := none }) := hc
  rcases mem_alUpdate.mp hcm with ⟨⟨pc, pcs⟩, hp, heq⟩
  by_cases hpc : pc = c
  · rw [if_pos hpc] at heq
    have hc2 : c2 = pc := congrArg Prod.fst heq
    have hcs : cs2 = { pcs with attached_waitset := none } :=
      congrArg Prod.snd heq
    rw [hcs, hc2, hpc]
    exact iff_of_false (by simp [hna j ws hw']) (by simp)
  · rw [if_neg hpc] at heq
    have hc2 : c2 = pc := congrArg Prod.fst heq
    have hcs : cs2 = pcs := congrArg Prod.snd heq
    rw [hcs, hc2]
    exact hA j ws pc pcs hw' hp

theorem agreeP_setWS_entry (w : World) (i : Nat) (ws' : WaitSet)
    (hndw : (w.waitsets.map Prod.fst).Nodup)
    (hpt : ∀ c, is_attached w ws' c = is_attached w (getWS w i) c)
    (hA : AgreeP w) : AgreeP (setWS w i ws') := by
  intro j wsj c cs hw hc
  rw [setWS_conds] at hc
  rw [is_attached_congr (setWS_srcs w i ws')]
  have hwm : (j, wsj) ∈ alUpdate w.waitsets i (fun _ => ws') := hw
  rcases mem_alUpdate.mp hwm with ⟨⟨a, b⟩, hq, heq⟩
  by_cases hai : a = i
  · rw [if_pos hai] at heq
    have hj : j = a := congrArg Prod.fst heq
    have hwsj : wsj = ws' := congrArg Prod.snd heq
    have hlk : w.waitsets.lookup i = some b := by
      rw [← hai]
      exact lookup_of_mem_nodup hndw hq
    have hgb : getWS w i = b := by simp [getWS, hlk]
    rw [hwsj, hpt c, hgb, hj, hai]
    exact hA i b c cs (hai ▸ hq) hc
  · rw [if_neg hai] at heq
    have hj : j = a := congrArg Prod.fst heq
    have hwsj : wsj = b := congrArg Prod.snd heq
    rw [hwsj, hj]
    exact hA a b c cs hq hc

/-- The result world of `RMW_Connext_WaitSet::detach`, written out. -/
theorem wsDetach_world (w : World) (i : Nat) :
    (wsDetach w i).2.1 =
      setWS (detachConds w (wsAttachedConds w (getWS w i))).1 i
        { getWS w i with
          attached_subscribers := [],
          attached_conditions := [],
          attached_clients := [],
          attached_services := [],
          attached_events := [],
          attached_events_cache := [] } := rfl

theorem wsDetach_cond_keys (w : World) (i : Nat) :
    (wsDetach w i).2.1.conds.map Prod.fst = w.conds.map Prod.fst := by
  rw [wsDetach_world, setWS_conds, detachConds_keys]

theorem agreeP_wsDetach (w : World) (i : Nat)
    (hndw : (w.waitsets.map Prod.fst).Nodup)
    (hA : AgreeP w) : AgreeP (wsDetach w i).2.1 := by
  rw [wsDetach_world]
  intro j wsj c cs hw hc
  have hsr :
      (setWS (detachConds w (wsAttachedConds w (getWS w i))).1 i
        { getWS w i with
          attached_subscribers := [],
          attached_conditions := [],
          attached_clients := [],
          attached_services := [],
          attached_events := [],
          attached_events_cache := [] }).srcs = w.srcs := by
    rw [setWS_srcs, detachConds_srcs]
  rw [is_attached_congr hsr]
  rw [setWS_conds, detachConds_conds] at hc
  have hwq :
      (j, wsj) ∈ alUpdate w.waitsets i
        (fun _ =>
          { getWS w i with
            attached_subscribers := [],
            attached_conditions := [],
            attached_clients := [],
            attached_services := [],
            attached_events := [],
            attached_events_cache := [] }) := by
    have hws_eq :
        (setWS (detachConds w (wsAttachedConds w (getWS w i))).1 i
          { getWS w i with
            attached_subscribers := [],
            attached_conditions := [],
            attached_clients := [],
            attached_services := [],
            attached_events := [],
            attached_events_cache := [] }).waitsets =
          alUpdate w.waitsets i
            (fun _ =>
              { getWS w i with
                attached_subscribers := [],
                attached_conditions := [],
                attached_clients := [],
                attached_services := [],
                attached_events := [],
                attached_events_cache := [] }) := by
      simp [setWS, detachConds_waitsets]
    rw [← hws_eq]
    exact hw
  rcases List.mem_map.mp hc with ⟨⟨pc, pcs⟩, hp, hpe⟩
  rcases mem_alUpdate.mp hwq with ⟨⟨a, b⟩, hq, heq⟩
  by_cases hai : a = i
  · rw [if_pos hai] at heq
    have hj : j = a := congrArg Prod.fst heq
    have hwsj : wsj =
        { getWS w i with
          attached_subscribers := [],
          attached_conditions := [],
          attached_clients := [],
          attached_services := [],
          attached_events := [],
          attached_events_cache := [] } := congrArg Prod.snd heq
    have hfalse : is_attached w wsj c = false := by
      rw [hwsj]
      exact is_attached_of_empty _ _ _ rfl rfl rfl rfl rfl
    have hlk : w.waitsets.lookup i = some b := by
      rw [← hai]
      exact lookup_of_mem_nodup hndw hq
    have hgb : getWS w i = b := by simp [getWS, hlk]
    refine iff_of_false (by simp [hfalse]) ?_
    by_cases hpl : pc ∈ wsAttachedConds w (getWS w i)
    · rw [if_pos hpl] at hpe
      have hcs : condDetach pcs = cs := congrArg Prod.snd hpe
      rw [← hcs]
      simp [condDetach]
    · rw [if_neg hpl] at hpe
      have hcc : pc = c := congrArg Prod.fst hpe
      have hcs : pcs = cs := congrArg Prod.snd hpe
      have hnat : is_attached w (getWS w i) pc = false := by
        cases hb : is_attached w (getWS w i) pc
        · rfl
        · exact absurd ((is_attached_iff_mem_derived w _ pc).mp hb) hpl
      have hiff := hA i b pc pcs (hai ▸ hq) hp
      rw [hgb] at hnat
      rw [hnat] at hiff
      intro hcon
      rw [← hcs] at hcon
      have hsi : pcs.attached_waitset = some i := by rw [hcon, hj, hai]
      exact Bool.false_ne_true (hiff.mpr hsi)
  · rw [if_neg hai] at heq
    have hj : j = a := congrArg Prod.fst heq
    have hwsj : wsj = b := congrArg Prod.snd heq
    by_cases hpl : pc ∈ wsAttachedConds w (getWS w i)
    · rw [if_pos hpl] at hpe
      have hcc : pc = c := congrArg Prod.fst hpe
      have hcs : condDetach pcs = cs := congrArg Prod.snd hpe
      by_cases hhi : hasWS w i
      · have hatt : is_attached w (getWS w i) pc = true :=
          (is_attached_iff_mem_derived w _ pc).mpr hpl
        have hpi := (hA i (getWS w i) pc pcs (getWS_mem hhi) hp).mp hatt
        have hiff := hA a b pc pcs hq hp
        have hfalse : is_attached w b pc = false := by
          cases hb : is_attached w b pc
          · rfl
          · have := hiff.mp hb
            rw [hpi] at this
            exact absurd (Option.some.inj this) (fun hh => hai hh.symm)
        refine iff_of_false ?_ ?_
        · rw [hwsj, ← hcc, hfalse]
          simp
        · rw [← hcs]
          simp [condDetach]
      · have hnone : w.waitsets.lookup i = none := by
          cases hx : w.waitsets.lookup i
          · rfl
          · exact absurd (by simp [hasWS, hx]) hhi
        have hdef : getWS w i = default := by simp [getWS, hnone]
        rw [hdef] at hpl
        cases hpl
    · rw [if_neg hpl] at hpe
      have hcc : pc = c := congrArg Prod.fst hpe
      have hcs : pcs = cs := congrArg Prod.snd hpe
      rw [hwsj, hj, ← hcc, ← hcs]
      exact hA a b pc pcs hq hp

/-- The result world of the FREE path of `invalidate`, written out. -/
theorem invalidate_world_free (w : World) (o c : Nat)
    (h1 : is_attached w (getWS w o) c = true)
    (h2 : (getWS w o).state = WaitSetStateKind.free) :
    (invalidate w o c).2.1 =
      setWS
        (wsDetach
          (setWS w o { getWS w o with state := WaitSetStateKind.invalidating })
          o).2.1 o
        { getWS
            (wsDetach
              (setWS w o
                { getWS w o with state := WaitSetStateKind.invalidating })
              o).2.1 o with
          state := WaitSetStateKind.free } := by
  simp only [invalidate]
  rw [if_neg (by simp [h1]), if_pos h2]

theorem agreeP_invalidate (w : World) (o c : Nat)
    (hndw : (w.waitsets.map Prod.fst).Nodup)
    (hA : AgreeP w) : AgreeP (invalidate w o c).2.1 := by
  by_cases h1 : is_attached w (getWS w o) c = true
  · by_cases h2 : (getWS w o).state = WaitSetStateKind.free
    · rw [invalidate_world_free w o c h1 h2]
      have hA1 : AgreeP
          (setWS w o
            { getWS w o with state := WaitSetStateKind.invalidating }) :=
        agreeP_setWS_entry w o _ hndw
          (fun c2 => is_attached_state w (getWS w o) _ c2) hA
      have hndw1 :
          ((setWS w o
            { getWS w o with
              state := WaitSetStateKind.invalidating }).waitsets.map
                Prod.fst).Nodup := by
        simpa [setWS, alUpdate_keys] using hndw
      have hA2 : AgreeP
          (wsDetach
            (setWS w o
              { getWS w o with state := WaitSetStateKind.invalidating })
            o).2.1 :=
        agreeP_wsDetach _ o hndw1 hA1
      have hndw2 :
          ((wsDetach
            (setWS w o
              { getWS w o with state := WaitSetStateKind.invalidating })
            o).2.1.waitsets.map Prod.fst).Nodup := by
        rw [wsDetach_ws_keys]
        exact hndw1
      exact agreeP_setWS_entry _ o _ hndw2
        (fun c2 => is_attached_state _ _ _ c2) hA2
    · have hw : (invalidate w o c).2.1 = w := by simp [invalidate, h1, h2]
      rw [hw]
      exact hA
  · have hw : (invalidate w o c).2.1 = w := by simp [invalidate, h1]
    rw [hw]
    exact hA

theorem condState_eta (cs : CondState) (o : Option Nat)
    (h : cs.attached_waitset = o) : { cs with attached_waitset := o } = cs := by
  cases cs
  cases h
  rfl

theorem condAttach_some {cs : CondState} {i : Nat} {cs' : CondState}
    (h : condAttach cs i = some cs') :
    cs' = { cs with attached_waitset := some i } ∧
      (cs.attached_waitset = none ∨ cs.attached_waitset = some i) := by
  unfold condAttach at h
  cases hx : cs.attached_waitset with
  | none =>
    rw [hx] at h
    dsimp only at h
    exact ⟨(Option.some.inj h).symm, Or.inl rfl⟩
  | some o =>
    rw [hx] at h
    dsimp only at h
    by_cases ho : o = i
    · rw [if_pos ho] at h
      have hcc : cs = cs' := Option.some.inj h
      refine ⟨?_, Or.inr (by rw [ho])⟩
      rw [condState_eta cs (some i) (by rw [hx, ho])]
      exact hcc.symm
    · rw [if_neg ho] at h
      cases h

theorem applyCondAttach_success {w : World} {c t : Nat}
    (h : (applyCondAttach w c t).2 = true) :
    ∃ cs', condAttach (lookupCond w c) t = some cs' ∧
      (applyCondAttach w c t).1 = setCond w c (fun _ => cs') := by
  unfold applyCondAttach at h ⊢
  cases hx : condAttach (lookupCond w c) t with
  | none => rw [hx] at h; cases h
  | some cs' => exact ⟨cs', rfl, rfl⟩

theorem applyCondAttach_fail {w : World} {c t : Nat}
    (h : (applyCondAttach w c t).2 = false) :
    (applyCondAttach w c t).1 = w := by
  unfold applyCondAttach at h ⊢
  cases hx : condAttach (lookupCond w c) t with
  | none => rfl
  | some cs' => rw [hx] at h; cases h

theorem applyCondAttach_getWS (w : World) (c t j : Nat) :
    getWS (applyCondAttach w c t).1 j = getWS w j := by
  unfold applyCondAttach
  cases condAttach (lookupCond w c) t with
  | none => rfl
  | some cs' => exact getWS_setCond w c _ j

theorem agreeP_attachTo (w : World) (t c : Nat) (ws' : WaitSet)
    (hndc : (w.conds.map Prod.fst).Nodup)
    (hndw : (w.waitsets.map Prod.fst).Nodup)
    (hA : AgreeP w)
    (hsucc : (applyCondAttach w c t).2 = true)
    (hws' : ∀ c2, is_attached w ws' c2 =
      (is_attached w (getWS w t) c2 || (c == c2))) :
    AgreeP (setWS (applyCondAttach w c t).1 t ws') := by
  obtain ⟨cs', hca, happ⟩ := applyCondAttach_success hsucc
  obtain ⟨hcs', hbr⟩ := condAttach_some hca
  rw [happ]
  intro j wsj c2 cs2 hw hc
  have hsr : (setWS (setCond w c (fun _ => cs')) t ws').srcs = w.srcs := rfl
  rw [is_attached_congr hsr]
  rw [setWS_conds] at hc
  have hw' : (j, wsj) ∈ alUpdate w.waitsets t (fun _ => ws') := hw
  have hcm : (c2, cs2) ∈ alUpdate w.conds c (fun _ => cs') := hc
  rcases mem_alUpdate.mp hw' with ⟨⟨a, b⟩, hq, heqw⟩
  rcases mem_alUpdate.mp hcm with ⟨⟨pc, pcs⟩, hp, heqc⟩
  by_cases hat : a = t
  · rw [if_pos hat] at heqw
    have hj : j = t := (congrArg Prod.fst heqw).trans hat
    have hwsj : wsj = ws' := congrArg Prod.snd heqw
    by_cases hpcc : pc = c
    · rw [if_pos hpcc] at heqc
      have hc2 : c2 = c := (congrArg Prod.fst heqc).trans hpcc
      have hcs2 : cs2 = cs' := congrArg Prod.snd heqc
      rw [hwsj, hws' c2, hc2, hcs2, hcs', hj]
      simp
    · rw [if_neg hpcc] at heqc
      have hc2 : c2 = pc := congrArg Prod.fst heqc
      have hcs2 : cs2 = pcs := congrArg Prod.snd heqc
      have hne : (c == pc) = false := by
        simp only [beq_eq_false_iff_ne]
        exact fun hh => hpcc hh.symm
      rw [hwsj, hws' c2, hc2, hne, Bool.or_false, hj, hcs2]
      have hlk : w.waitsets.lookup t = some b := by
        rw [← hat]
        exact lookup_of_mem_nodup hndw hq
      have hgb : getWS w t = b := by simp [getWS, hlk]
      rw [hgb]
      exact hA t b pc pcs (hat ▸ hq) hp
  · rw [if_neg hat] at heqw
    have hj : j = a := congrArg Prod.fst heqw
    have hwsj : wsj = b := congrArg Prod.snd heqw
    by_cases hpcc : pc = c
    · rw [if_pos hpcc] at heqc
      have hc2 : c2 = c := (congrArg Prod.fst heqc).trans hpcc
      have hcs2 : cs2 = cs' := congrArg Prod.snd heqc
      have hlkc : w.conds.lookup c = some pcs := by
        rw [← hpcc]
        exact lookup_of_mem_nodup hndc hp
      have hlc : lookupCond w c = pcs := by simp [lookupCond, hlkc]
      have hiff := hA a b pc pcs hq hp
      have hfalse : is_attached w b pc = false := by
        cases hb : is_attached w b pc
        · rfl
        · have hsome := hiff.mp hb
          rcases hbr with hn | hs
          · rw [hlc] at hn
            rw [hn] at hsome
            cases hsome
          · rw [hlc] at hs
            rw [hs] at hsome
            exact absurd (Option.some.inj hsome) (fun hh => hat hh.symm)
      refine iff_of_false ?_ ?_
      · rw [hwsj, hc2, ← hpcc, hfalse]
        simp
      · rw [hcs2, hcs', hj]
        simp
        exact fun hh => hat hh.symm
    · rw [if_neg hpcc] at heqc
      have hc2 : c2 = pc := congrArg Prod.fst heqc
      have hcs2 : cs2 = pcs := congrArg Prod.snd heqc
      rw [hwsj, hj, hc2, hcs2]
      exact hA a b pc pcs hq hp

/-- The conjunction of facts maintained across `attach` and `invalidate`:
back-reference/forward-list agreement, all other waitsets FREE (the
sequential, mutex-protected usage the protocol is designed for), cache
entries recording each event's own condition, and key uniqueness (one
object per address). -/
def Inv (w : World) (t : Nat) : Prop :=
  AgreeP w ∧ OthersFreeP w t ∧ CacheOKP w ∧
    (w.conds.map Prod.fst).Nodup ∧ (w.waitsets.map Prod.fst).Nodup

theorem inv_congr {w w2 : World} (t : Nat)
    (hs : w2.srcs = w.srcs) (hw : w2.waitsets = w.waitsets)
    (hck : w2.conds.map Prod.fst = w.conds.map Prod.fst)
    (hA2 : AgreeP w2) (hI : Inv w t) : Inv w2 t := by
  obtain ⟨_, hof, hco, hndc, hndw⟩ := hI
  refine ⟨hA2, ?_, ?_, ?_, ?_⟩
  · intro p hp
    rw [hw] at hp
    exact hof p hp
  · intro i ws hm p hp
    rw [hw] at hm
    rw [condOf_srcs_eq hs]
    exact hco i ws hm p hp
  · rw [hck]
    exact hndc
  · rw [hw]
    exact hndw

theorem inv_setCond (w : World) (t c : Nat) (f : CondState → CondState)
    (hf : ∀ cs, (f cs).attached_waitset = cs.attached_waitset)
    (hI : Inv w t) : Inv (setCond w c f) t := by
  refine inv_congr t (setCond_srcs w c f) (setCond_waitsets w c f)
    (by simp [setCond, alUpdate_keys]) (agreeP_setCond w c f hf hI.1) hI

theorem mem_waitsets_invalidate_free {w : World} {o c : Nat}
    (h1 : is_attached w (getWS w o) c = true)
    (h2 : (getWS w o).state = WaitSetStateKind.free) {p : Nat × WaitSet}
    (hp : p ∈ (invalidate w o c).2.1.waitsets) :
    (p.1 = o ∧ p.2.state = WaitSetStateKind.free ∧
      p.2.attached_subscribers = [] ∧ p.2.attached_conditions = [] ∧
      p.2.attached_clients = [] ∧ p.2.attached_services = [] ∧
      p.2.attached_events = [] ∧ p.2.attached_events_cache = []) ∨
    (p ∈ w.waitsets ∧ p.1 ≠ o) := by
  rw [invalidate_world_free w o c h1 h2] at hp
  have hho : hasWS w o := hasWS_of_attached h1
  have hho1 : hasWS
      (setWS w o { getWS w o with state := WaitSetStateKind.invalidating })
      o := by
    refine hasWS_of_keys o ?_ hho
    simp [setWS, alUpdate_keys]
  have hpm : p ∈ alUpdate
      (wsDetach
        (setWS w o { getWS w o with state := WaitSetStateKind.invalidating })
        o).2.1.waitsets o
      (fun _ =>
        { getWS (wsDetach
            (setWS w o
              { getWS w o with state := WaitSetStateKind.invalidating })
            o).2.1 o with
          state := WaitSetStateKind.free }) := hp
  rcases mem_alUpdate.mp hpm with ⟨q, hq, heq⟩
  by_cases hqo : q.1 = o
  · left
    rw [if_pos hqo] at heq
    have hgot : getWS (wsDetach
        (setWS w o { getWS w o with state := WaitSetStateKind.invalidating })
        o).2.1 o =
        { getWS (setWS w o
            { getWS w o with state := WaitSetStateKind.invalidating }) o with
          attached_subscribers := [],
          attached_conditions := [],
          attached_clients := [],
          attached_services := [],
          attached_events := [],
          attached_events_cache := [] } := by
      rw [wsDetach_world]
      refine Eq.trans (getWS_setWS_self _ _ _ ?_) rfl
      rw [show (detachConds
          (setWS w o { getWS w o with state := WaitSetStateKind.invalidating })
          (wsAttachedConds
            (setWS w o { getWS w o with state := WaitSetStateKind.invalidating })
            (getWS (setWS w o
              { getWS w o with state := WaitSetStateKind.invalidating })
              o))).1.waitsets =
          (setWS w o
            { getWS w o with
              state := WaitSetStateKind.invalidating }).waitsets from
        detachConds_waitsets _ _]
      exact hho1
    rw [heq, hgot]
    exact ⟨hqo, rfl, rfl, rfl, rfl, rfl, rfl, rfl⟩
  · right
    rw [if_neg hqo] at heq
    have hq2 : q ∈ alUpdate
        (setWS w o
          { getWS w o with state := WaitSetStateKind.invalidating }).waitsets o
        (fun _ =>
          { getWS (setWS w o
              { getWS w o with state := WaitSetStateKind.invalidating }) o with
            attached_subscribers := [],
            attached_conditions := [],
            attached_clients := [],
            attached_services := [],
            attached_events := [],
            attached_events_cache := [] }) := by
      have hqq : q ∈ (wsDetach
          (setWS w o { getWS w o with state := WaitSetStateKind.invalidating })
          o).2.1.waitsets := hq
      rw [wsDetach_world] at hqq
      have hbr : q ∈ alUpdate
          (detachConds
            (setWS w o { getWS w o with state := WaitSetStateKind.invalidating })
            (wsAttachedConds
              (setWS w o
                { getWS w o with state := WaitSetStateKind.invalidating })
              (getWS (setWS w o
                { getWS w o with state := WaitSetStateKind.invalidating })
                o))).1.waitsets o
          (fun _ =>
            { getWS (setWS w o
                { getWS w o with state := WaitSetStateKind.invalidating }) o with
              attached_subscribers := [],
              attached_conditions := [],
              attached_clients := [],
              attached_services := [],
              attached_events := [],
              attached_events_cache := [] }) := hqq
      rw [show (detachConds
          (setWS w o { getWS w o with state := WaitSetStateKind.invalidating })
          (wsAttachedConds
            (setWS w o { getWS w o with state := WaitSetStateKind.invalidating })
            (getWS (setWS w o
              { getWS w o with state := WaitSetStateKind.invalidating })
              o))).1.waitsets =
          (setWS w o
            { getWS w o with
              state := WaitSetStateKind.invalidating }).waitsets from
        detachConds_waitsets _ _] at hbr
      exact hbr
    rcases mem_alUpdate.mp hq2 with ⟨r, hr, heq2⟩
    by_cases hro : r.1 = o
    · rw [if_pos hro] at heq2
      exact absurd (by rw [heq2]; exact hro) hqo
    · rw [if_neg hro] at heq2
      have hr2 : r ∈ alUpdate w.waitsets o
          (fun _ =>
            { getWS w o with state := WaitSetStateKind.invalidating }) := hr
      rcases mem_alUpdate.mp hr2 with ⟨u, hu, hequ⟩
      by_cases huo : u.1 = o
      · rw [if_pos huo] at hequ
        exact absurd (by rw [heq2, hequ]; exact huo) hqo
      · rw [if_neg huo] at hequ
        refine ⟨?_, ?_⟩
        · rw [heq, heq2, hequ]
          exact hu
        · rw [heq]
          exact hqo

theorem inv_invalidate (w : World) (o c t : Nat) (hI : Inv w t) :
    Inv (invalidate w o c).2.1 t := by
  obtain ⟨hA, hof, hco, hndc, hndw⟩ := hI
  by_cases h1 : is_attached w (getWS w o) c = true
  · by_cases h2 : (getWS w o).state = WaitSetStateKind.free
    · refine ⟨agreeP_invalidate w o c hndw hA, ?_, ?_, ?_, ?_⟩
      · intro p hp
        rcases mem_waitsets_invalidate_free h1 h2 hp with hl | hr
        · exact Or.inr hl.2.1
        · exact hof p hr.1
      · intro i ws hm p hp
        rw [condOf_srcs_eq (invalidate_srcs w o c)]
        rcases mem_waitsets_invalidate_free h1 h2 hm with hl | hr
        · rw [hl.2.2.2.2.2.2.2] at hp
          cases hp
        · exact hco i ws hr.1 p hp
      · rw [invalidate_cond_keys]
        exact hndc
      · rw [invalidate_ws_keys]
        exact hndw
    · have hw : (invalidate w o c).2.1 = w := by simp [invalidate, h1, h2]
      rw [hw]
      exact ⟨hA, hof, hco, hndc, hndw⟩
  · have hw : (invalidate w o c).2.1 = w := by simp [invalidate, h1]
    rw [hw]
    exact ⟨hA, hof, hco, hndc, hndw⟩

theorem inv_invalidateOther (w : World) (t c : Nat) (hI : Inv w t) :
    Inv (invalidateOther w t c).1 t := by
  unfold invalidateOther
  split
  · rename_i o heq
    split
    · exact inv_invalidate w o c t hI
    · exact hI
  · exact hI

theorem default_condState_attached :
    (default : CondState).attached_waitset = none := rfl

theorem notAttached_invalidateOther (w : World) (t c : Nat) (hI : Inv w t)
    (hdet : (invalidateOther w t c).2.2 = true) :
    ∀ j ws, (j, ws) ∈ (invalidateOther w t c).1.waitsets →
      is_attached (invalidateOther w t c).1 ws c = false := by
  obtain ⟨hA, hof, hco, hndc, hndw⟩ := hI
  unfold invalidateOther at hdet ⊢
  cases hx : (lookupCond w c).attached_waitset with
  | none =>
    rw [hx] at hdet
    dsimp only at hdet
    cases hdet
  | some o =>
    rw [hx] at hdet
    dsimp only at hdet
    dsimp only
    by_cases hot : o ≠ t
    · rw [if_pos hot]
      intro j ws hm
      have hlkc : ∃ y, w.conds.lookup c = some y ∧
          y.attached_waitset = some o := by
        cases hy : w.conds.lookup c with
        | none =>
          rw [lookupCond, hy] at hx
          rw [Option.getD_none, default_condState_attached] at hx
          cases hx
        | some y =>
          refine ⟨y, rfl, ?_⟩
          rw [lookupCond, hy] at hx
          simpa using hx
      obtain ⟨y, hy, hyo⟩ := hlkc
      have hym : (c, y) ∈ w.conds := mem_of_lookup hy
      by_cases ha : is_attached w (getWS w o) c = true
      · by_cases hfree : (getWS w o).state = WaitSetStateKind.free
        · rcases mem_waitsets_invalidate_free ha hfree hm with hl | hr
          · exact is_attached_of_empty _ _ _ hl.2.2.1 hl.2.2.2.1
              hl.2.2.2.2.1 hl.2.2.2.2.2.1 hl.2.2.2.2.2.2.1
          · rw [is_attached_congr (invalidate_srcs w o c)]
            cases hb : is_attached w ws c
            · rfl
            · have hsome := (hA j ws c y hr.1 hym).mp hb
              rw [hyo] at hsome
              exact absurd (Option.some.inj hsome).symm hr.2
        · have hho : hasWS w o := hasWS_of_attached ha
          rcases hof (o, getWS w o) (getWS_mem hho) with h' | h'
          · exact absurd h' hot
          · exact absurd h' hfree
      · have hwid : (invalidate w o c).2.1 = w := by simp [invalidate, ha]
        rw [hwid] at hm ⊢
        cases hb : is_attached w ws c
        · rfl
        · have hsome := (hA j ws c y hm hym).mp hb
          rw [hyo] at hsome
          have hjo : o = j := Option.some.inj hsome
          have hlk := lookup_of_mem_nodup hndw hm
          have hg : getWS w j = ws := by simp [getWS, hlk]
          rw [← hjo] at hg
          exact absurd (by rw [hg]; exact hb) ha
    · rw [if_neg hot] at hdet
      dsimp only at hdet
      cases hdet

theorem inv_clearStep (w : World) (t c : Nat) (hI : Inv w t) :
    Inv (clearIfDetached (invalidateOther w t c).1
      (invalidateOther w t c).2.2 c) t := by
  have hI1 : Inv (invalidateOther w t c).1 t := inv_invalidateOther w t c hI
  by_cases hd : (invalidateOther w t c).2.2 = true
  · rw [clearIfDetached, if_pos hd]
    exact inv_congr t (setCond_srcs _ _ _) (setCond_waitsets _ _ _)
      (by simp [setCond, alUpdate_keys])
      (agreeP_setCond_none _ c hI1.1 (notAttached_invalidateOther w t c hI hd))
      hI1
  · rw [clearIfDetached, if_neg hd]
    exact hI1

theorem inv_wsDetach_this (w : World) (t : Nat) (hI : Inv w t) :
    Inv (wsDetach w t).2.1 t := by
  obtain ⟨hA, hof, hco, hndc, hndw⟩ := hI
  refine ⟨agreeP_wsDetach w t hndw hA, ?_, ?_, ?_, ?_⟩
  · intro p hp
    rw [wsDetach_world] at hp
    have hpm : p ∈ alUpdate w.waitsets t
        (fun _ =>
          { getWS w t with
            attached_subscribers := [],
            attached_conditions := [],
            attached_clients := [],
            attached_services := [],
            attached_events := [],
            attached_events_cache := [] }) := by
      have hbr : p ∈ alUpdate
          (detachConds w (wsAttachedConds w (getWS w t))).1.waitsets t
          (fun _ =>
            { getWS w t with
              attached_subscribers := [],
              attached_conditions := [],
              attached_clients := [],
              attached_services := [],
              attached_events := [],
              attached_events_cache := [] }) := hp
      rw [show (detachConds w (wsAttachedConds w (getWS w t))).1.waitsets =
          w.waitsets from detachConds_waitsets _ _] at hbr
      exact hbr
    rcases mem_alUpdate.mp hpm with ⟨q, hq, heq⟩
    by_cases hqt : q.1 = t
    · rw [if_pos hqt] at heq
      left
      rw [heq]
      exact hqt
    · rw [if_neg hqt] at heq
      rw [heq]
      exact hof q hq
  · intro i ws hm p hp
    have hsr : (wsDetach w t).2.1.srcs = w.srcs := by
      rw [wsDetach_world, setWS_srcs, detachConds_srcs]
    rw [condOf_srcs_eq hsr]
    rw [wsDetach_world] at hm
    have hmm : (i, ws) ∈ alUpdate w.waitsets t
        (fun _ =>
          { getWS w t with
            attached_subscribers := [],
            attached_conditions := [],
            attached_clients := [],
            attached_services := [],
            attached_events := [],
            attached_events_cache := [] }) := by
      have hbr : (i, ws) ∈ alUpdate
          (detachConds w (wsAttachedConds w (getWS w t))).1.waitsets t
          (fun _ =>
            { getWS w t with
              attached_subscribers := [],
              attached_conditions := [],
              attached_clients := [],
              attached_services := [],
              attached_events := [],
              attached_events_cache := [] }) := hm
      rw [show (detachConds w (wsAttachedConds w (getWS w t))).1.waitsets =
          w.waitsets from detachConds_waitsets _ _] at hbr
      exact hbr
    rcases mem_alUpdate.mp hmm with ⟨⟨a, b⟩, hq, heq⟩
    by_cases hat : a = t
    · rw [if_pos hat] at heq
      have hws : ws =
          { getWS w t with
            attached_subscribers := [],
            attached_conditions := [],
            attached_clients := [],
            attached_services := [],
            attached_events := [],
            attached_events_cache := [] } := congrArg Prod.snd heq
      rw [hws] at hp
      cases hp
    · rw [if_neg hat] at heq
      have hws : ws = b := congrArg Prod.snd heq
      rw [hws] at hp
      exact hco a b hq p hp
  · rw [wsDetach_cond_keys]
    exact hndc
  · rw [wsDetach_ws_keys]
    exact hndw

theorem inv_attachFinish (w : World) (t c : Nat) (ws' : WaitSet)
    (hI : Inv w t)
    (hsucc : (applyCondAttach w c t).2 = true)
    (hws' : ∀ c2, is_attached w ws' c2 =
      (is_attached w (getWS w t) c2 || (c == c2)))
    (hcache : ∀ p ∈ ws'.attached_events_cache, p.2 = condOf w p.1) :
    Inv (setWS (applyCondAttach w c t).1 t ws') t := by
  obtain ⟨hA, hof, hco, hndc, hndw⟩ := hI
  refine ⟨agreeP_attachTo w t c ws' hndc hndw hA hsucc hws', ?_, ?_, ?_, ?_⟩
  · intro p hp
    have hpm : p ∈ alUpdate w.waitsets t (fun _ => ws') := by
      have hbr : p ∈ alUpdate (applyCondAttach w c t).1.waitsets t
          (fun _ => ws') := hp
      rw [applyCondAttach_waitsets] at hbr
      exact hbr
    rcases mem_alUpdate.mp hpm with ⟨q, hq, heq⟩
    by_cases hqt : q.1 = t
    · rw [if_pos hqt] at heq
      left
      rw [heq]
      exact hqt
    · rw [if_neg hqt] at heq
      rw [heq]
      exact hof q hq
  · intro i ws hm p hp
    have hsr : (setWS (applyCondAttach w c t).1 t ws').srcs = w.srcs := by
      rw [setWS_srcs, applyCondAttach_srcs]
    rw [condOf_srcs_eq hsr]
    have hmm : (i, ws) ∈ alUpdate w.waitsets t (fun _ => ws') := by
      have hbr : (i, ws) ∈ alUpdate (applyCondAttach w c t).1.waitsets t
          (fun _ => ws') := hm
      rw [applyCondAttach_waitsets] at hbr
      exact hbr
    rcases mem_alUpdate.mp hmm with ⟨⟨a, b⟩, hq, heq⟩
    by_cases hat : a = t
    · rw [if_pos hat] at heq
      have hws : ws = ws' := congrArg Prod.snd heq
      rw [hws] at hp
      exact hcache p hp
    · rw [if_neg hat] at heq
      have hws : ws = b := congrArg Prod.snd heq
      rw [hws] at hp
      exact hco a b hq p hp
  · rw [setWS_conds, applyCondAttach_cond_keys]
    exact hndc
  · have hk : (setWS (applyCondAttach w c t).1 t ws').waitsets.map Prod.fst =
        w.waitsets.map Prod.fst := by
      show (alUpdate (applyCondAttach w c t).1.waitsets t
        (fun _ => ws')).map Prod.fst = w.waitsets.map Prod.fst
      rw [alUpdate_keys, applyCondAttach_waitsets]
    rw [hk]
    exact hndw

theorem inv_eventResetStep (t e : Nat) (st : AttachSt) (hI : Inv st.1 t) :
    Inv (eventResetStep t e st).1.1 t := by
  simp only [eventResetStep]
  split
  · exact inv_invalidateOther st.1 t (condOf st.1 e) hI
  · exact inv_setCond _ t _ _ (fun cs => rfl)
      (inv_clearStep st.1 t (condOf st.1 e) hI)

theorem inv_attachPrep (w : World) (t c : Nat) (hI : Inv w t) :
    Inv (setCond (setCond (clearIfDetached (invalidateOther w t c).1
      (invalidateOther w t c).2.2 c) c
        (fun cs => { cs with enabled_statuses := 0 })) c
        (fun cs => { cs with enabled_statuses := DDS_DATA_AVAILABLE_STATUS }))
      t :=
  inv_setCond _ t _ _ (fun cs => rfl)
    (inv_setCond _ t _ _ (fun cs => rfl) (inv_clearStep w t c hI))

theorem attachPrep_srcs (w : World) (t c : Nat) :
    (setCond (setCond (clearIfDetached (invalidateOther w t c).1
      (invalidateOther w t c).2.2 c) c
        (fun cs => { cs with enabled_statuses := 0 })) c
        (fun cs =>
          { cs with enabled_statuses := DDS_DATA_AVAILABLE_STATUS })).srcs =
      w.srcs := by
  rw [setCond_srcs, setCond_srcs, clearIfDetached_srcs, invalidateOther_srcs]

theorem inv_attachDataStep (t : Nat) (push : WaitSet → Nat → WaitSet)
    (hpush1 : ∀ (w : World) (ws : WaitSet) (s c2 : Nat),
      is_attached w (push ws s) c2 =
        (is_attached w ws c2 || (condOf w s == c2)))
    (hpush2 : ∀ ws s, (push ws s).attached_events_cache =
      ws.attached_events_cache)
    (s : Nat) (st : AttachSt) (hI : Inv st.1 t) :
    Inv (attachDataStep t push s st).1.1 t := by
  simp only [attachDataStep]
  split
  · exact inv_invalidateOther st.1 t (condOf st.1 s) hI
  · rename_i hdel
    have hI4 := inv_attachPrep st.1 t (condOf st.1 s) hI
    have hsr4 := attachPrep_srcs st.1 t (condOf st.1 s)
    split
    · rename_i hsucc
      refine inv_attachFinish _ t (condOf st.1 s) _ hI4 hsucc ?_ ?_
      · intro c2
        rw [hpush1, applyCondAttach_getWS, condOf_srcs_eq hsr4]
      · intro p hp
        rw [hpush2, applyCondAttach_getWS] at hp
        exact cacheOKP_getWS hI4.2.2.1 t p hp
    · rename_i hfail
      have hfl : (applyCondAttach (setCond (setCond (clearIfDetached
          (invalidateOther st.1 t (condOf st.1 s)).1
          (invalidateOther st.1 t (condOf st.1 s)).2.2 (condOf st.1 s))
          (condOf st.1 s) (fun cs => { cs with enabled_statuses := 0 }))
          (condOf st.1 s)
          (fun cs =>
            { cs with enabled_statuses := DDS_DATA_AVAILABLE_STATUS }))
          (condOf st.1 s) t).2 = false := by
        cases hx : (applyCondAttach (setCond (setCond (clearIfDetached
            (invalidateOther st.1 t (condOf st.1 s)).1
            (invalidateOther st.1 t (condOf st.1 s)).2.2 (condOf st.1 s))
            (condOf st.1 s) (fun cs => { cs with enabled_statuses := 0 }))
            (condOf st.1 s)
            (fun cs =>
              { cs with enabled_statuses := DDS_DATA_AVAILABLE_STATUS }))
            (condOf st.1 s) t).2
        · rfl
        · exact absurd hx hfail
      rw [applyCondAttach_fail hfl]
      exact hI4

theorem inv_attachEventStep (t e : Nat) (st : AttachSt) (hI : Inv st.1 t) :
    Inv (attachEventStep t e st).1.1 t := by
  simp only [attachEventStep]
  split
  · exact hI
  · rename_i hdel
    have hI2 : Inv (setCond st.1 (condOf st.1 e)
        (fun cs =>
          { cs with enabled_statuses := (srcInfo st.1 e).statusMask })) t :=
      inv_setCond _ t _ _ (fun cs => rfl) hI
    have hsr2 : (setCond st.1 (condOf st.1 e)
        (fun cs =>
          { cs with enabled_statuses := (srcInfo st.1 e).statusMask })).srcs =
        st.1.srcs := setCond_srcs _ _ _
    split
    · rename_i hsucc
      refine inv_attachFinish _ t (condOf st.1 e) _ hI2 hsucc ?_ ?_
      · intro c2
        rw [applyCondAttach_getWS]
        have hc : condOf st.1 e = condOf (setCond st.1 (condOf st.1 e)
            (fun cs =>
              { cs with
                enabled_statuses := (srcInfo st.1 e).statusMask })) e :=
          condOf_srcs_eq hsr2.symm e
        rw [hc]
        exact is_attached_pushEvent _ _ e c2 (cacheOKP_getWS hI2.2.2.1 t)
      · intro p hp
        rw [applyCondAttach_getWS] at hp
        rcases List.mem_append.mp hp with hold | hnew
        · exact cacheOKP_getWS hI2.2.2.1 t p hold
        · have hpe : p = (e, condOf st.1 e) := by simpa using hnew
          rw [hpe]
          exact (condOf_srcs_eq hsr2.symm e : _)
    · rename_i hfail
      have hfl : (applyCondAttach (setCond st.1 (condOf st.1 e)
          (fun cs =>
            { cs with enabled_statuses := (srcInfo st.1 e).statusMask }))
          (condOf st.1 e) t).2 = false := by
        cases hx : (applyCondAttach (setCond st.1 (condOf st.1 e)
            (fun cs =>
              { cs with enabled_statuses := (srcInfo st.1 e).statusMask }))
            (condOf st.1 e) t).2
        · rfl
        · exact absurd hx hfail
      rw [applyCondAttach_fail hfl]
      exact hI2

theorem inv_attachGcStep (t g : Nat) (st : AttachSt) (hI : Inv st.1 t) :
    Inv (attachGcStep t g st).1.1 t := by
  simp only [attachGcStep]
  split
  · exact inv_invalidateOther st.1 t g hI
  · rename_i hdel
    have hI2 : Inv (clearIfDetached (invalidateOther st.1 t g).1
        (invalidateOther st.1 t g).2.2 g) t := inv_clearStep st.1 t g hI
    split
    · rename_i hsucc
      refine inv_attachFinish _ t g _ hI2 hsucc ?_ ?_
      · intro c2
        rw [applyCondAttach_getWS]
        exact is_attached_pushGcList _ _ g c2
      · intro p hp
        rw [applyCondAttach_getWS] at hp
        exact cacheOKP_getWS hI2.2.2.1 t p hp
    · rename_i hfail
      have hfl : (applyCondAttach (clearIfDetached
          (invalidateOther st.1 t g).1 (invalidateOther st.1 t g).2.2 g)
          g t).2 = false := by
        cases hx : (applyCondAttach (clearIfDetached
            (invalidateOther st.1 t g).1 (invalidateOther st.1 t g).2.2 g)
            g t).2
        · rfl
        · exact absurd hx hfail
      rw [applyCondAttach_fail hfl]
      exact hI2

theorem inv_runLoop (step : Nat → AttachSt → AttachSt × Bool) (t : Nat)
    (hstep : ∀ x st, Inv st.1 t → Inv ((step x st).1).1 t)
    (l : List Nat) (st : AttachSt) (hI : Inv st.1 t) :
    Inv ((runLoop step l st).1).1 t := by
  induction l generalizing st with
  | nil => simpa [runLoop] using hI
  | cons x xs ih =>
    simp only [runLoop]
    split
    · exact ih (step x st).1 (hstep x st hI)
    · exact hstep x st hI

theorem inv_attachSources (w : World) (t : Nat)
    (subs gcs srvs cls evs : Option (List Nat)) (hI : Inv w t) :
    Inv (attachSources w t subs gcs srvs cls evs).2.1 t := by
  have hId : Inv (wsDetach w t).2.1 t := inv_wsDetach_this w t hI
  have hI1 := inv_runLoop (eventResetStep t) t
    (fun x st => inv_eventResetStep t x st) (evs.getD [])
    ((wsDetach w t).2.1, (wsDetach w t).2.2) hId
  have hI2 := inv_runLoop (attachDataStep t pushSub) t
    (fun x st => inv_attachDataStep t pushSub is_attached_pushSub
      (fun ws s => rfl) x st) (subs.getD [])
    (runLoop (eventResetStep t) (evs.getD [])
      ((wsDetach w t).2.1, (wsDetach w t).2.2)).1 hI1
  have hI3 := inv_runLoop (attachDataStep t pushClient) t
    (fun x st => inv_attachDataStep t pushClient is_attached_pushClient
      (fun ws s => rfl) x st) (cls.getD [])
    (runLoop (attachDataStep t pushSub) (subs.getD [])
      (runLoop (eventResetStep t) (evs.getD [])
        ((wsDetach w t).2.1, (wsDetach w t).2.2)).1).1 hI2
  have hI4 := inv_runLoop (attachDataStep t pushService) t
    (fun x st => inv_attachDataStep t pushService is_attached_pushService
      (fun ws s => rfl) x st) (srvs.getD [])
    (runLoop (attachDataStep t pushClient) (cls.getD [])
      (runLoop (attachDataStep t pushSub) (subs.getD [])
        (runLoop (eventResetStep t) (evs.getD [])
          ((wsDetach w t).2.1, (wsDetach w t).2.2)).1).1).1 hI3
  have hI5 := inv_runLoop (attachEventStep t) t
    (fun x st => inv_attachEventStep t x st) (evs.getD [])
    (runLoop (attachDataStep t pushService) (srvs.getD [])
      (runLoop (attachDataStep t pushClient) (cls.getD [])
        (runLoop (attachDataStep t pushSub) (subs.getD [])
          (runLoop (eventResetStep t) (evs.getD [])
            ((wsDetach w t).2.1, (wsDetach w t).2.2)).1).1).1).1 hI4
  have hI6 := inv_runLoop (attachGcStep t) t
    (fun x st => inv_attachGcStep t x st) (gcs.getD [])
    (runLoop (attachEventStep t) (evs.getD [])
      (runLoop (attachDataStep t pushService) (srvs.getD [])
        (runLoop (attachDataStep t pushClient) (cls.getD [])
          (runLoop (attachDataStep t pushSub) (subs.getD [])
            (runLoop (eventResetStep t) (evs.getD [])
              ((wsDetach w t).2.1, (wsDetach w t).2.2)).1).1).1).1).1 hI5
  simp only [attachSources]
  split
  · exact hI
  · split
    · exact hI1
    · split
      · exact hI2
      · split
        · exact hI3
        · split
          · exact hI4
          · split
            · exact hI5
            · split
              · exact hI6
              · exact hI6

theorem invalidate_log_free (w : World) (o c : Nat)
    (h1 : is_attached w (getWS w o) c = true)
    (h2 : (getWS w o).state = WaitSetStateKind.free) :
    (invalidate w o c).2.2 =
      (wsAttachedConds w (getWS w o)).map Action.detachCond := by
  simp only [invalidate]
  rw [if_neg (by simp [h1]), if_pos h2]
  rw [wsDetach_log]
  have hho : hasWS w o := hasWS_of_attached h1
  have hg : getWS
      (setWS w o { getWS w o with state := WaitSetStateKind.invalidating })
      o = { getWS w o with state := WaitSetStateKind.invalidating } :=
    getWS_setWS_self _ _ _ hho
  rw [hg, wsAttachedConds_state,
    wsAttachedConds_srcs
      (setWS_srcs w o
        { getWS w o with state := WaitSetStateKind.invalidating }) _]

/-- C3: a Condition is attached to at most one Wait Coordinator at a time.
Under the back-reference/forward-list agreement invariant `agreeInv` (plus
the side conditions of the sequential, mutex-protected usage: every other
coordinator FREE, event snapshot caches recording each event's own
condition, and unique identifiers): (1) two coordinator entries whose
forward lists both find the same condition are the same entry; (2) the
agreement invariant is preserved by `invalidate`; (3) the agreement
invariant is preserved by a full `attach` (`attachSources`); and (4) when
`attach` processes a data source whose condition's back-reference names a
different coordinator W1, the recorded engine-operation sequence detaches
the condition (while invalidating W1) strictly before re-attaching it to
the calling coordinator. -/
theorem cond_attached_agreement (w : World) (thisId : Nat)
    (hA : agreeInv w = true) (hof : othersFree w thisId = true)
    (hck : cacheOK w = true)
    (hndc : (w.conds.map Prod.fst).Nodup)
    (hndw : (w.waitsets.map Prod.fst).Nodup) :
    (∀ i j ws1 ws2 cc ccs, (i, ws1) ∈ w.waitsets → (j, ws2) ∈ w.waitsets →
      (cc, ccs) ∈ w.conds → is_attached w ws1 cc = true →
      is_attached w ws2 cc = true → i = j) ∧
    (∀ o c, AgreeP (invalidate w o c).2.1) ∧
    (∀ subs gcs srvs cls evs,
      AgreeP (attachSources w thisId subs gcs srvs cls evs).2.1) ∧
    (∀ s o log, (lookupCond w (condOf w s)).attached_waitset = some o →
      o ≠ thisId → hasWS w o →
      (attachDataStep thisId pushSub s (w, log)).2 = true →
      ∃ l1 l2 l3, (attachDataStep thisId pushSub s (w, log)).1.2 =
        log ++ l1 ++ Action.detachCond (condOf w s) ::
          (l2 ++ Action.attachCond (condOf w s) thisId :: l3)) := by
  have hAp : AgreeP w := (agreeInv_iff w).mp hA
  have hofp : OthersFreeP w thisId := (othersFree_iff w thisId).mp hof
  have hcop : CacheOKP w := (cacheOK_iff w).mp hck
  have hInv : Inv w thisId := ⟨hAp, hofp, hcop, hndc, hndw⟩
  refine ⟨?_, ?_, ?_, ?_⟩
  · intro i j ws1 ws2 cc ccs h1 h2 hc ha1 ha2
    have e1 := (hAp i ws1 cc ccs h1 hc).mp ha1
    have e2 := (hAp j ws2 cc ccs h2 hc).mp ha2
    rw [e1] at e2
    exact Option.some.inj e2
  · intro o c
    exact (inv_invalidate w o c thisId hInv).1
  · intro subs gcs srvs cls evs
    exact (inv_attachSources w thisId subs gcs srvs cls evs hInv).1
  · intro s o log hbro hot hho hstep
    have hlkc : ∃ y, w.conds.lookup (condOf w s) = some y ∧
        y.attached_waitset = some o := by
      cases hy : w.conds.lookup (condOf w s) with
      | none =>
        rw [lookupCond, hy] at hbro
        rw [Option.getD_none, default_condState_attached] at hbro
        cases hbro
      | some y =>
        refine ⟨y, rfl, ?_⟩
        rw [lookupCond, hy] at hbro
        simpa using hbro
    obtain ⟨y, hy, hyo⟩ := hlkc
    have hym : (condOf w s, y) ∈ w.conds := mem_of_lookup hy
    have hattO : is_attached w (getWS w o) (condOf w s) = true :=
      (hAp o (getWS w o) (condOf w s) y (getWS_mem hho) hym).mpr hyo
    have hfree : (getWS w o).state = WaitSetStateKind.free := by
      rcases hofp (o, getWS w o) (getWS_mem hho) with h' | h'
      · exact absurd h' hot
      · exact h'
    have hinvlog : (invalidate w o (condOf w s)).2.2 =
        (wsAttachedConds w (getWS w o)).map Action.detachCond :=
      invalidate_log_free w o (condOf w s) hattO hfree
    have hmemc : condOf w s ∈ wsAttachedConds w (getWS w o) :=
      (is_attached_iff_mem_derived w (getWS w o) (condOf w s)).mp hattO
    obtain ⟨u1, u2, hu⟩ := List.append_of_mem hmemc
    have hio : invalidateOther w thisId (condOf w s) =
        ((invalidate w o (condOf w s)).2.1,
          (invalidate w o (condOf w s)).2.2, true) := by
      unfold invalidateOther
      rw [hbro]
      dsimp only
      rw [if_pos hot]
    simp only [attachDataStep] at hstep ⊢
    rw [hio] at hstep ⊢
    by_cases hdel : (lookupCond (invalidate w o (condOf w s)).2.1
        (condOf w s)).deleted = true
    · rw [if_pos hdel] at hstep
      cases hstep
    · rw [if_neg hdel] at hstep ⊢
      by_cases hsucc : (applyCondAttach
          (setCond (setCond (clearIfDetached
            (invalidate w o (condOf w s)).2.1 true (condOf w s))
            (condOf w s) (fun cs => { cs with enabled_statuses := 0 }))
            (condOf w s)
            (fun cs =>
              { cs with enabled_statuses := DDS_DATA_AVAILABLE_STATUS }))
          (condOf w s) thisId).2 = true
      · rw [if_pos hsucc]
        refine ⟨u1.map Action.detachCond,
          u2.map Action.detachCond ++ [Action.resetCond (condOf w s),
            Action.enableCond (condOf w s) DDS_DATA_AVAILABLE_STATUS],
          [Action.attachData (condOf w s)], ?_⟩
        dsimp only
        rw [hinvlog, hu]
        simp [List.map_append, List.append_assoc]
      · rw [if_neg hsucc] at hstep
        cases hstep

/-- Witness for `cond_attached_agreement`: a world with two coordinators,
a subscriber source attached to coordinator 2, and its condition
back-referencing coordinator 2; coordinator 1 then runs the attach step. -/
theorem cond_attached_agreement_witness :
    ((lookupCond
        ⟨[(10, ⟨100, false, 5⟩)],
       [(100, ⟨false, some 2, 0, true⟩)],
       [(1, ⟨WaitSetStateKind.free, [], [], [], [], [], []⟩),
        (2, ⟨WaitSetStateKind.free, [10], [], [], [], [], []⟩)]⟩
        (condOf
          ⟨[(10, ⟨100, false, 5⟩)],
       [(100, ⟨false, some 2, 0, true⟩)],
       [(1, ⟨WaitSetStateKind.free, [], [], [], [], [], []⟩),
        (2, ⟨WaitSetStateKind.free, [10], [], [], [], [], []⟩)]⟩ 10)).attached_waitset = some 2 ∧
      hasWS
        ⟨[(10, ⟨100, false, 5⟩)],
       [(100, ⟨false, some 2, 0, true⟩)],
       [(1, ⟨WaitSetStateKind.free, [], [], [], [], [], []⟩),
        (2, ⟨WaitSetStateKind.free, [10], [], [], [], [], []⟩)]⟩ 2 ∧
      (attachDataStep 1 pushSub 10
        (⟨[(10, ⟨100, false, 5⟩)],
       [(100, ⟨false, some 2, 0, true⟩)],
       [(1, ⟨WaitSetStateKind.free, [], [], [], [], [], []⟩),
        (2, ⟨WaitSetStateKind.free, [10], [], [], [], [], []⟩)]⟩, [])).2 = true) ∧
    ((∀ i j ws1 ws2 cc ccs,
        (i, ws1) ∈ (⟨[(10, ⟨100, false, 5⟩)],
       [(100, ⟨false, some 2, 0, true⟩)],
       [(1, ⟨WaitSetStateKind.free, [], [], [], [], [], []⟩),
        (2, ⟨WaitSetStateKind.free, [10], [], [], [], [], []⟩)]⟩ : World).waitsets →
        (j, ws2) ∈ (⟨[(10, ⟨100, false, 5⟩)],
       [(100, ⟨false, some 2, 0, true⟩)],
       [(1, ⟨WaitSetStateKind.free, [], [], [], [], [], []⟩),
        (2, ⟨WaitSetStateKind.free, [10], [], [], [], [], []⟩)]⟩ : World).waitsets →
        (cc, ccs) ∈ (⟨[(10, ⟨100, false, 5⟩)],
       [(100, ⟨false, some 2, 0, true⟩)],
       [(1, ⟨WaitSetStateKind.free, [], [], [], [], [], []⟩),
        (2, ⟨WaitSetStateKind.free, [10], [], [], [], [], []⟩)]⟩ : World).conds →
        is_attached ⟨[(10, ⟨100, false, 5⟩)],
       [(100, ⟨false, some 2, 0, true⟩)],
       [(1, ⟨WaitSetStateKind.free, [], [], [], [], [], []⟩),
        (2, ⟨WaitSetStateKind.free, [10], [], [], [], [], []⟩)]⟩ ws1 cc = true →
        is_attached ⟨[(10, ⟨100, false, 5⟩)],
       [(100, ⟨false, some 2, 0, true⟩)],
       [(1, ⟨WaitSetStateKind.free, [], [], [], [], [], []⟩),
        (2, ⟨WaitSetStateKind.free, [10], [], [], [], [], []⟩)]⟩ ws2 cc = true → i = j) ∧
      (∀ o c, AgreeP (invalidate ⟨[(10, ⟨100, false, 5⟩)],
       [(100, ⟨false, some 2, 0, true⟩)],
       [(1, ⟨WaitSetStateKind.free, [], [], [], [], [], []⟩),
        (2, ⟨WaitSetStateKind.free, [10], [], [], [], [], []⟩)]⟩ o c).2.1) ∧
      (∀ subs gcs srvs cls evs,
        AgreeP (attachSources ⟨[(10, ⟨100, false, 5⟩)],
       [(100, ⟨false, some 2, 0, true⟩)],
       [(1, ⟨WaitSetStateKind.free, [], [], [], [], [], []⟩),
        (2, ⟨WaitSetStateKind.free, [10], [], [], [], [], []⟩)]⟩ 1 subs gcs srvs cls evs).2.1) ∧
      (∀ s o log,
        (lookupCond ⟨[(10, ⟨100, false, 5⟩)],
       [(100, ⟨false, some 2, 0, true⟩)],
       [(1, ⟨WaitSetStateKind.free, [], [], [], [], [], []⟩),
        (2, ⟨WaitSetStateKind.free, [10], [], [], [], [], []⟩)]⟩
          (condOf ⟨[(10, ⟨100, false, 5⟩)],
       [(100, ⟨false, some 2, 0, true⟩)],
       [(1, ⟨WaitSetStateKind.free, [], [], [], [], [], []⟩),
        (2, ⟨WaitSetStateKind.free, [10], [], [], [], [], []⟩)]⟩ s)).attached_waitset = some o →
        o ≠ 1 → hasWS ⟨[(10, ⟨100, false, 5⟩)],
       [(100, ⟨false, some 2, 0, true⟩)],
       [(1, ⟨WaitSetStateKind.free, [], [], [], [], [], []⟩),
        (2, ⟨WaitSetStateKind.free, [10], [], [], [], [], []⟩)]⟩ o →
        (attachDataStep 1 pushSub s
          (⟨[(10, ⟨100, false, 5⟩)],
       [(100, ⟨false, some 2, 0, true⟩)],
       [(1, ⟨WaitSetStateKind.free, [], [], [], [], [], []⟩),
        (2, ⟨WaitSetStateKind.free, [10], [], [], [], [], []⟩)]⟩, log)).2 = true →
        ∃ l1 l2 l3,
          (attachDataStep 1 pushSub s
            (⟨[(10, ⟨100, false, 5⟩)],
       [(100, ⟨false, some 2, 0, true⟩)],
       [(1, ⟨WaitSetStateKind.free, [], [], [], [], [], []⟩),
        (2, ⟨WaitSetStateKind.free, [10], [], [], [], [], []⟩)]⟩, log)).1.2 =
            log ++ l1 ++ Action.detachCond (condOf ⟨[(10, ⟨100, false, 5⟩)],
       [(100, ⟨false, some 2, 0, true⟩)],
       [(1, ⟨WaitSetStateKind.free, [], [], [], [], [], []⟩),
        (2, ⟨WaitSetStateKind.free, [10], [], [], [], [], []⟩)]⟩ s) ::
              (l2 ++ Action.attachCond (condOf ⟨[(10, ⟨100, false, 5⟩)],
       [(100, ⟨false, some 2, 0, true⟩)],
       [(1, ⟨WaitSetStateKind.free, [], [], [], [], [], []⟩),
        (2, ⟨WaitSetStateKind.free, [10], [], [], [], [], []⟩)]⟩ s) 1 :: l3))) :=
  ⟨⟨by decide, by rfl, by decide⟩,
    cond_attached_agreement
      ⟨[(10, ⟨100, false, 5⟩)],
       [(100, ⟨false, some 2, 0, true⟩)],
       [(1, ⟨WaitSetStateKind.free, [], [], [], [], [], []⟩),
        (2, ⟨WaitSetStateKind.free, [10], [], [], [], [], []⟩)]⟩ 1
      (by decide) (by decide) (by decide) (by decide) (by decide)⟩

end RmwConnext

















